import Mathlib

/-!
# tumor-viz: verification of the data core

Shallow embedding of the pure logic of the dashboard (`src/js/data-loader.js`,
`filter-manager.js`, `heatmaps.js`, `parameter-evolution.js`, `simulation.js`,
`main.js`, `sequencing.js`).

Conventions of the embedding

* JavaScript numbers are modelled in exact arithmetic: a number is a rational, `NaN`,
  `+Infinity` or `-Infinity`.  The sign of zero is not modelled.  Statements marked
  "exact arithmetic" are about this model.
* Rounding is modelled separately: `binary64` rounds a rational to the nearest IEEE 754
  binary64 value, and the functions named `...Rounded` repeat the numeric functions with
  every operation rounded.  They show where a statement of exact arithmetic fails on the
  numbers the engine computes.
* A JavaScript object used as a map is an insertion-ordered association list with
  distinct keys.  The rows of the loader are created by `{}`, so the assignment under the
  name `__proto__` reaches the setter of `Object.prototype` and creates no property; this is
  modelled in `assignField`.  The other inherited names are writable data properties and are
  shadowed by an assignment like any new name.
* Strings are Lean strings, handled through their character lists.
-/

namespace TumorViz

/-! ## JavaScript numbers -/

/-- A JavaScript number in exact arithmetic. -/
inductive JSNum where
  | fin (q : ℚ)
  | posInf
  | negInf
  | nan
  deriving DecidableEq

namespace JSNum

/-- Unary minus. -/
def neg : JSNum → JSNum
  | fin q => fin (-q)
  | posInf => negInf
  | negInf => posInf
  | nan => nan

/-- The operator `+` on numbers. -/
def add : JSNum → JSNum → JSNum
  | nan, _ => nan
  | _, nan => nan
  | fin a, fin b => fin (a + b)
  | fin _, posInf => posInf
  | fin _, negInf => negInf
  | posInf, fin _ => posInf
  | negInf, fin _ => negInf
  | posInf, posInf => posInf
  | negInf, negInf => negInf
  | posInf, negInf => nan
  | negInf, posInf => nan

/-- The operator `-` on numbers. -/
def sub (a b : JSNum) : JSNum := add a (neg b)

/-- An infinity with the sign of `q` times the sign of `pos`; `NaN` for `q = 0`. -/
def infTimes (pos : Bool) (q : ℚ) : JSNum :=
  if q = 0 then nan
  else if (0 < q) = pos then posInf else negInf

/-- The operator `*` on numbers. -/
def mul : JSNum → JSNum → JSNum
  | nan, _ => nan
  | _, nan => nan
  | fin a, fin b => fin (a * b)
  | fin a, posInf => infTimes true a
  | fin a, negInf => infTimes false a
  | posInf, fin b => infTimes true b
  | negInf, fin b => infTimes false b
  | posInf, posInf => posInf
  | negInf, negInf => posInf
  | posInf, negInf => negInf
  | negInf, posInf => negInf

/-- The operator `/` on numbers: `0/0` is `NaN`, `x/0` is an infinity with the sign of `x`. -/
def div : JSNum → JSNum → JSNum
  | nan, _ => nan
  | _, nan => nan
  | fin a, fin b =>
      if b = 0 then (if a = 0 then nan else if 0 < a then posInf else negInf)
      else fin (a / b)
  | fin _, posInf => fin 0
  | fin _, negInf => fin 0
  | posInf, fin b => if 0 ≤ b then posInf else negInf
  | negInf, fin b => if 0 ≤ b then negInf else posInf
  | posInf, posInf => nan
  | negInf, negInf => nan
  | posInf, negInf => nan
  | negInf, posInf => nan

/-- The comparison `a > 0`, false for `NaN`. -/
def isPositive : JSNum → Bool
  | fin q => decide (0 < q)
  | posInf => true
  | _ => false

/-- Strict equality `===` on numbers: `NaN` differs from itself. -/
def strictEq : JSNum → JSNum → Bool
  | nan, _ => false
  | _, nan => false
  | a, b => decide (a = b)

instance : Add JSNum := ⟨add⟩
instance : Sub JSNum := ⟨sub⟩
instance : Mul JSNum := ⟨mul⟩
instance : Div JSNum := ⟨div⟩
instance : Zero JSNum := ⟨fin 0⟩

/-- The number of a natural number, such as an array length. -/
def ofNat (n : Nat) : JSNum := fin (n : ℚ)

/-- `Math.pow(x, k)` for a natural exponent `k` (the program only uses the exponent 2):
`x` multiplied `k` times, and 1 for `k = 0`, also for `NaN`. -/
def Math_pow (x : JSNum) : Nat → JSNum
  | 0 => fin 1
  | 1 => x
  | k + 2 => mul x (Math_pow x (k + 1))

/-- `Math.sqrt`: `NaN` for `NaN` and negative numbers, `+Infinity` for `+Infinity`, 0 for 0;
for a positive rational the root is not rational in general, and `root` stands for the
value the platform returns there. -/
def Math_sqrt (root : ℚ → ℚ) : JSNum → JSNum
  | fin q => if q < 0 then nan else if q = 0 then fin 0 else fin (root q)
  | posInf => posInf
  | negInf => nan
  | nan => nan

end JSNum

/-! ## JavaScript values and objects -/

/-- The values held by record fields and filter lists. -/
inductive Value where
  | undefined
  | null
  | bool (b : Bool)
  | num (x : JSNum)
  | str (s : String)
  deriving DecidableEq

namespace Value

/-- Strict equality `===`. -/
def strictEq : Value → Value → Bool
  | num a, num b => JSNum.strictEq a b
  | a, b => decide (a = b)

/-- `SameValueZero`, the equality of `Array.prototype.includes` and of `Set`:
like `===` except that `NaN` equals itself. -/
def sameValueZero (a b : Value) : Bool := decide (a = b)

/-- `ToNumber` on the values that carry a number: `undefined` is `NaN`, `null` is 0,
`true` is 1, `false` is 0.  A string is read as `NaN`; the columns that hold strings
(`simulation_id`, `sample_id`) are identifiers and never enter arithmetic. -/
def toNumber : Value → JSNum
  | undefined => JSNum.nan
  | null => JSNum.fin 0
  | bool true => JSNum.fin 1
  | bool false => JSNum.fin 0
  | num x => x
  | str _ => JSNum.nan

end Value

/-- `arr.includes(v)`. -/
def includes (arr : List Value) (v : Value) : Bool := arr.any (fun a => Value.sameValueZero a v)

/-- A JavaScript object used as a map from property names to `α`, in insertion order. -/
abbrev Obj (α : Type) := List (String × α)

namespace Obj

/-- Own property lookup, `none` when the property is absent. -/
def get? {α : Type} : Obj α → String → Option α
  | [], _ => none
  | (k, v) :: rest, key => if k = key then some v else get? rest key

/-- The assignment `o[key] = v`: overwrite in place, or append a new property. -/
def set {α : Type} : Obj α → String → α → Obj α
  | [], key, v => [(key, v)]
  | (k, w) :: rest, key, v => if k = key then (k, v) :: rest else (k, w) :: set rest key v

/-- The statement `delete o[key]`. -/
def delete {α : Type} (o : Obj α) (key : String) : Obj α := o.filter (fun kv => kv.1 ≠ key)

/-- `Object.keys(o)`. -/
def keys {α : Type} (o : Obj α) : List String := o.map Prod.fst

end Obj

/-- A parsed row of `resume.tsv`. -/
abbrev Record := Obj Value

/-- The expression `row[param]`: `undefined` for an absent property. -/
def Record.field (row : Record) (param : String) : Value := (Obj.get? row param).getD Value.undefined

/-! ## Strings -/

/-- White space as recognised by `String.prototype.trim` and by `parseFloat`. -/
def isJSWhiteSpace (c : Char) : Bool :=
  let n := c.toNat
  n = 9 ∨ n = 10 ∨ n = 11 ∨ n = 12 ∨ n = 13 ∨ n = 32 ∨ n = 160 ∨ n = 5760 ∨
  (8192 ≤ n ∧ n ≤ 8202) ∨ n = 8232 ∨ n = 8233 ∨ n = 8239 ∨ n = 8287 ∨ n = 12288 ∨ n = 65279

/-- `s.trim()` on the character list. -/
def trimChars (cs : List Char) : List Char :=
  ((cs.dropWhile isJSWhiteSpace).reverse.dropWhile isJSWhiteSpace).reverse

/-- `s.split(sep)` for a one-character separator, on the character list. -/
def splitChars (sep : Char) : List Char → List (List Char)
  | [] => [[]]
  | c :: cs =>
      if c = sep then [] :: splitChars sep cs
      else
        match splitChars sep cs with
        | [] => [[c]]
        | w :: ws => (c :: w) :: ws

/-- `s.split(sep)` for a one-character separator. -/
def jsSplit (sep : Char) (s : String) : List String := (splitChars sep s.data).map String.mk

/-- `s.trim()`. -/
def jsTrim (s : String) : String := String.mk (trimChars s.data)

/-- The line feed, the separator of lines. -/
def LF : Char := Char.ofNat 10

/-- The tabulator, the separator of fields. -/
def TAB : Char := Char.ofNat 9

/-! ## parseFloat -/

/-- A decimal digit. -/
def isDigit (c : Char) : Bool := decide (48 ≤ c.toNat ∧ c.toNat ≤ 57)

/-- The natural number written by a list of digits, most significant first. -/
def digitsValue (ds : List Char) : Nat := ds.foldl (fun acc c => 10 * acc + (c.toNat - 48)) 0

/-- The exponent part `e[+-]digits` at the head of `cs`, 0 when there is none. -/
def exponentPart (cs : List Char) : Int :=
  match cs with
  | e :: rest =>
      if e = Char.ofNat 101 ∨ e = Char.ofNat 69 then
        match rest with
        | s :: ds =>
            if s = Char.ofNat 45 then
              (if (ds.takeWhile isDigit).isEmpty then 0 else - (digitsValue (ds.takeWhile isDigit) : Int))
            else if s = Char.ofNat 43 then (digitsValue (ds.takeWhile isDigit) : Int)
            else (digitsValue (rest.takeWhile isDigit) : Int)
        | [] => 0
      else 0
  | [] => 0

/-- The unsigned part of a `StrDecimalLiteral` at the head of `cs`: `Infinity`, or digits with
an optional fraction and exponent; `NaN` when no literal starts there. -/
def unsignedLiteral (cs : List Char) : JSNum :=
  if cs.take 8 = "Infinity".data then JSNum.posInf
  else
    let ip := cs.takeWhile isDigit
    let r1 := cs.dropWhile isDigit
    let hasDot := decide (r1.head? = some (Char.ofNat 46))
    let fp := if hasDot then (r1.drop 1).takeWhile isDigit else []
    let r2 := if hasDot then (r1.drop 1).dropWhile isDigit else r1
    if ip.isEmpty ∧ fp.isEmpty then JSNum.nan
    else
      JSNum.fin (((digitsValue ip : ℚ) + (digitsValue fp : ℚ) / (10 : ℚ) ^ fp.length)
        * (10 : ℚ) ^ (exponentPart r2))

/-- `parseFloat` on a string: leading white space is skipped and the longest initial
decimal literal is read, in exact arithmetic; `NaN` when there is none. -/
def parseFloatChars (cs : List Char) : JSNum :=
  match cs.dropWhile isJSWhiteSpace with
  | c :: rest =>
      if c = Char.ofNat 45 then JSNum.neg (unsignedLiteral rest)
      else if c = Char.ofNat 43 then unsignedLiteral rest
      else unsignedLiteral (c :: rest)
  | [] => JSNum.nan

/-- `parseFloat(v)`: the argument is converted to a string first, so `undefined`, `null` and
booleans give `NaN` and a number gives itself. -/
def parseFloat : Value → JSNum
  | Value.str s => parseFloatChars s.data
  | Value.num x => x
  | _ => JSNum.nan

/-! ## data-loader.js -/

/-- The body of the `headers.forEach` callback of `parseResumeData`: the typed value that is
stored under `header` for the raw `value` (`values[index]`, `undefined` past the end). -/
def coerceField (header : String) (value : Value) : Value :=
  if header = "simulation_id" ∨ header = "sample_id" then value
  else if header = "neutral" then Value.bool (Value.strictEq value (Value.str "true"))
  else Value.num (parseFloat value)

/-- The expression `values[index]` on an array of strings. -/
def valueAt (values : List String) (index : Nat) : Value :=
  match values[index]? with
  | some s => Value.str s
  | none => Value.undefined

/-- The assignment `row[header] = value` of the `forEach` callback, on a row created by `{}`.
Every name becomes, or overwrites, an own property, except `__proto__`: that name is the
accessor property of `Object.prototype`, whose setter ignores a value that is neither an
object nor `null`, and the value assigned under it by the callback is a number
(`parseFloat`), so the assignment creates no property and changes nothing. -/
def assignField (row : Record) (header : String) (value : Value) : Record :=
  if header = "__proto__" then row else Obj.set row header value

/-- The loop body of `parseResumeData` for one data line: `row = {}` and then
`headers.forEach((header, index) => row[header] = ...)`. -/
def parseRow (headers : List String) (values : List String) : Record :=
  headers.enum.foldl
    (fun row ih => assignField row ih.2 (coerceField ih.2 (valueAt values ih.1))) []

/-- `parseResumeData(tsvText)`. -/
def parseResumeData (tsvText : String) : List Record :=
  let lines := jsSplit LF (jsTrim tsvText)
  let headers := jsSplit TAB (lines.headD "")
  (lines.drop 1).map (fun line => parseRow headers (jsSplit TAB line))

/-- The typing rule of the loader in the words of the specification: the two identifier
columns keep the raw value, `neutral` is the test "the raw value is exactly the string true",
every other column is `parseFloat` of the raw value. -/
def typedAs (header : String) (raw : Value) : Value :=
  if header = "simulation_id" ∨ header = "sample_id" then raw
  else if header = "neutral" then Value.bool (decide (raw = Value.str "true"))
  else Value.num (parseFloat raw)

/-- The lines of the trimmed text. -/
def linesOf (tsvText : String) : List String := jsSplit LF (jsTrim tsvText)

/-- The header names: the fields of the first line. -/
def headersOf (tsvText : String) : List String := jsSplit TAB ((linesOf tsvText).headD "")

/-- The positional reading of the loader for data line `k` (counted from 0 after the header
line) and header position `i`: the record of that line holds, under the header name at
position `i`, the typed `i`-th field of the line. -/
def FieldByPosition (tsvText : String) (k i : Nat) : Prop :=
  ∀ header line, (headersOf tsvText)[i]? = some header → (linesOf tsvText)[k + 1]? = some line →
    ∃ row, (parseResumeData tsvText)[k]? = some row ∧
      Record.field row header = typedAs header (valueAt (jsSplit TAB line) i)

/-- A filters object `{ parameter: [values] }`; a value list may be missing (`null`), which
the guard `!values` of `filterData` allows for. -/
abbrev FilterObj := Obj (Option (List Value))

/-- The `for (const [param, values] of Object.entries(filters))` loop of the callback given
to `data.filter` in `filterData`: `false` at the first parameter with a non-empty value list
that does not include `row[param]`, `true` when the loop ends. -/
def passesFilters : FilterObj → Record → Bool
  | [], _ => true
  | (param, values) :: rest, row =>
      match values with
      | none => passesFilters rest row
      | some vs =>
          if vs.length = 0 then passesFilters rest row
          else if !(includes vs (Record.field row param)) then false
          else passesFilters rest row

/-- `filterData(data, filters)`; `none` is a `null` or `undefined` filters object. -/
def filterData (data : List Record) (filters : Option FilterObj) : List Record :=
  match filters with
  | none => data
  | some f =>
      if (Obj.keys f).length = 0 then data
      else data.filter (fun row => passesFilters f row)

/-- A record matches a filters object, in the words of the specification: for every parameter
of the object whose value list is non-empty, the value of the record for that parameter is
a member of the list. -/
def MatchesFilters (f : FilterObj) (row : Record) : Prop :=
  ∀ kv ∈ f, kv.2.getD [] ≠ [] → Record.field row kv.1 ∈ kv.2.getD []

instance (f : FilterObj) (row : Record) : Decidable (MatchesFilters f row) := by
  unfold MatchesFilters; infer_instance

/-- `filterByNeutral(data, neutral)`: the rows with `row.neutral === neutral`. -/
def filterByNeutral (data : List Record) (neutral : Bool) : List Record :=
  data.filter (fun row => Value.strictEq (Record.field row "neutral") (Value.bool neutral))

/-- The elements of `new Set(values)` in iteration order: each value once (under
`SameValueZero`), at the place of its first occurrence. -/
def newSet (values : List Value) : List Value :=
  values.foldl (fun acc v => if includes acc v then acc else acc ++ [v]) []

/-- The comparator `(a, b) => a - b`. -/
def compareNumeric (a b : Value) : JSNum := JSNum.sub (Value.toNumber a) (Value.toNumber b)

/-- `arr.sort(comparefn)`: `undefined` elements go to the end without being compared; the
others are ordered by the comparator, `a` staying before a later `b` unless the comparator is
positive on them (a `NaN` result counts as 0).  For a comparator that is a consistent
ordering this is the sorted order every engine returns (the sort is stable); it is realised
here by insertion. -/
def jsSort (comparefn : Value → Value → JSNum) (arr : List Value) : List Value :=
  (arr.filter (fun v => v ≠ Value.undefined)).insertionSort
      (fun a b => JSNum.isPositive (comparefn a b) = false)
    ++ arr.filter (fun v => v = Value.undefined)

/-- `getUniqueValues(data, parameterName)`. -/
def getUniqueValues (data : List Record) (parameterName : String) : List Value :=
  jsSort compareNumeric (newSet (data.map (fun row => Record.field row parameterName)))

/-- The expression `arr.reduce((sum, v) => sum + v, 0)` on a column of a numeric metric.
The metric columns hold numbers (`parseResumeData` stores `parseFloat` output there), and `+`
is modelled on numbers through `ToNumber`; concatenation with a string operand is outside the
model, and the theorems on sums assume a numeric column. -/
def sumReduce (values : List Value) : JSNum :=
  values.foldl (fun sum v => JSNum.add sum (Value.toNumber v)) (JSNum.fin 0)

/-! ## heatmaps.js -/

/-- The object returned by `createPivotTable`; a `null` cell is `none`. -/
structure PivotTable where
  xLabels : List String
  yLabels : List String
  xValues : List Value
  yValues : List Value
  values : List (List (Option JSNum))

/-- The expression `vs.map(v => v.toFixed(4))`: `toFixed` is the method of numbers, so the call
throws a `TypeError` (`none`) at a value that is not a number.  `toFixed` stands for the
platform formatting `Number.prototype.toFixed`. -/
def mapToFixed (toFixed : JSNum → Nat → String) : List Value → Option (List String)
  | [] => some []
  | Value.num x :: rest => (mapToFixed toFixed rest).map (fun labels => toFixed x 4 :: labels)
  | _ :: _ => none

/-- The records `notNeutralData.filter(d => d[param1] === y && d[param2] === x)`. -/
def pivotMatches (notNeutralData : List Record) (param1 param2 : String) (y x : Value) :
    List Record :=
  notNeutralData.filter
    (fun d => Value.strictEq (Record.field d param1) y && Value.strictEq (Record.field d param2) x)

/-- One cell of the pivot matrix: the mean of the metric over the matching records, `null`
when there is none. -/
def pivotCell (notNeutralData : List Record) (param1 param2 metric : String) (y x : Value) :
    Option JSNum :=
  let matching := pivotMatches notNeutralData param1 param2 y x
  if matching.length > 0 then
    some (JSNum.div (sumReduce (matching.map (fun m => Record.field m metric)))
      (JSNum.ofNat matching.length))
  else none

/-- `createPivotTable(data, param1, param2, metric)`; `none` when formatting the labels throws. -/
def createPivotTable (toFixed : JSNum → Nat → String) (data : List Record)
    (param1 param2 metric : String) : Option PivotTable :=
  let notNeutralData := filterByNeutral data false
  let xValues := getUniqueValues notNeutralData param2
  let yValues := getUniqueValues notNeutralData param1
  let values := yValues.map (fun y =>
    xValues.map (fun x => pivotCell notNeutralData param1 param2 metric y x))
  match mapToFixed toFixed xValues, mapToFixed toFixed yValues with
  | some xLabels, some yLabels =>
      some { xLabels := xLabels, yLabels := yLabels, xValues := xValues, yValues := yValues,
             values := values }
  | _, _ => none

/-- The cell of row `i` and column `j` of the pivot matrix, `none` outside the matrix. -/
def PivotTable.cell? (t : PivotTable) (i j : Nat) : Option (Option JSNum) :=
  (t.values[i]?).bind (fun row => row[j]?)

/-- The arithmetic mean of a list of numbers: their sum divided by their count. -/
def meanOf (xs : List JSNum) : JSNum := JSNum.div xs.sum (JSNum.ofNat xs.length)

/-- The records of `population` whose `rowParam` equals `r` and whose `colParam` equals `c`
(strict equality). -/
def cellRecords (population : List Record) (rowParam colParam : String) (r c : Value) :
    List Record :=
  population.filter (fun d =>
    decide (Value.strictEq (Record.field d rowParam) r = true ∧
      Value.strictEq (Record.field d colParam) c = true))

/-- The cells of the table `t` aggregate the records of `population`: for every row key `r`
(at index `i`) and column key `c` (at index `j`) the cell exists, it is non-null if and only
if some record of `population` has `rowParam` equal to `r` and `colParam` equal to `c`, and it
is then the mean of the metric over all these records. -/
def PivotCellsOver (population : List Record) (t : PivotTable) (rowParam colParam metric : String) :
    Prop :=
  ∀ i j r c, t.yValues[i]? = some r → t.xValues[j]? = some c →
    ∃ cell, t.cell? i j = some cell ∧
      (cell ≠ none ↔ ∃ d ∈ population, Value.strictEq (Record.field d rowParam) r = true ∧
        Value.strictEq (Record.field d colParam) c = true) ∧
      (cell ≠ none → cell = some (meanOf
        ((cellRecords population rowParam colParam r c).map
          (fun d => Value.toNumber (Record.field d metric)))))

/-- The column `metric` holds a number (possibly `NaN` or an infinity) in every record. -/
def NumericColumn (records : List Record) (metric : String) : Prop :=
  ∀ d ∈ records, ∃ x, Record.field d metric = Value.num x

/-- The three records of the pivot example: two of the cohort `neutral = false`, one neutral. -/
def pivotExample : List Record :=
  [[("neutral", Value.bool false), ("a", Value.num (JSNum.fin 1)), ("b", Value.num (JSNum.fin 2)),
      ("m", Value.num (JSNum.fin 5))],
   [("neutral", Value.bool false), ("a", Value.num (JSNum.fin 3)), ("b", Value.num (JSNum.fin 4)),
      ("m", Value.num (JSNum.fin 6))],
   [("neutral", Value.bool true), ("a", Value.num (JSNum.fin 1)), ("b", Value.num (JSNum.fin 4)),
      ("m", Value.num (JSNum.fin 7))]]

/-! ## parameter-evolution.js -/

/-- The object `{ mean, std }` returned by `calculateStats`. -/
structure Stats where
  mean : JSNum
  std : JSNum
  deriving DecidableEq

/-- The inner function `calculateStats(filteredData, paramValue)` of `aggregateByParameter`;
`root` stands for the positive square roots returned by `Math.sqrt`. -/
def calculateStats (root : ℚ → ℚ) (parameter metric : String) (filteredData : List Record)
    (paramValue : Value) : Stats :=
  let values :=
    (filteredData.filter (fun row => Value.strictEq (Record.field row parameter) paramValue)).map
      (fun row => Record.field row metric)
  if values.length = 0 then { mean := JSNum.fin 0, std := JSNum.fin 0 }
  else
    let mean := JSNum.div (sumReduce values) (JSNum.ofNat values.length)
    let variance :=
      JSNum.div
        (values.foldl
          (fun sum v => JSNum.add sum (JSNum.Math_pow (JSNum.sub (Value.toNumber v) mean) 2))
          (JSNum.fin 0))
        (JSNum.ofNat values.length)
    let std := JSNum.Math_sqrt root variance
    { mean := mean, std := std }

/-- The object `{ values, neutral, not_neutral }` returned by `aggregateByParameter`. -/
structure Aggregate where
  values : List Value
  neutral : List Stats
  not_neutral : List Stats

/-- `aggregateByParameter(data, parameter, metric)`. -/
def aggregateByParameter (root : ℚ → ℚ) (data : List Record) (parameter metric : String) :
    Aggregate :=
  let uniqueValues := getUniqueValues data parameter
  let neutralData := filterByNeutral data true
  let notNeutralData := filterByNeutral data false
  { values := uniqueValues,
    neutral := uniqueValues.map (fun v => calculateStats root parameter metric neutralData v),
    not_neutral := uniqueValues.map (fun v => calculateStats root parameter metric notNeutralData v) }

/-- The metric values of the records of a cohort (`neutral = true` or `false`) whose
parameter equals `v`. -/
def partitionMetrics (data : List Record) (cohort : Bool) (parameter metric : String) (v : Value) :
    List JSNum :=
  ((filterByNeutral data cohort).filter
    (fun row => Value.strictEq (Record.field row parameter) v)).map
    (fun row => Value.toNumber (Record.field row metric))

/-- Mean and population standard deviation in the words of the specification: the mean is the
sum divided by the count, the deviation is the square root of the sum of squared differences
to the mean divided by the count (not by the count minus one). -/
def populationStats (root : ℚ → ℚ) (xs : List JSNum) : Stats :=
  { mean := xs.sum / JSNum.ofNat xs.length,
    std := JSNum.Math_sqrt root
      ((xs.map (fun x => (x - xs.sum / JSNum.ofNat xs.length) * (x - xs.sum / JSNum.ofNat xs.length))).sum
        / JSNum.ofNat xs.length) }

/-- The two records of the aggregation example: neutral, `p = 1`, metric 2 and 4. -/
def statsExample : List Record :=
  [[("neutral", Value.bool true), ("p", Value.num (JSNum.fin 1)), ("m", Value.num (JSNum.fin 2))],
   [("neutral", Value.bool true), ("p", Value.num (JSNum.fin 1)), ("m", Value.num (JSNum.fin 4))]]

/-! ## simulation.js and main.js: linear regression -/

/-- A data point `{ x, y }`. -/
structure Point where
  x : JSNum
  y : JSNum
  deriving DecidableEq

/-- The object `{ slope, intercept, r2, se, xMean, sxx, n }` returned by
`calculateLinearRegression`. -/
structure Regression where
  slope : JSNum
  intercept : JSNum
  r2 : JSNum
  se : JSNum
  xMean : JSNum
  sxx : JSNum
  n : Nat
  deriving DecidableEq

/-- `calculateLinearRegression(dataPoints)`, the same function in `simulation.js` and in
`main.js`; `root` stands for the positive square roots returned by `Math.sqrt`.  The unused
sum `sumY2` of the source is left out. -/
def calculateLinearRegression (root : ℚ → ℚ) (dataPoints : List Point) : Regression :=
  let n := JSNum.ofNat dataPoints.length
  let sumX := dataPoints.foldl (fun sum p => sum + p.x) (JSNum.fin 0)
  let sumY := dataPoints.foldl (fun sum p => sum + p.y) (JSNum.fin 0)
  let sumXY := dataPoints.foldl (fun sum p => sum + p.x * p.y) (JSNum.fin 0)
  let sumX2 := dataPoints.foldl (fun sum p => sum + p.x * p.x) (JSNum.fin 0)
  let slope := (n * sumXY - sumX * sumY) / (n * sumX2 - sumX * sumX)
  let intercept := (sumY - slope * sumX) / n
  let yMean := sumY / n
  let ssTotal := dataPoints.foldl (fun sum p => sum + JSNum.Math_pow (p.y - yMean) 2) (JSNum.fin 0)
  let ssResidual := dataPoints.foldl
    (fun sum p =>
      let yPred := slope * p.x + intercept
      sum + JSNum.Math_pow (p.y - yPred) 2)
    (JSNum.fin 0)
  let r2 := JSNum.fin 1 - (ssResidual / ssTotal)
  let se := JSNum.Math_sqrt root (ssResidual / (n - JSNum.fin 2))
  let xMean := sumX / n
  let sxx := sumX2 - (sumX * sumX) / n
  { slope := slope, intercept := intercept, r2 := r2, se := se, xMean := xMean, sxx := sxx,
    n := dataPoints.length }

/-- The data point with the finite coordinates `p`. -/
def Point.ofRat (p : ℚ × ℚ) : Point := { x := JSNum.fin p.1, y := JSNum.fin p.2 }

/-- The `x` values of the points are not all equal. -/
def XNotAllEqual (pts : List (ℚ × ℚ)) : Prop := ∃ p ∈ pts, ∃ q ∈ pts, p.1 ≠ q.1

/-- The sum of `x` over the points. -/
def sumX (pts : List (ℚ × ℚ)) : ℚ := (pts.map (fun p => p.1)).sum

/-- The sum of `y` over the points. -/
def sumY (pts : List (ℚ × ℚ)) : ℚ := (pts.map (fun p => p.2)).sum

/-- The sum of `x * y` over the points. -/
def sumXY (pts : List (ℚ × ℚ)) : ℚ := (pts.map (fun p => p.1 * p.2)).sum

/-- The sum of `x * x` over the points. -/
def sumX2 (pts : List (ℚ × ℚ)) : ℚ := (pts.map (fun p => p.1 * p.1)).sum

/-- The least-squares slope in closed form. -/
def olsSlope (pts : List (ℚ × ℚ)) : ℚ :=
  (pts.length * sumXY pts - sumX pts * sumY pts) / (pts.length * sumX2 pts - sumX pts ^ 2)

/-- The least-squares intercept in closed form. -/
def olsIntercept (pts : List (ℚ × ℚ)) : ℚ := (sumY pts - olsSlope pts * sumX pts) / pts.length

/-- The total sum of squares: the sum of `(y - mean of y)^2` over the points. -/
def ssTotal (pts : List (ℚ × ℚ)) : ℚ :=
  (pts.map (fun p => (p.2 - sumY pts / pts.length) ^ 2)).sum

/-- The residual sum of squares of the fitted line: the sum of
`(y - (slope * x + intercept))^2` over the points. -/
def ssResidual (pts : List (ℚ × ℚ)) : ℚ :=
  (pts.map (fun p => (p.2 - (olsSlope pts * p.1 + olsIntercept pts)) ^ 2)).sum

/-! ## filter-manager.js -/

/-- A scalar of a JSON text: what an element of a stored value list can be. -/
inductive Json where
  | null
  | bool (b : Bool)
  | num (q : ℚ)
  | str (s : String)
  deriving DecidableEq

/-- The value `JSON.parse` returns for a JSON scalar. -/
def Json.toValue : Json → Value
  | Json.null => Value.null
  | Json.bool b => Value.bool b
  | Json.num q => Value.num (JSNum.fin q)
  | Json.str s => Value.str s

/-- The JSON scalar `JSON.stringify` writes for an array element: `NaN`, the infinities and
`undefined` are written as `null`. -/
def Json.ofValue : Value → Json
  | Value.undefined => Json.null
  | Value.null => Json.null
  | Value.bool b => Json.bool b
  | Value.num (JSNum.fin q) => Json.num q
  | Value.num _ => Json.null
  | Value.str s => Json.str s

/-- The filters object `{ parameter: [values] }` as the manager handles it in memory. -/
abbrev FilterSet := Obj (List Value)

/-- The session storage as far as the manager uses it: the item under `STORAGE_KEY`, `none`
when there is no item, otherwise the JSON text of a filters object, represented by its
content.  (A text that does not parse is read as no filters, like `none`; a text of another
shape is never written by the manager and is not represented.) -/
abbrev Storage := Option (Obj (List Json))

/-- `JSON.parse(stored)` for the stored text of a filters object. -/
def jsonParse (stored : Obj (List Json)) : FilterSet :=
  stored.map (fun kv => (kv.1, kv.2.map Json.toValue))

/-- `JSON.stringify(filters)`. -/
def jsonStringify (filters : FilterSet) : Obj (List Json) :=
  filters.map (fun kv => (kv.1, kv.2.map Json.ofValue))

/-- `getActiveFilters()`: the parsed item, `{}` when there is none. -/
def getActiveFilters (storage : Storage) : FilterSet :=
  match storage with
  | some stored => jsonParse stored
  | none => []

/-- `saveFilters(filters)`: the storage after `setItem(STORAGE_KEY, JSON.stringify(filters))`. -/
def saveFilters (filters : FilterSet) : Storage := some (jsonStringify filters)

/-- The statement `if (!filters[parameter]) { filters[parameter] = []; }` of `addFilter`
(an array, even an empty one, is truthy). -/
def ensureList (filters : FilterSet) (parameter : String) : FilterSet :=
  match Obj.get? filters parameter with
  | none => Obj.set filters parameter []
  | some _ => filters

/-- The statement `if (!filters[parameter].includes(value)) { filters[parameter].push(value); }`
of `addFilter`. -/
def pushIfAbsent (filters : FilterSet) (parameter : String) (value : Value) : FilterSet :=
  match Obj.get? filters parameter with
  | some arr => if !(includes arr value) then Obj.set filters parameter (arr ++ [value]) else filters
  | none => filters

/-- `addFilter(parameter, value)`: the storage after the call. -/
def addFilter (storage : Storage) (parameter : String) (value : Value) : Storage :=
  let filters := getActiveFilters storage
  saveFilters (pushIfAbsent (ensureList filters parameter) parameter value)

/-- The statement `if (filters[parameter]) { ... }` of `removeFilter`: the values not strictly
equal to `value` are kept, and the key is deleted when none is left. -/
def dropValue (filters : FilterSet) (parameter : String) (value : Value) : FilterSet :=
  match Obj.get? filters parameter with
  | some arr =>
      let kept := arr.filter (fun v => !(Value.strictEq v value))
      if kept.length = 0 then Obj.delete (Obj.set filters parameter kept) parameter
      else Obj.set filters parameter kept
  | none => filters

/-- `removeFilter(parameter, value)`: the storage after the call. -/
def removeFilter (storage : Storage) (parameter : String) (value : Value) : Storage :=
  let filters := getActiveFilters storage
  saveFilters (dropValue filters parameter value)

/-- `clearFilters()`: the storage after `removeItem(STORAGE_KEY)`. -/
def clearFilters (_storage : Storage) : Storage := none

/-- The FilterSet invariant: every parameter key maps to a non-empty list without a repeated
value. -/
def FilterSetInvariant (filters : FilterSet) : Prop :=
  ∀ kv ∈ filters, kv.2 ≠ [] ∧ kv.2.Nodup

/-- The storage states reachable from the empty store by calls of `addFilter` with a value
satisfying `allowed`, of `removeFilter` and of `clearFilters`. -/
inductive Reachable (allowed : Value → Prop) : Storage → Prop where
  | empty : Reachable allowed none
  | add (storage : Storage) (parameter : String) (value : Value) :
      Reachable allowed storage → allowed value → Reachable allowed (addFilter storage parameter value)
  | remove (storage : Storage) (parameter : String) (value : Value) :
      Reachable allowed storage → Reachable allowed (removeFilter storage parameter value)
  | clear (storage : Storage) :
      Reachable allowed storage → Reachable allowed (clearFilters storage)

/-- The value is a number, possibly `NaN` or an infinity. -/
def IsNumber (v : Value) : Prop := ∃ x, v = Value.num x

/-- The value is a finite number. -/
def IsFiniteNumber (v : Value) : Prop := ∃ q, v = Value.num (JSNum.fin q)

/-- The list comes from a stored list: it is the image of a non-empty list of JSON scalars
without repetition. -/
def StoredList (vs : List Value) : Prop :=
  ∃ js : List Json, vs = js.map Json.toValue ∧ js ≠ [] ∧ js.Nodup

/-- Every stored list is non-empty and without repetition. -/
def StoredInvariant (storage : Storage) : Prop :=
  ∀ stored, storage = some stored → ∀ kv ∈ stored, kv.2 ≠ [] ∧ kv.2.Nodup

/-! ## sequencing.js: the lineage tree of a sequencing sample -/

/-- A clone of `simulation.json`, as far as the tree construction reads it: its `id` and its
`ancestor` (`null` is `none`).  The other fields (`size`, `fitness`, `tmb`, `dead_lineage`) are
copied into the tree nodes untouched and are left out. -/
structure Clone where
  id : Int
  ancestor : Option Int
  deriving DecidableEq

/-- `cloneMap.get(id)` for the map filled by `clones.forEach(clone => cloneMap.set(clone.id,
clone))`: the last clone of the list with that id. -/
def cloneMapGet (clones : List Clone) (id : Int) : Option Clone :=
  clones.foldl (fun found clone => if clone.id = id then some clone else found) none

/-- `set.add(x)` on the elements of a `Set` in insertion order. -/
def setAdd (s : List Int) (x : Int) : List Int := if x ∈ s then s else s ++ [x]

/-- The `while (currentId !== null && currentId !== mrcaId)` loop of `renderLineageTree`,
started at `currentId` with the set `relevant`; `fuel` bounds the number of loop tests, and
`none` means that the bound was reached. -/
def traceBack (clones : List Clone) (mrcaId : Int) : Nat → Int → List Int → Option (List Int)
  | 0, _, _ => none
  | fuel + 1, currentId, relevant =>
      if currentId = mrcaId then some relevant
      else
        match cloneMapGet clones currentId with
        | none => some relevant
        | some clone =>
            match clone.ancestor with
            | none => some relevant
            | some ancestor => traceBack clones mrcaId fuel ancestor (setAdd relevant ancestor)

/-- The `presentCloneIds.forEach` loop of `renderLineageTree` on the set `relevant`. -/
def traceAll (clones : List Clone) (mrcaId : Int) (fuel : Nat) :
    List Int → List Int → Option (List Int)
  | [], relevant => some relevant
  | cloneId :: rest, relevant =>
      match traceBack clones mrcaId fuel cloneId (setAdd relevant cloneId) with
      | none => none
      | some relevant2 => traceAll clones mrcaId fuel rest relevant2

/-- The set `relevantCloneIds` of `renderLineageTree`, started as `new Set([mrcaId])`. -/
def relevantCloneIds (clones : List Clone) (presentCloneIds : List Int) (mrcaId : Int)
    (fuel : Nat) : Option (List Int) :=
  traceAll clones mrcaId fuel presentCloneIds [mrcaId]

/-- The tree returned by `buildFilteredTree`: the root node, and for every clone id the
content of the `children` array of its node (the ids of the child nodes in the order of the
`push` calls; empty for an id without node).  The nodes are objects of `filteredCloneMap`,
one per id, and the arrays hold references to them. -/
structure FilteredTree where
  root : Clone
  children : Int → List Int

/-- The `children` array of the node of `parent` after the second loop of
`buildFilteredTree`. -/
def childIds (clones : List Clone) (relevantIds : List Int) (rootId parent : Int) : List Int :=
  if parent ∈ relevantIds ∧ (cloneMapGet clones parent).isSome then
    relevantIds.filter (fun id =>
      decide (id ≠ rootId) &&
        match cloneMapGet clones id with
        | some clone => decide (clone.ancestor = some parent)
        | none => false)
  else []

/-- `buildFilteredTree(relevantIds, cloneMap, rootId)`; `none` when the returned `root` is
`null` (the root id is not relevant) or `undefined` (it has no clone). -/
def buildFilteredTree (clones : List Clone) (relevantIds : List Int) (rootId : Int) :
    Option FilteredTree :=
  if rootId ∈ relevantIds then
    match cloneMapGet clones rootId with
    | some clone => some { root := clone, children := childIds clones relevantIds rootId }
    | none => none
  else none

/-- The tree data `filteredTreeData` of `renderLineageTree(clones, presentCloneIds, mrcaId)`. -/
def lineageTree (clones : List Clone) (presentCloneIds : List Int) (mrcaId : Int) (fuel : Nat) :
    Option FilteredTree :=
  match relevantCloneIds clones presentCloneIds mrcaId fuel with
  | none => none
  | some relevant => buildFilteredTree clones relevant mrcaId

/-- The ids of the nodes of the tree: the root and the ids reached through `children`. -/
inductive InTree (t : FilteredTree) : Int → Prop where
  | root : InTree t t.root.id
  | child (parent id : Int) : InTree t parent → id ∈ t.children parent → InTree t id

/-- The id reached from `id` by following `ancestor` `k` times, if all these clones exist. -/
def ancestorIter (clones : List Clone) : Nat → Int → Option Int
  | 0, id => some id
  | k + 1, id =>
      match cloneMapGet clones id with
      | none => none
      | some clone =>
          match clone.ancestor with
          | none => none
          | some ancestor => ancestorIter clones k ancestor

/-- The id `present` is `mrcaId` or a descendant of `mrcaId`. -/
def IsDescendantOrSelf (clones : List Clone) (mrcaId present : Int) : Prop :=
  ∃ k, ancestorIter clones k present = some mrcaId

/-- The id `x` lies on the ancestor chain from `present` up to `mrcaId`: it is reached from
`present` by following `ancestor` without passing `mrcaId` before. -/
def OnChain (clones : List Clone) (mrcaId present x : Int) : Prop :=
  ∃ i, ancestorIter clones i present = some x ∧
    ∀ j, j < i → ancestorIter clones j present ≠ some mrcaId

/-- The four clones of the example: 1 is the root, 2 descends from 1, 3 and 4 from 2. -/
def lineageExample : List Clone :=
  [{ id := 1, ancestor := none }, { id := 2, ancestor := some 1 },
   { id := 3, ancestor := some 2 }, { id := 4, ancestor := some 2 }]

/-- The tree of the example for the present id 4 and the MRCA 1: the relevant ids are added
in the order 1, 4, 2. -/
def lineageExampleTree : FilteredTree :=
  { root := { id := 1, ancestor := none }, children := childIds lineageExample [1, 4, 2] 1 }

/-- The statistics list of a cohort in the result of `aggregateByParameter`: `neutral` for
the cohort `neutral = true`, `not_neutral` for the other. -/
def Aggregate.cohort (agg : Aggregate) (neutral : Bool) : List Stats :=
  if neutral then agg.neutral else agg.not_neutral

/-- The records of a cohort whose parameter equals `v` (strict equality): the partition on
which `calculateStats` works. -/
def partitionRecords (data : List Record) (cohort : Bool) (parameter : String) (v : Value) :
    List Record :=
  (filterByNeutral data cohort).filter
    (fun row => Value.strictEq (Record.field row parameter) v)

/-- The statement on constant partitions for the metric value `x`: whenever the partition of
a cohort for a parameter value (the entry at index `i` of `values`) is non-empty and all its
records have the metric `x`, the statistics at index `i` are mean = `x` and std = 0. -/
def ConstantPartitionStats (root : ℚ → ℚ) (data : List Record) (parameter metric : String)
    (x : JSNum) : Prop :=
  ∀ (i : Nat) (v : Value) (cohort : Bool),
    (aggregateByParameter root data parameter metric).values[i]? = some v →
    partitionRecords data cohort parameter v ≠ [] →
    (∀ row ∈ partitionRecords data cohort parameter v, Record.field row metric = Value.num x) →
    ((aggregateByParameter root data parameter metric).cohort cohort)[i]? =
      some { mean := x, std := JSNum.fin 0 }

/-- One neutral record with `p = 1` whose metric is `NaN`. -/
def nanMetricExample : List Record :=
  [[("neutral", Value.bool true), ("p", Value.num (JSNum.fin 1)), ("m", Value.num JSNum.nan)]]

/-- The numeric order `a < b` on numbers; false when `NaN` is involved. -/
def JSNum.lt : JSNum → JSNum → Bool
  | JSNum.fin a, JSNum.fin b => decide (a < b)
  | JSNum.negInf, JSNum.fin _ => true
  | JSNum.negInf, JSNum.posInf => true
  | JSNum.fin _, JSNum.posInf => true
  | _, _ => false

/-- The numeric order on values that are numbers. -/
def Value.numLt : Value → Value → Prop
  | Value.num x, Value.num y => JSNum.lt x y = true
  | _, _ => False

/-- The list is strictly ascending in numeric order: every element is a number smaller than
all later elements. -/
def StrictlyAscending (vs : List Value) : Prop := vs.Pairwise Value.numLt

/-- The value is a number other than `NaN` (an infinity is allowed). -/
def IsNonNaNNumber (v : Value) : Prop := ∃ x, v = Value.num x ∧ x ≠ JSNum.nan

/-- Every record holds a number other than `NaN` in the column `parameter`. -/
def NonNaNColumn (records : List Record) (parameter : String) : Prop :=
  ∀ d ∈ records, IsNonNaNNumber (Record.field d parameter)

/-- Four records with the values 3, 1, 3, 2 of the parameter `p`. -/
def uniqueExample : List Record :=
  [[("p", Value.num (JSNum.fin 3))], [("p", Value.num (JSNum.fin 1))],
   [("p", Value.num (JSNum.fin 3))], [("p", Value.num (JSNum.fin 2))]]

/-! ## simulation.js and main.js: the confidence band of the regression plots -/

/-- The smaller of two numbers as `Math.min` takes it: `NaN` when one of them is `NaN`. -/
def JSNum.min2 : JSNum → JSNum → JSNum
  | JSNum.nan, _ => JSNum.nan
  | _, JSNum.nan => JSNum.nan
  | a, b => if JSNum.lt b a then b else a

/-- The larger of two numbers as `Math.max` takes it: `NaN` when one of them is `NaN`. -/
def JSNum.max2 : JSNum → JSNum → JSNum
  | JSNum.nan, _ => JSNum.nan
  | _, JSNum.nan => JSNum.nan
  | a, b => if JSNum.lt a b then b else a

/-- `Math.min(...xs)`: `+Infinity` for no argument. -/
def Math_min (xs : List JSNum) : JSNum := xs.foldl JSNum.min2 JSNum.posInf

/-- `Math.max(...xs)`: `-Infinity` for no argument. -/
def Math_max (xs : List JSNum) : JSNum := xs.foldl JSNum.max2 JSNum.negInf

/-- The constant `tValue = 1.96` of the confidence band. -/
def tValue : JSNum := JSNum.fin 1.96

/-- The constant `steps = 50` of the confidence band. -/
def steps : Nat := 50

/-- The body of the loop `for (let i = 0; i <= steps; i++)` of `renderRegressionPlot` and of
`renderOverviewRegressionPlot`: the points pushed to `confidenceUpper` and to
`confidenceLower` at the index `i`. -/
def confidenceStep (root : ℚ → ℚ) (regression : Regression) (xMin xMax : JSNum) (i : Nat) :
    Point × Point :=
  let x := xMin + (xMax - xMin) * JSNum.ofNat i / JSNum.ofNat steps
  let yPred := regression.slope * x + regression.intercept
  let margin := tValue * regression.se * JSNum.Math_sqrt root
    (JSNum.fin 1 / JSNum.ofNat regression.n
      + JSNum.Math_pow (x - regression.xMean) 2 / regression.sxx)
  ({ x := x, y := yPred + margin }, { x := x, y := yPred - margin })

/-- The arrays `confidenceUpper` and `confidenceLower` after the loop. -/
def confidenceArrays (root : ℚ → ℚ) (regression : Regression) (xMin xMax : JSNum) :
    List Point × List Point :=
  (List.range (steps + 1)).foldl
    (fun arrays i =>
      (arrays.1 ++ [(confidenceStep root regression xMin xMax i).1],
       arrays.2 ++ [(confidenceStep root regression xMin xMax i).2]))
    ([], [])

/-- The data `confidenceUpper.concat(confidenceLower.reverse())` of the dataset
"95% Confidence Interval", which `renderRegressionPlot` (simulation.js) and
`renderOverviewRegressionPlot` (main.js) build in the same way from the points they pass to
`calculateLinearRegression`. -/
def confidenceInterval (root : ℚ → ℚ) (dataPoints : List Point) : List Point :=
  let regression := calculateLinearRegression root dataPoints
  let xMin := Math_min (dataPoints.map (fun p => p.x))
  let xMax := Math_max (dataPoints.map (fun p => p.x))
  let arrays := confidenceArrays root regression xMin xMax
  arrays.1 ++ arrays.2.reverse

/-- The abscissa `x_i = xMin + (xMax - xMin)*i/50`. -/
def bandX (xMin xMax : JSNum) (i : Nat) : JSNum :=
  xMin + (xMax - xMin) * JSNum.ofNat i / JSNum.fin 50

/-- The half width `1.96 * se * sqrt(1/n + (x - xMean)^2 / sxx)` of the band at `x`. -/
def bandMargin (root : ℚ → ℚ) (regression : Regression) (x : JSNum) : JSNum :=
  JSNum.fin 1.96 * regression.se * JSNum.Math_sqrt root
    (JSNum.fin 1 / JSNum.ofNat regression.n
      + (x - regression.xMean) * (x - regression.xMean) / regression.sxx)

/-- The upper bound of the band at `x`. -/
def bandUpper (root : ℚ → ℚ) (regression : Regression) (x : JSNum) : Point :=
  { x := x, y := (regression.slope * x + regression.intercept) + bandMargin root regression x }

/-- The lower bound of the band at `x`. -/
def bandLower (root : ℚ → ℚ) (regression : Regression) (x : JSNum) : Point :=
  { x := x, y := (regression.slope * x + regression.intercept) - bandMargin root regression x }

/-! ## simulation.js and main.js: the points of the regression plots -/

/-- A clone of `simulation.json` as far as the regression plots read it. -/
structure PlotClone where
  id : Int
  fitness : JSNum
  tmb : JSNum
  deriving DecidableEq

/-- A sequencing sample as far as the regression plots read it: its `mrca` clone id. -/
structure SeqSample where
  mrca : Int
  deriving DecidableEq

/-- `cloneMap.get(id)` for the map filled by `clones.forEach(clone => cloneMap.set(clone.id,
clone))`. -/
def plotCloneGet (clones : List PlotClone) (id : Int) : Option PlotClone :=
  clones.foldl (fun found clone => if clone.id = id then some clone else found) none

/-- The data points `Object.entries(sequencingData).map(...).filter(point => point !== null)`:
one point (fitness, tmb) of the MRCA clone per sample whose MRCA is in the clone map. -/
def extractDataPoints (clones : List PlotClone) (sequencingData : List SeqSample) : List Point :=
  sequencingData.filterMap (fun data =>
    match plotCloneGet clones data.mrca with
    | none => none
    | some mrcaClone => some { x := mrcaClone.fitness, y := mrcaClone.tmb })

/-- The argument of the call of `calculateLinearRegression` in `renderRegressionPlot`
(simulation.js); `none` when the function returns before the call. -/
def renderRegressionPlotPoints (clones : List PlotClone) (sequencingData : List SeqSample) :
    Option (List Point) :=
  let dataPoints := extractDataPoints clones sequencingData
  if dataPoints.length = 0 then none else some dataPoints

/-- An entry `{ id, simData, seqData }` of `allSimulations` as far as the overview plot reads
it. -/
structure SimulationEntry where
  id : String
  clones : List PlotClone
  seqData : List SeqSample

/-- The argument of the call of `calculateLinearRegression` in `renderOverviewRegressionPlot`
(main.js); `none` when the function returns before the call. -/
def renderOverviewRegressionPlotPoints (allSimulations : List SimulationEntry)
    (visibilityState : String → Bool) : Option (List Point) :=
  let visibleSimulations := allSimulations.filter (fun s => visibilityState s.id)
  if visibleSimulations.length = 0 then none
  else
    some (visibleSimulations.foldl
      (fun allDataPoints s => allDataPoints ++ extractDataPoints s.clones s.seqData) [])

/-- Every call of `calculateLinearRegression` made by the two plot functions passes at least
`k` points. -/
def CallersPassAtLeast (k : Nat) : Prop :=
  (∀ clones sequencingData pts,
    renderRegressionPlotPoints clones sequencingData = some pts → k ≤ pts.length) ∧
  (∀ allSimulations visibilityState pts,
    renderOverviewRegressionPlotPoints allSimulations visibilityState = some pts →
      k ≤ pts.length)

/-- The `children` array of the node of `parent` after the second loop of
`buildTreeStructure`: every clone whose `ancestor` is `parent` pushes its node, in list
order, provided that `parent` has a node. -/
def treeChildIds (clones : List Clone) (parent : Int) : List Int :=
  if (cloneMapGet clones parent).isSome then
    (clones.filter (fun clone => decide (clone.ancestor = some parent))).map (fun clone => clone.id)
  else []

/-- `buildTreeStructure(clones)` of simulation.js, in the representation of `FilteredTree`
(the root node, and the `children` array of the node of every id); `none` when the returned
`root` is `null`. -/
def buildTreeStructure (clones : List Clone) : Option FilteredTree :=
  match clones.foldl
      (fun root clone => if clone.ancestor = none then cloneMapGet clones clone.id else root)
      none with
  | none => none
  | some node => some { root := node, children := treeChildIds clones }

/-- The ancestor relation of the clone map has no cycle: no id is reached from itself by
following `ancestor` one or more times. -/
def NoCycle (clones : List Clone) : Prop :=
  ∀ (id : Int) (k : Nat), 0 < k → ancestorIter clones k id ≠ some id

/-- The walk of `renderLineageTree` stops at the id `x`: it is the MRCA id, or it is missing
from the clone map, or its clone has ancestor = null. -/
def StopsAt (clones : List Clone) (mrcaId x : Int) : Prop :=
  x = mrcaId ∨ cloneMapGet clones x = none ∨
    ∃ clone, cloneMapGet clones x = some clone ∧ clone.ancestor = none

/-- The id `x` is visited by the walk from `present`: it is reached by following `ancestor`
from `present` without a stop before. -/
def OnWalk (clones : List Clone) (mrcaId present x : Int) : Prop :=
  ∃ i, ancestorIter clones i present = some x ∧
    ∀ j y, j < i → ancestorIter clones j present = some y → ¬ StopsAt clones mrcaId y

/-- The text consists of white space only: it is a run of empty or whitespace-only lines. -/
def IsBlank (blank : String) : Prop := ∀ c ∈ blank.data, isJSWhiteSpace c = true


/-! ## filter-manager.js: the queries -/

/-- `hasActiveFilters()`: `Object.keys(filters).length > 0`. -/
def hasActiveFilters (storage : Storage) : Bool :=
  let filters := getActiveFilters storage
  decide ((Obj.keys filters).length > 0)

/-- `getFilterCount()`: `Object.values(filters).reduce((sum, values) => sum + values.length, 0)`. -/
def getFilterCount (storage : Storage) : Nat :=
  let filters := getActiveFilters storage
  (filters.map Prod.snd).foldl (fun sum values => sum + values.length) 0

/-- `isFiltered(parameter, value)`: the value of the expression
`filters[parameter] && filters[parameter].includes(value)`.  The operator `&&` returns its
first operand when that is falsy, so the result is `undefined` for an absent parameter; an
array, even an empty one, is truthy, and the result is then the boolean of `includes`. -/
def isFiltered (storage : Storage) (parameter : String) (value : Value) : Value :=
  let filters := getActiveFilters storage
  match Obj.get? filters parameter with
  | none => Value.undefined
  | some arr => Value.bool (includes arr value)

/-- The (parameter, value) pairs of a filters object, parameter by parameter. -/
def filterPairs (filters : FilterSet) : List (String × Value) :=
  filters.flatMap (fun kv => kv.2.map (fun v => (kv.1, v)))


/-- The JSON text stores the value exactly: writing it with `JSON.stringify` and reading it
with `JSON.parse` gives the value back.  This holds for every finite number, string and
boolean and for `null`; it fails for `NaN`, the infinities and `undefined`, which are
written as `null`. -/
def JsonExact (value : Value) : Prop := Json.toValue (Json.ofValue value) = value

/-- The value is not stored under the parameter: the parameter has no list, or its list does
not hold the value. -/
def NotStored (filters : FilterSet) (parameter : String) (value : Value) : Prop :=
  ∀ arr, Obj.get? filters parameter = some arr → value ∉ arr


/-- The `y` values of the points are not all equal. -/
def YNotAllEqual (pts : List (ℚ × ℚ)) : Prop := ∃ p ∈ pts, ∃ q ∈ pts, p.2 ≠ q.2

/-- The sum of `y * y` over the points. -/
def sumY2 (pts : List (ℚ × ℚ)) : ℚ := (pts.map (fun p => p.2 * p.2)).sum


/-! ## simulation.js: the nodes of the full tree -/

/-- Exactly one clone of the list has ancestor = null. -/
def UniqueRoot (clones : List Clone) : Prop :=
  (clones.filter (fun c => decide (c.ancestor = none))).length = 1

/-- Every id on the ancestor chain of `id` is the id of a clone in the list: `id` itself and
whatever is reached from it by following the declared `ancestor` ids, as far as they lead
(the chain ends behind a clone with ancestor = null, the root, and behind an id without
clone). -/
def ChainInList (clones : List Clone) (id : Int) : Prop :=
  ∀ k x, ancestorIter clones k id = some x → ∃ c ∈ clones, c.id = x

/-- A clone list with a cycle: 1 is the root, and 2 and 3 are the ancestor of each other. -/
def cyclicExample : List Clone :=
  [{ id := 1, ancestor := none }, { id := 2, ancestor := some 3 }, { id := 3, ancestor := some 2 }]

/-- A clone list with a missing ancestor: 1 is the root, 2 descends from 1, 4 declares the
ancestor 3, which is not in the list, and 5 descends from 4. -/
def orphanExample : List Clone :=
  [{ id := 1, ancestor := none }, { id := 2, ancestor := some 1 },
   { id := 4, ancestor := some 3 }, { id := 5, ancestor := some 4 }]


/-! ## Binary64 arithmetic

The numbers of the engine are IEEE 754 binary64 values: every arithmetic operation returns
the exact result rounded to the nearest representable value, ties to the even significand.
The exact operations of `JSNum` followed by `JSNum.toBinary64` give this arithmetic (the sign
of zero is not modelled). -/

/-- The power `2^k` for an integer exponent. -/
def pow2 (k : Int) : ℚ :=
  if 0 ≤ k then ((2 ^ k.toNat : Nat) : ℚ) else 1 / ((2 ^ (-k).toNat : Nat) : ℚ)

/-- The position of the leading bit of `n`, counted down with `fuel`: the number of halvings
that bring `n` below 2. -/
def leadingBitAux : Nat → Nat → Nat
  | 0, _ => 0
  | fuel + 1, n => if n < 2 then 0 else leadingBitAux fuel (n / 2) + 1

/-- The position of the leading bit of `n`: the `e` with `2^e <= n < 2^(e+1)` for positive `n`. -/
def leadingBit (n : Nat) : Nat := leadingBitAux n n

/-- The integer `e` with `2^e <= q < 2^(e+1)`, for a positive rational `q`. -/
def floorLog2 (q : ℚ) : Int :=
  let e : Int := (leadingBit q.num.natAbs : Int) - (leadingBit q.den : Int)
  if pow2 e ≤ q then e else e - 1

/-- The integer nearest to `r`, the even one when `r` lies half way between two integers. -/
def roundHalfEven (r : ℚ) : Int :=
  let f : Int := r.num / (r.den : Int)
  if r - (f : ℚ) < 1 / 2 then f
  else if 1 / 2 < r - (f : ℚ) then f + 1
  else if f % 2 = 0 then f else f + 1

/-- The binary64 value nearest to the rational `q`: 53 significant bits, the exponent of the
leading bit between -1022 and 1023 (below that the spacing of the subnormal numbers,
`2^-1074`, is kept), and an infinity when the rounded value reaches `2^1024`. -/
def binary64 (q : ℚ) : JSNum :=
  if q = 0 then JSNum.fin 0
  else
    let a : ℚ := if q < 0 then -q else q
    let e : Int := max (floorLog2 a) (-1022)
    let ulp : ℚ := pow2 (e - 52)
    let r : ℚ := (roundHalfEven (a / ulp) : ℚ) * ulp
    if pow2 1024 ≤ r then (if q < 0 then JSNum.negInf else JSNum.posInf)
    else JSNum.fin (if q < 0 then -r else r)

/-- The rounding of a result to binary64; `NaN` and the infinities are binary64 values. -/
def JSNum.toBinary64 : JSNum → JSNum
  | JSNum.fin q => binary64 q
  | x => x

/-- The binary64 value written by the decimal literal or table cell of value `q`. -/
def double (q : ℚ) : JSNum := binary64 q

/-! ## The numeric functions with rounded operations

The functions below are `calculateStats`, `aggregateByParameter`,
`calculateLinearRegression` and the confidence band once more, with the result of every
arithmetic operation passed through a rounding `rnd`.  With `rnd := fun x => x` they are the
exact-arithmetic functions above; with `rnd := JSNum.toBinary64` they compute what the engine
computes.  Conversions of array lengths and loop counters are exact (they are far below
`2^53`), and so are `Math.min` and `Math.max`. -/

/-- `calculateStats(filteredData, paramValue)` with every operation rounded by `rnd`. -/
def calculateStatsRounded (rnd : JSNum → JSNum) (root : ℚ → ℚ) (parameter metric : String)
    (filteredData : List Record) (paramValue : Value) : Stats :=
  let values :=
    (filteredData.filter (fun row => Value.strictEq (Record.field row parameter) paramValue)).map
      (fun row => Record.field row metric)
  if values.length = 0 then { mean := JSNum.fin 0, std := JSNum.fin 0 }
  else
    let mean := rnd (JSNum.div
      (values.foldl (fun sum v => rnd (JSNum.add sum (Value.toNumber v))) (JSNum.fin 0))
      (JSNum.ofNat values.length))
    let variance :=
      rnd (JSNum.div
        (values.foldl
          (fun sum v =>
            rnd (JSNum.add sum (rnd (JSNum.Math_pow (rnd (JSNum.sub (Value.toNumber v) mean)) 2))))
          (JSNum.fin 0))
        (JSNum.ofNat values.length))
    let std := rnd (JSNum.Math_sqrt root variance)
    { mean := mean, std := std }

/-- `aggregateByParameter(data, parameter, metric)` with every operation rounded by `rnd`. -/
def aggregateByParameterRounded (rnd : JSNum → JSNum) (root : ℚ → ℚ) (data : List Record)
    (parameter metric : String) : Aggregate :=
  let uniqueValues := getUniqueValues data parameter
  let neutralData := filterByNeutral data true
  let notNeutralData := filterByNeutral data false
  { values := uniqueValues,
    neutral := uniqueValues.map
      (fun v => calculateStatsRounded rnd root parameter metric neutralData v),
    not_neutral := uniqueValues.map
      (fun v => calculateStatsRounded rnd root parameter metric notNeutralData v) }

/-- `calculateLinearRegression(dataPoints)` with every operation rounded by `rnd`. -/
def calculateLinearRegressionRounded (rnd : JSNum → JSNum) (root : ℚ → ℚ)
    (dataPoints : List Point) : Regression :=
  let n := JSNum.ofNat dataPoints.length
  let sumX := dataPoints.foldl (fun sum p => rnd (sum + p.x)) (JSNum.fin 0)
  let sumY := dataPoints.foldl (fun sum p => rnd (sum + p.y)) (JSNum.fin 0)
  let sumXY := dataPoints.foldl (fun sum p => rnd (sum + rnd (p.x * p.y))) (JSNum.fin 0)
  let sumX2 := dataPoints.foldl (fun sum p => rnd (sum + rnd (p.x * p.x))) (JSNum.fin 0)
  let slope := rnd (rnd (rnd (n * sumXY) - rnd (sumX * sumY))
    / rnd (rnd (n * sumX2) - rnd (sumX * sumX)))
  let intercept := rnd (rnd (sumY - rnd (slope * sumX)) / n)
  let yMean := rnd (sumY / n)
  let ssTotal := dataPoints.foldl
    (fun sum p => rnd (sum + rnd (JSNum.Math_pow (rnd (p.y - yMean)) 2))) (JSNum.fin 0)
  let ssResidual := dataPoints.foldl
    (fun sum p =>
      let yPred := rnd (rnd (slope * p.x) + intercept)
      rnd (sum + rnd (JSNum.Math_pow (rnd (p.y - yPred)) 2)))
    (JSNum.fin 0)
  let r2 := rnd (JSNum.fin 1 - rnd (ssResidual / ssTotal))
  let se := rnd (JSNum.Math_sqrt root (rnd (ssResidual / rnd (n - JSNum.fin 2))))
  let xMean := rnd (sumX / n)
  let sxx := rnd (sumX2 - rnd (rnd (sumX * sumX) / n))
  { slope := slope, intercept := intercept, r2 := r2, se := se, xMean := xMean, sxx := sxx,
    n := dataPoints.length }

/-- The loop body of the confidence band with every operation rounded by `rnd`; the literal
`1.96` is read as `rnd 1.96`. -/
def confidenceStepRounded (rnd : JSNum → JSNum) (root : ℚ → ℚ) (regression : Regression)
    (xMin xMax : JSNum) (i : Nat) : Point × Point :=
  let x := rnd (xMin + rnd (rnd (rnd (xMax - xMin) * JSNum.ofNat i) / JSNum.ofNat steps))
  let yPred := rnd (rnd (regression.slope * x) + regression.intercept)
  let margin := rnd (rnd (rnd tValue * regression.se) * rnd (JSNum.Math_sqrt root
    (rnd (rnd (JSNum.fin 1 / JSNum.ofNat regression.n)
      + rnd (rnd (JSNum.Math_pow (rnd (x - regression.xMean)) 2) / regression.sxx)))))
  ({ x := x, y := rnd (yPred + margin) }, { x := x, y := rnd (yPred - margin) })

/-- The arrays `confidenceUpper` and `confidenceLower` with every operation rounded by `rnd`. -/
def confidenceArraysRounded (rnd : JSNum → JSNum) (root : ℚ → ℚ) (regression : Regression)
    (xMin xMax : JSNum) : List Point × List Point :=
  (List.range (steps + 1)).foldl
    (fun arrays i =>
      (arrays.1 ++ [(confidenceStepRounded rnd root regression xMin xMax i).1],
       arrays.2 ++ [(confidenceStepRounded rnd root regression xMin xMax i).2]))
    ([], [])

/-- The data of the dataset "95% Confidence Interval" with every operation rounded by `rnd`. -/
def confidenceIntervalRounded (rnd : JSNum → JSNum) (root : ℚ → ℚ) (dataPoints : List Point) :
    List Point :=
  let regression := calculateLinearRegressionRounded rnd root dataPoints
  let xMin := Math_min (dataPoints.map (fun p => p.x))
  let xMax := Math_max (dataPoints.map (fun p => p.x))
  let arrays := confidenceArraysRounded rnd root regression xMin xMax
  arrays.1 ++ arrays.2.reverse

/-- Three neutral records with `p = 1` whose metric is the binary64 value of `0.1`. -/
def tenthMetricExample : List Record :=
  [[("neutral", Value.bool true), ("p", Value.num (JSNum.fin 1)), ("m", Value.num (double (1 / 10)))],
   [("neutral", Value.bool true), ("p", Value.num (JSNum.fin 1)), ("m", Value.num (double (1 / 10)))],
   [("neutral", Value.bool true), ("p", Value.num (JSNum.fin 1)), ("m", Value.num (double (1 / 10)))]]

/-- The points (0, 0.1), (1, 0.1), (2, 0.1) in binary64: all `y` are the same value. -/
def flatExample : List Point :=
  [{ x := JSNum.fin 0, y := double (1 / 10) }, { x := JSNum.fin 1, y := double (1 / 10) },
   { x := JSNum.fin 2, y := double (1 / 10) }]

/-- The points (0.1, 1), (0.2, 2), (0.3, 2) in binary64. -/
def bandExample : List Point :=
  [{ x := double (1 / 10), y := JSNum.fin 1 }, { x := double (1 / 5), y := JSNum.fin 2 },
   { x := double (3 / 10), y := JSNum.fin 2 }]


/-! # Theorems -/

/-! ## Objects -/

theorem Obj.get?_set {α : Type} (o : Obj α) (k k2 : String) (v : α) :
    Obj.get? (Obj.set o k v) k2 = if k = k2 then some v else Obj.get? o k2 := by
  induction o with
  | nil => simp [Obj.set, Obj.get?]
  | cons kv rest ih =>
    obtain ⟨a, w⟩ := kv
    by_cases h : a = k
    · subst h
      by_cases h2 : a = k2 <;> simp [Obj.set, Obj.get?, h2]
    · by_cases h2 : a = k2
      · subst h2
        have : ¬ k = a := fun e => h e.symm
        simp [Obj.set, Obj.get?, h, this]
      · simp [Obj.set, Obj.get?, h, h2, ih]

theorem Obj.get?_foldl_set_of_not_mem {α : Type} (l : List (String × α)) (o : Obj α) (k : String)
    (h : ∀ kv ∈ l, kv.1 ≠ k) :
    Obj.get? (l.foldl (fun o kv => Obj.set o kv.1 kv.2) o) k = Obj.get? o k := by
  induction l generalizing o with
  | nil => rfl
  | cons x xs ih =>
    simp only [List.foldl_cons]
    rw [ih _ (fun kv hkv => h kv (List.mem_cons_of_mem _ hkv)), Obj.get?_set]
    simp [h x (List.mem_cons_self _ _)]

theorem Obj.get?_foldl_set {α : Type} (l : List (String × α)) (o : Obj α) (i : Nat) (kv : String × α)
    (hi : l[i]? = some kv) (hlast : ∀ j kv2, i < j → l[j]? = some kv2 → kv2.1 ≠ kv.1) :
    Obj.get? (l.foldl (fun o kv => Obj.set o kv.1 kv.2) o) kv.1 = some kv.2 := by
  induction l generalizing o i with
  | nil => simp at hi
  | cons x xs ih =>
    simp only [List.foldl_cons]
    cases i with
    | zero =>
      simp at hi
      subst hi
      rw [Obj.get?_foldl_set_of_not_mem, Obj.get?_set]
      · simp
      · intro kv2 hkv2
        obtain ⟨n, hn⟩ := List.mem_iff_getElem?.1 hkv2
        exact hlast (n + 1) kv2 (Nat.succ_pos _) (by simpa using hn)
    | succ i =>
      apply ih _ i
      · simpa using hi
      · intro j kv2 hj hkv2
        exact hlast (j + 1) kv2 (by omega) (by simpa using hkv2)

/-! ## parseResumeData -/

/-- The assignments of a row, with those under `__proto__` left out, are plain property
assignments. -/
theorem foldl_assignField (l : List (String × Value)) (o : Record) :
    l.foldl (fun row kv => assignField row kv.1 kv.2) o =
      (l.filter (fun kv => decide (kv.1 ≠ "__proto__"))).foldl
        (fun o kv => Obj.set o kv.1 kv.2) o := by
  induction l generalizing o with
  | nil => rfl
  | cons x xs ih =>
    by_cases hx : x.1 = "__proto__"
    · simp only [List.foldl_cons, assignField, hx, if_true, ne_eq, not_true_eq_false,
        decide_False, Bool.false_eq_true, not_false_eq_true, List.filter_cons_of_neg]
      exact ih o
    · simp only [List.foldl_cons, assignField, hx, if_false, ne_eq, not_false_eq_true,
        decide_True, List.filter_cons_of_pos]
      exact ih _

theorem parseRow_eq (headers values : List String) :
    parseRow headers values =
      ((headers.enum.map (fun ih => (ih.2, coerceField ih.2 (valueAt values ih.1)))).filter
        (fun kv => decide (kv.1 ≠ "__proto__"))).foldl (fun o kv => Obj.set o kv.1 kv.2) [] := by
  rw [← foldl_assignField, List.foldl_map]; rfl

theorem Obj.get?_foldl_set_append {α : Type} (l1 l2 : List (String × α)) (kv : String × α)
    (o : Obj α) (h : ∀ kv2 ∈ l2, kv2.1 ≠ kv.1) :
    Obj.get? ((l1 ++ kv :: l2).foldl (fun o kv => Obj.set o kv.1 kv.2) o) kv.1 = some kv.2 := by
  rw [List.foldl_append, List.foldl_cons, Obj.get?_foldl_set_of_not_mem l2 _ kv.1 h, Obj.get?_set,
    if_pos rfl]

theorem parseRow_field (headers values : List String) (i : Nat) (header : String)
    (hi : headers[i]? = some header) (hlast : ∀ j, i < j → headers[j]? ≠ some header)
    (hproto : header ≠ "__proto__") :
    Record.field (parseRow headers values) header = coerceField header (valueAt values i) := by
  have hL : (headers.enum.map (fun ih => (ih.2, coerceField ih.2 (valueAt values ih.1))))[i]? =
      some (header, coerceField header (valueAt values i)) := by
    simp [List.getElem?_enum, hi]
  obtain ⟨hlt, hget⟩ := List.getElem?_eq_some.1 hL
  have hsplit := List.take_append_drop i
    (headers.enum.map (fun ih => (ih.2, coerceField ih.2 (valueAt values ih.1))))
  rw [List.drop_eq_getElem_cons hlt, hget] at hsplit
  have hkeep : decide ((header, coerceField header (valueAt values i)).1 ≠ "__proto__") = true := by
    simpa using hproto
  have hrest : ∀ kv2 ∈ ((headers.enum.map
        (fun ih => (ih.2, coerceField ih.2 (valueAt values ih.1)))).drop (i + 1)).filter
        (fun kv => decide (kv.1 ≠ "__proto__")), kv2.1 ≠ header := by
    intro kv2 hkv2
    obtain ⟨n, hn⟩ := List.mem_iff_getElem?.1 (List.mem_of_mem_filter hkv2)
    rw [List.getElem?_drop] at hn
    simp only [List.getElem?_map, List.getElem?_enum, Option.map_map, Option.map_eq_some',
      Function.comp] at hn
    obtain ⟨a, ha, rfl⟩ := hn
    intro e
    exact hlast (i + 1 + n) (by omega) (by rw [ha]; exact congrArg some e)
  have := Obj.get?_foldl_set_append
    (((headers.enum.map (fun ih => (ih.2, coerceField ih.2 (valueAt values ih.1)))).take i).filter
      (fun kv => decide (kv.1 ≠ "__proto__")))
    (((headers.enum.map (fun ih => (ih.2, coerceField ih.2 (valueAt values ih.1)))).drop
      (i + 1)).filter (fun kv => decide (kv.1 ≠ "__proto__")))
    (header, coerceField header (valueAt values i)) [] hrest
  have hfilter : (headers.enum.map (fun ih => (ih.2, coerceField ih.2 (valueAt values ih.1)))).filter
      (fun kv => decide (kv.1 ≠ "__proto__")) =
      ((headers.enum.map (fun ih => (ih.2, coerceField ih.2 (valueAt values ih.1)))).take i).filter
        (fun kv => decide (kv.1 ≠ "__proto__")) ++
      (header, coerceField header (valueAt values i)) ::
        ((headers.enum.map (fun ih => (ih.2, coerceField ih.2 (valueAt values ih.1)))).drop
          (i + 1)).filter (fun kv => decide (kv.1 ≠ "__proto__")) := by
    conv_lhs => rw [← hsplit]
    rw [List.filter_append,
      @List.filter_cons_of_pos (String × Value) (fun kv => decide (kv.1 ≠ "__proto__"))
        (header, coerceField header (valueAt values i)) _ hkeep]
  rw [parseRow_eq, Record.field, hfilter, this]
  rfl

theorem coerceField_eq_typedAs (header : String) (raw : Value) :
    coerceField header raw = typedAs header raw := by
  unfold coerceField typedAs
  congr 2
  cases raw <;> simp [Value.strictEq]

/-- The record of data line `k` is `parseRow` of the fields of line `k + 1`. -/
theorem parseResumeData_getElem? (tsvText : String) (k : Nat) (line : String)
    (h : (linesOf tsvText)[k + 1]? = some line) :
    (parseResumeData tsvText)[k]? = some (parseRow (headersOf tsvText) (jsSplit TAB line)) := by
  unfold parseResumeData
  simp only [List.getElem?_map, List.getElem?_drop]
  have : (jsSplit LF (jsTrim tsvText))[1 + k]? = some line := by rw [Nat.add_comm]; exact h
  rw [this]; rfl
/-- Claim C1, as the code has it.  For every TSV text, every data line `k` and every header
position `i` whose name is not `__proto__` and does not occur again at a later position of
the header line, the record of that line holds under that name the typed `i`-th field of the
line: the raw value for `simulation_id` and `sample_id`, the test "raw value is exactly true"
for `neutral`, `parseFloat` of the raw value otherwise.  The example table of the
specification parses to the single record s1, A, true, 0.2, 0.85. -/
theorem parseResumeData_field_by_position :
    (∀ (tsvText : String) (k i : Nat),
      (headersOf tsvText)[i]? ≠ some "__proto__" →
      (∀ j header, i < j → (headersOf tsvText)[i]? = some header →
        (headersOf tsvText)[j]? ≠ some header) →
      FieldByPosition tsvText k i) ∧
    parseResumeData "simulation_id\tsample_id\tneutral\tp_death\trsquare\ns1\tA\ttrue\t0.2\t0.85" =
      [[("simulation_id", Value.str "s1"), ("sample_id", Value.str "A"),
        ("neutral", Value.bool true), ("p_death", Value.num (JSNum.fin 0.2)),
        ("rsquare", Value.num (JSNum.fin 0.85))]] := by
  constructor
  · intro tsvText k i hproto hlast header line hh hl
    refine ⟨_, parseResumeData_getElem? tsvText k line hl, ?_⟩
    rw [parseRow_field _ _ i header hh (fun j hj => hlast j header hj hh)
      (fun e => hproto (by rw [hh, e])), coerceField_eq_typedAs]
  · have h1 : parseFloatChars "0.2".data = JSNum.fin 0.2 := by
      simp [parseFloatChars, unsignedLiteral, isJSWhiteSpace, isDigit, digitsValue, exponentPart]
      norm_num
    have h2 : parseFloatChars "0.85".data = JSNum.fin 0.85 := by
      simp [parseFloatChars, unsignedLiteral, isJSWhiteSpace, isDigit, digitsValue, exponentPart]
      norm_num
    rw [← h1, ← h2]
    rfl

/-- Witness of C1: the column `p_death` (position 3) of the example table. -/
theorem parseResumeData_field_by_position_witness :
    (headersOf "simulation_id\tsample_id\tneutral\tp_death\trsquare\ns1\tA\ttrue\t0.2\t0.85")[3]?
      ≠ some "__proto__" ∧
    (∀ j header, 3 < j →
      (headersOf "simulation_id\tsample_id\tneutral\tp_death\trsquare\ns1\tA\ttrue\t0.2\t0.85")[3]?
        = some header →
      (headersOf "simulation_id\tsample_id\tneutral\tp_death\trsquare\ns1\tA\ttrue\t0.2\t0.85")[j]?
        ≠ some header) ∧
    FieldByPosition "simulation_id\tsample_id\tneutral\tp_death\trsquare\ns1\tA\ttrue\t0.2\t0.85" 0 3 := by
  have hh : headersOf "simulation_id\tsample_id\tneutral\tp_death\trsquare\ns1\tA\ttrue\t0.2\t0.85"
      = ["simulation_id", "sample_id", "neutral", "p_death", "rsquare"] := rfl
  have key : ∀ j header, 3 < j →
      (headersOf "simulation_id\tsample_id\tneutral\tp_death\trsquare\ns1\tA\ttrue\t0.2\t0.85")[3]?
        = some header →
      (headersOf "simulation_id\tsample_id\tneutral\tp_death\trsquare\ns1\tA\ttrue\t0.2\t0.85")[j]?
        ≠ some header := by
    intro j header hj h1 h2
    rw [hh] at h1 h2
    obtain ⟨m, rfl⟩ : ∃ m, j = m + 4 := ⟨j - 4, by omega⟩
    simp at h1
    subst h1
    cases m with
    | zero => simp at h2
    | succ m => simp at h2
  have hproto :
      (headersOf "simulation_id\tsample_id\tneutral\tp_death\trsquare\ns1\tA\ttrue\t0.2\t0.85")[3]?
        ≠ some "__proto__" := by
    rw [hh]; decide
  exact ⟨hproto, key, parseResumeData_field_by_position.1 _ 0 3 hproto key⟩

/-- Counterexample to C1 as stated, at two inputs.  With the header line `a<TAB>a` and the
data line `1<TAB>2` the record is `{a: 2}`, so the name at position 0 does not hold the field
at position 0, which is `1`.  With the header line `__proto__<TAB>x` and the data line
`1<TAB>2` the record is `{x: 2}`: the assignment under `__proto__` creates no property, so
the name at position 0 holds no field at all. -/
theorem parseResumeData_field_by_position_fails :
    (parseResumeData "a\ta\n1\t2" = [[("a", Value.num (JSNum.fin 2))]] ∧
      ¬ FieldByPosition "a\ta\n1\t2" 0 0) ∧
    (parseResumeData "__proto__\tx\n1\t2" = [[("x", Value.num (JSNum.fin 2))]] ∧
      ¬ FieldByPosition "__proto__\tx\n1\t2" 0 0) := by
  refine ⟨?_, ?_⟩
  swap
  · have h2 : parseFloatChars "2".data = JSNum.fin 2 := by
      simp [parseFloatChars, unsignedLiteral, isJSWhiteSpace, isDigit, digitsValue, exponentPart]
    have hp : parseResumeData "__proto__\tx\n1\t2" = [[("x", Value.num (JSNum.fin 2))]] := by
      rw [← h2]; rfl
    refine ⟨hp, ?_⟩
    intro h
    obtain ⟨row, hrow, hf⟩ := h "__proto__" "1\t2" rfl rfl
    rw [hp] at hrow
    simp at hrow
    subst hrow
    have hf2 : Record.field [("x", Value.num (JSNum.fin 2))] "__proto__" = Value.undefined := rfl
    have hf3 : typedAs "__proto__" (valueAt (jsSplit TAB "1\t2") 0) =
        Value.num (parseFloatChars "1".data) := rfl
    rw [hf2, hf3] at hf
    cases hf
  have h1 : parseFloatChars "1".data = JSNum.fin 1 := by
    simp [parseFloatChars, unsignedLiteral, isJSWhiteSpace, isDigit, digitsValue, exponentPart]
  have h2 : parseFloatChars "2".data = JSNum.fin 2 := by
    simp [parseFloatChars, unsignedLiteral, isJSWhiteSpace, isDigit, digitsValue, exponentPart]
  have hp : parseResumeData "a\ta\n1\t2" = [[("a", Value.num (JSNum.fin 2))]] := by
    rw [← h2]; rfl
  refine ⟨hp, ?_⟩
  intro h
  obtain ⟨row, hrow, hf⟩ := h "a" "1\t2" rfl rfl
  rw [hp] at hrow
  simp at hrow
  subst hrow
  have hv : valueAt (jsSplit TAB "1\t2") 0 = Value.str "1" := rfl
  rw [hv] at hf
  have hf2 : Record.field [("a", Value.num (JSNum.fin 2))] "a" = Value.num (JSNum.fin 2) := rfl
  have hf3 : typedAs "a" (Value.str "1") = Value.num (parseFloatChars "1".data) := rfl
  rw [hf2, hf3, h1] at hf
  simp at hf

/-! ## filterData -/

theorem includes_iff (arr : List Value) (v : Value) : includes arr v = true ↔ v ∈ arr := by
  unfold includes Value.sameValueZero
  simp only [List.any_eq_true, decide_eq_true_eq]
  constructor
  · rintro ⟨a, ha, rfl⟩; exact ha
  · intro h; exact ⟨v, h, rfl⟩

theorem passesFilters_iff (f : FilterObj) (row : Record) :
    passesFilters f row = true ↔ MatchesFilters f row := by
  induction f with
  | nil => simp [passesFilters, MatchesFilters]
  | cons kv rest ih =>
    obtain ⟨param, values⟩ := kv
    unfold MatchesFilters at ih ⊢
    cases values with
    | none => simp [passesFilters, ih]
    | some vs =>
      cases vs with
      | nil => simp [passesFilters, ih]
      | cons a as =>
        by_cases hin : includes (a :: as) (Record.field row param) = true
        · have hm := (includes_iff _ _).1 hin
          have hp : passesFilters ((param, some (a :: as)) :: rest) row = passesFilters rest row := by
            simp [passesFilters, hin]
          rw [hp, ih]
          constructor
          · intro h kv hkv
            rcases List.mem_cons.1 hkv with rfl | hkv
            · intro _; exact hm
            · exact h kv hkv
          · intro h kv hkv; exact h kv (List.mem_cons_of_mem _ hkv)
        · have hm : ¬ Record.field row param ∈ a :: as := fun h => hin ((includes_iff _ _).2 h)
          have hp : passesFilters ((param, some (a :: as)) :: rest) row = false := by
            simp only [Bool.not_eq_true] at hin
            simp [passesFilters, hin]
          rw [hp]
          constructor
          · intro h; cases h
          · intro h
            exact absurd (h (param, some (a :: as)) (List.mem_cons_self _ _) (by simp)) hm

theorem filterData_some (data : List Record) (f : FilterObj) :
    filterData data (some f) = data.filter (fun row => decide (MatchesFilters f row)) := by
  have hfun : (fun row => passesFilters f row) = (fun row => decide (MatchesFilters f row)) := by
    funext row
    rw [Bool.eq_iff_iff, passesFilters_iff]; simp
  unfold filterData
  simp only [Obj.keys, List.length_map]
  split
  · next h =>
    have : f = [] := List.length_eq_zero.1 h
    subst this
    simp [MatchesFilters]
  · rw [hfun]

/-- Claim C2.  `filterData` keeps exactly the records that match the filters object, in
their order: a record is kept if and only if, for every parameter of the object with a
non-empty value list, the value of the record for the parameter is a member of the list.  A
parameter with an empty or missing list constrains nothing, and a null or empty filters
object returns the input list unchanged. -/
theorem filterData_keeps_matching (data : List Record) (f : FilterObj) :
    filterData data (some f) = data.filter (fun row => decide (MatchesFilters f row)) ∧
    (∀ row, row ∈ filterData data (some f) ↔ row ∈ data ∧
      ∀ param vs, (param, some vs) ∈ f → vs ≠ [] → Record.field row param ∈ vs) ∧
    (∀ row, (∀ kv ∈ f, kv.2 = none ∨ kv.2 = some []) → row ∈ data → row ∈ filterData data (some f)) ∧
    filterData data none = data ∧ filterData data (some []) = data := by
  refine ⟨filterData_some data f, ?_, ?_, rfl, rfl⟩
  · intro row
    rw [filterData_some]
    simp only [List.mem_filter, decide_eq_true_eq, MatchesFilters]
    constructor
    · rintro ⟨hd, hm⟩
      exact ⟨hd, fun param vs hmem hne => hm (param, some vs) hmem hne⟩
    · rintro ⟨hd, hm⟩
      refine ⟨hd, ?_⟩
      rintro ⟨param, values⟩ hmem hne
      cases values with
      | none => simp at hne
      | some vs => exact hm param vs hmem hne
  · intro row hnone hd
    rw [filterData_some]
    simp only [List.mem_filter, decide_eq_true_eq, MatchesFilters]
    refine ⟨hd, ?_⟩
    intro kv hkv hne
    rcases hnone kv hkv with h | h <;> simp [h] at hne

/-- Claim C9.  Filtering is idempotent: filtering the result of `filterData` again by the same
filters object changes nothing. -/
theorem filterData_idempotent (data : List Record) (filters : Option FilterObj) :
    filterData (filterData data filters) filters = filterData data filters := by
  cases filters with
  | none => rfl
  | some f =>
    rw [filterData_some, filterData_some, List.filter_filter]
    simp

/-- Witness of C2: one record matches the filter `p_death ∈ {0.2}`, the other does not; the
parameter with the empty list constrains nothing. -/
theorem filterData_keeps_matching_witness :
    filterData
      [[("p_death", Value.num (JSNum.fin 0.2))], [("p_death", Value.num (JSNum.fin 0.3))]]
      (some [("p_death", some [Value.num (JSNum.fin 0.2)]), ("p_driver", some [])]) =
      [[("p_death", Value.num (JSNum.fin 0.2))]] := by
  rw [(filterData_keeps_matching _ _).1]
  simp [MatchesFilters, Record.field, Obj.get?]
  norm_num

/-! ## Numbers -/

theorem JSNum.add_def (a b : JSNum) : a + b = JSNum.add a b := rfl

theorem JSNum.zero_def : (0 : JSNum) = JSNum.fin 0 := rfl

theorem JSNum.add_assoc (a b c : JSNum) :
    JSNum.add (JSNum.add a b) c = JSNum.add a (JSNum.add b c) := by
  cases a <;> cases b <;> cases c <;> simp [JSNum.add, Rat.add_assoc]

theorem JSNum.zero_add (a : JSNum) : JSNum.add (JSNum.fin 0) a = a := by
  cases a <;> simp [JSNum.add]

theorem JSNum.add_zero (a : JSNum) : JSNum.add a (JSNum.fin 0) = a := by
  cases a <;> simp [JSNum.add]

theorem JSNum.foldl_add (xs : List JSNum) (a : JSNum) :
    xs.foldl JSNum.add a = JSNum.add a xs.sum := by
  induction xs generalizing a with
  | nil => simp [JSNum.zero_def, JSNum.add_zero]
  | cons x xs ih =>
    simp only [List.foldl_cons, List.sum_cons, ih, JSNum.add_def, JSNum.add_assoc]

theorem sumReduce_eq (values : List Value) : sumReduce values = (values.map Value.toNumber).sum := by
  unfold sumReduce
  rw [← List.foldl_map (g := JSNum.add), JSNum.foldl_add, JSNum.zero_add]

/-! ## getUniqueValues -/

theorem mem_newSet_foldl (values acc : List Value) (v : Value) :
    v ∈ values.foldl (fun acc v => if includes acc v then acc else acc ++ [v]) acc ↔
      v ∈ acc ∨ v ∈ values := by
  induction values generalizing acc with
  | nil => simp
  | cons x xs ih =>
    simp only [List.foldl_cons, ih, List.mem_cons]
    by_cases hx : includes acc x = true
    · have := (includes_iff _ _).1 hx
      simp only [hx, if_true]
      constructor
      · rintro (h | h)
        · exact Or.inl h
        · exact Or.inr (Or.inr h)
      · rintro (h | rfl | h)
        · exact Or.inl h
        · exact Or.inl this
        · exact Or.inr h
    · simp only [hx, Bool.false_eq_true, if_false, List.mem_append, List.mem_singleton]
      constructor
      · rintro ((h | h) | h)
        · exact Or.inl h
        · exact Or.inr (Or.inl h)
        · exact Or.inr (Or.inr h)
      · rintro (h | h | h)
        · exact Or.inl (Or.inl h)
        · exact Or.inl (Or.inr h)
        · exact Or.inr h

theorem mem_newSet (values : List Value) (v : Value) : v ∈ newSet values ↔ v ∈ values := by
  unfold newSet
  rw [mem_newSet_foldl]; simp

theorem mem_jsSort (comparefn : Value → Value → JSNum) (arr : List Value) (v : Value) :
    v ∈ jsSort comparefn arr ↔ v ∈ arr := by
  unfold jsSort
  rw [List.mem_append, (List.perm_insertionSort _ _).mem_iff]
  simp only [List.mem_filter, decide_eq_true_eq]
  constructor
  · rintro (h | h) <;> exact h.1
  · intro h
    by_cases hv : v = Value.undefined
    · exact Or.inr ⟨h, hv⟩
    · exact Or.inl ⟨h, hv⟩

theorem mem_getUniqueValues (data : List Record) (parameterName : String) (v : Value) :
    v ∈ getUniqueValues data parameterName ↔ ∃ row ∈ data, Record.field row parameterName = v := by
  unfold getUniqueValues
  rw [mem_jsSort, mem_newSet, List.mem_map]

/-! ## createPivotTable -/

theorem mapToFixed_isSome (toFixed : JSNum → Nat → String) (vs : List Value)
    (h : ∀ v ∈ vs, ∃ x, v = Value.num x) : ∃ labels, mapToFixed toFixed vs = some labels := by
  induction vs with
  | nil => exact ⟨[], rfl⟩
  | cons v vs ih =>
    obtain ⟨x, rfl⟩ := h v (List.mem_cons_self _ _)
    obtain ⟨labels, hl⟩ := ih (fun w hw => h w (List.mem_cons_of_mem _ hw))
    exact ⟨toFixed x 4 :: labels, by simp [mapToFixed, hl]⟩

theorem createPivotTable_eq_some (toFixed : JSNum → Nat → String) (data : List Record)
    (param1 param2 metric : String) (t : PivotTable)
    (h : createPivotTable toFixed data param1 param2 metric = some t) :
    t.xValues = getUniqueValues (filterByNeutral data false) param2 ∧
    t.yValues = getUniqueValues (filterByNeutral data false) param1 ∧
    t.values = (getUniqueValues (filterByNeutral data false) param1).map (fun y =>
      (getUniqueValues (filterByNeutral data false) param2).map (fun x =>
        pivotCell (filterByNeutral data false) param1 param2 metric y x)) := by
  unfold createPivotTable at h
  simp only at h
  split at h
  · simp only [Option.some.injEq] at h
    subst h
    exact ⟨rfl, rfl, rfl⟩
  · cases h

theorem pivotMatches_eq_cellRecords (population : List Record) (param1 param2 : String)
    (y x : Value) :
    pivotMatches population param1 param2 y x = cellRecords population param1 param2 y x := by
  unfold pivotMatches cellRecords
  congr 1
  funext d
  rw [Bool.eq_iff_iff]; simp

theorem pivotCell_spec (population : List Record) (param1 param2 metric : String) (y x : Value) :
    (pivotCell population param1 param2 metric y x ≠ none ↔
      ∃ d ∈ population, Value.strictEq (Record.field d param1) y = true ∧
        Value.strictEq (Record.field d param2) x = true) ∧
    (pivotCell population param1 param2 metric y x ≠ none →
      pivotCell population param1 param2 metric y x = some (meanOf
        ((cellRecords population param1 param2 y x).map
          (fun d => Value.toNumber (Record.field d metric))))) := by
  have hlen : (pivotMatches population param1 param2 y x).length > 0 ↔
      ∃ d ∈ population, Value.strictEq (Record.field d param1) y = true ∧
        Value.strictEq (Record.field d param2) x = true := by
    show 0 < _ ↔ _
    rw [List.length_pos_iff_exists_mem]
    simp only [pivotMatches, List.mem_filter, Bool.and_eq_true]
  unfold pivotCell
  simp only
  by_cases hpos : (pivotMatches population param1 param2 y x).length > 0
  · simp only [hpos, if_true, ne_eq, not_false_eq_true, true_iff, forall_true_left,
      Option.some.injEq, reduceCtorEq]
    refine ⟨hlen.1 hpos, ?_⟩
    rw [sumReduce_eq, pivotMatches_eq_cellRecords, meanOf, List.map_map, List.length_map]
    rfl
  · simp only [hpos, if_false, ne_eq, not_true_eq_false, false_iff, false_implies, and_true]
    exact fun h => hpos (hlen.2 h)

theorem createPivotTable_cells (toFixed : JSNum → Nat → String) (data : List Record)
    (param1 param2 metric : String) (t : PivotTable)
    (h : createPivotTable toFixed data param1 param2 metric = some t) :
    PivotCellsOver (filterByNeutral data false) t param1 param2 metric := by
  obtain ⟨hx, hy, hv⟩ := createPivotTable_eq_some toFixed data param1 param2 metric t h
  intro i j r c hr hc
  refine ⟨pivotCell (filterByNeutral data false) param1 param2 metric r c, ?_,
    pivotCell_spec _ _ _ _ _ _⟩
  rw [hy] at hr
  rw [hx] at hc
  simp [PivotTable.cell?, hv, List.getElem?_map, hr, hc]

/-- Claim C3, as the code has it.  `createPivotTable` first keeps the records with
`neutral === false`; for every row key `r` and column key `c` of the returned table the cell
is non-null if and only if at least one of these not-neutral records has `param1` equal to `r`
and `param2` equal to `c`, and it is then the arithmetic mean of the metric over all such
not-neutral records; otherwise it is null (never 0).  The metric column is taken to hold
numbers.  A table is returned whenever the two parameters are numbers in every not-neutral
record. -/
theorem createPivotTable_cells_over_not_neutral (toFixed : JSNum → Nat → String)
    (data : List Record) (param1 param2 metric : String)
    (_hmetric : NumericColumn (filterByNeutral data false) metric) :
    (∀ t, createPivotTable toFixed data param1 param2 metric = some t →
      PivotCellsOver (filterByNeutral data false) t param1 param2 metric) ∧
    (NumericColumn (filterByNeutral data false) param1 →
      NumericColumn (filterByNeutral data false) param2 →
      ∃ t, createPivotTable toFixed data param1 param2 metric = some t) := by
  refine ⟨fun t h => createPivotTable_cells toFixed data param1 param2 metric t h, ?_⟩
  intro h1 h2
  obtain ⟨xl, hxl⟩ := mapToFixed_isSome toFixed (getUniqueValues (filterByNeutral data false) param2)
    (by
      intro v hv
      obtain ⟨row, hrow, rfl⟩ := (mem_getUniqueValues _ _ _).1 hv
      exact h2 row hrow)
  obtain ⟨yl, hyl⟩ := mapToFixed_isSome toFixed (getUniqueValues (filterByNeutral data false) param1)
    (by
      intro v hv
      obtain ⟨row, hrow, rfl⟩ := (mem_getUniqueValues _ _ _).1 hv
      exact h1 row hrow)
  unfold createPivotTable
  simp only [hxl, hyl]
  exact ⟨_, rfl⟩

/-- Witness of C3: the table of `pivotExample` has the keys 1, 3 and 2, 4, and its cells
aggregate the two not-neutral records. -/
theorem createPivotTable_cells_over_not_neutral_witness :
    NumericColumn (filterByNeutral pivotExample false) "m" ∧
    ∃ t, createPivotTable (fun _ _ => "") pivotExample "a" "b" "m" = some t ∧
      t.values = [[some (JSNum.fin 5), none], [none, some (JSNum.fin 6)]] ∧
      PivotCellsOver (filterByNeutral pivotExample false) t "a" "b" "m" := by
  have hm : NumericColumn (filterByNeutral pivotExample false) "m" := by
    intro d hd
    have hnn : filterByNeutral pivotExample false = pivotExample.take 2 := by decide!
    rw [hnn] at hd
    simp only [pivotExample, List.take_succ_cons, List.take_zero, List.mem_cons,
      List.mem_singleton, List.not_mem_nil, or_false] at hd
    rcases hd with rfl | rfl
    · exact ⟨JSNum.fin 5, by decide!⟩
    · exact ⟨JSNum.fin 6, by decide!⟩
  have ht : createPivotTable (fun _ _ => "") pivotExample "a" "b" "m" =
      some { xLabels := ["", ""], yLabels := ["", ""],
             xValues := [Value.num (JSNum.fin 2), Value.num (JSNum.fin 4)],
             yValues := [Value.num (JSNum.fin 1), Value.num (JSNum.fin 3)],
             values := [[some (JSNum.fin 5), none], [none, some (JSNum.fin 6)]] } := by
    with_unfolding_all rfl
  exact ⟨hm, _, ht, rfl,
    (createPivotTable_cells_over_not_neutral (fun _ _ => "") pivotExample "a" "b" "m" hm).1 _ ht⟩

/-- Counterexample to C3 as stated: in `pivotExample` the neutral record has `a = 1` and
`b = 4`, and 1 is a row key and 4 a column key of the returned table, yet the cell at (1, 4)
is null: the cells do not aggregate the records of the input list. -/
theorem createPivotTable_skips_neutral_records :
    ∃ t, createPivotTable (fun _ _ => "") pivotExample "a" "b" "m" = some t ∧
      t.yValues[0]? = some (Value.num (JSNum.fin 1)) ∧
      t.xValues[1]? = some (Value.num (JSNum.fin 4)) ∧
      t.cell? 0 1 = some none ∧
      ¬ PivotCellsOver pivotExample t "a" "b" "m" := by
  have ht : createPivotTable (fun _ _ => "") pivotExample "a" "b" "m" =
      some { xLabels := ["", ""], yLabels := ["", ""],
             xValues := [Value.num (JSNum.fin 2), Value.num (JSNum.fin 4)],
             yValues := [Value.num (JSNum.fin 1), Value.num (JSNum.fin 3)],
             values := [[some (JSNum.fin 5), none], [none, some (JSNum.fin 6)]] } := by
    with_unfolding_all rfl
  refine ⟨_, ht, rfl, rfl, rfl, ?_⟩
  intro H
  obtain ⟨cell, hc, hiff, _⟩ := H 0 1 (Value.num (JSNum.fin 1)) (Value.num (JSNum.fin 4)) rfl rfl
  have hnone : cell = none := by
    have : some cell = some none := hc.symm.trans rfl
    exact Option.some.inj this
  apply hiff.2 _ hnone
  refine ⟨[("neutral", Value.bool true), ("a", Value.num (JSNum.fin 1)),
    ("b", Value.num (JSNum.fin 4)), ("m", Value.num (JSNum.fin 7))], ?_, ?_, ?_⟩
  · simp [pivotExample]
  · decide!
  · decide!

/-! ## aggregateByParameter -/

theorem JSNum.sum_map_fin (qs : List ℚ) : (qs.map JSNum.fin).sum = JSNum.fin qs.sum := by
  induction qs with
  | nil => rfl
  | cons q qs ih => simp only [List.map_cons, List.sum_cons, ih]; rfl

theorem JSNum.div_fin_ofNat (a : ℚ) (n : Nat) (hn : n ≠ 0) :
    JSNum.fin a / JSNum.ofNat n = JSNum.fin (a / n) := by
  have : (n : ℚ) ≠ 0 := Nat.cast_ne_zero.2 hn
  show JSNum.div (JSNum.fin a) (JSNum.fin (n : ℚ)) = _
  simp [JSNum.div, this]

theorem calculateStats_eq (root : ℚ → ℚ) (parameter metric : String) (filteredData : List Record)
    (paramValue : Value)
    (h : filteredData.filter
      (fun row => Value.strictEq (Record.field row parameter) paramValue) ≠ []) :
    calculateStats root parameter metric filteredData paramValue =
      populationStats root
        ((filteredData.filter (fun row => Value.strictEq (Record.field row parameter) paramValue)).map
          (fun row => Value.toNumber (Record.field row metric))) := by
  unfold calculateStats populationStats
  have hlen : ¬ ((filteredData.filter
      (fun row => Value.strictEq (Record.field row parameter) paramValue)).map
      (fun row => Record.field row metric)).length = 0 := by
    rw [List.length_map, List.length_eq_zero]; exact h
  simp only [hlen, if_false]
  rw [sumReduce_eq, List.map_map]
  rw [← List.foldl_map (g := fun sum (x : JSNum) => JSNum.add sum
      (JSNum.Math_pow (JSNum.sub x _) 2)) (f := Value.toNumber)]
  rw [← List.foldl_map (g := JSNum.add) (f := fun x : JSNum => JSNum.Math_pow (JSNum.sub x _) 2),
    JSNum.foldl_add, JSNum.zero_add, List.map_map, List.map_map]
  simp only [List.length_map, List.map_map, Function.comp_def]
  rfl

theorem populationStats_fin (root : ℚ → ℚ) (qs : List ℚ) (h : qs ≠ []) :
    populationStats root (qs.map JSNum.fin) =
      { mean := JSNum.fin (qs.sum / qs.length),
        std := JSNum.Math_sqrt root (JSNum.fin
          ((qs.map (fun q => (q - qs.sum / qs.length) ^ 2)).sum / qs.length)) } := by
  have hlen : qs.length ≠ 0 := fun e => h (List.length_eq_zero.1 e)
  unfold populationStats
  rw [JSNum.sum_map_fin, List.length_map, JSNum.div_fin_ofNat _ _ hlen, List.map_map]
  have hsq : ((fun x : JSNum => (x - JSNum.fin (qs.sum / qs.length)) *
      (x - JSNum.fin (qs.sum / qs.length))) ∘ JSNum.fin) =
      (JSNum.fin ∘ fun q : ℚ => (q - qs.sum / qs.length) ^ 2) := by
    funext q
    show JSNum.mul (JSNum.add (JSNum.fin q) (JSNum.neg (JSNum.fin _)))
      (JSNum.add (JSNum.fin q) (JSNum.neg (JSNum.fin _))) = JSNum.fin _
    simp only [JSNum.neg, JSNum.add, JSNum.mul, Function.comp]
    congr 1
    ring
  rw [hsq, ← List.map_map, JSNum.sum_map_fin, JSNum.div_fin_ofNat _ _ hlen]

/-- Claim C4.  For each distinct value `v` of the parameter (the entry at index `i` of
`values`) and each cohort (neutral, not neutral) that has at least one record with the
parameter equal to `v`, `aggregateByParameter` returns at index `i` the mean = sum / count and
std = sqrt(sum of (metric - mean)^2 / count) of the metric over these records: the population
standard deviation, with denominator count.  The metric column is taken to hold numbers; for
finite metric values the result is the exact rational mean and the square root of the exact
rational population variance. -/
theorem aggregateByParameter_population_stats (root : ℚ → ℚ) (data : List Record)
    (parameter metric : String) (_hmetric : NumericColumn data metric) :
    (∀ v, v ∈ (aggregateByParameter root data parameter metric).values ↔
      ∃ row ∈ data, Record.field row parameter = v) ∧
    (∀ (i : Nat) (v : Value), (aggregateByParameter root data parameter metric).values[i]? = some v →
      (partitionMetrics data true parameter metric v ≠ [] →
        (aggregateByParameter root data parameter metric).neutral[i]? =
          some (populationStats root (partitionMetrics data true parameter metric v))) ∧
      (partitionMetrics data false parameter metric v ≠ [] →
        (aggregateByParameter root data parameter metric).not_neutral[i]? =
          some (populationStats root (partitionMetrics data false parameter metric v)))) ∧
    (∀ qs : List ℚ, qs ≠ [] →
      populationStats root (qs.map JSNum.fin) =
        { mean := JSNum.fin (qs.sum / qs.length),
          std := JSNum.Math_sqrt root (JSNum.fin
            ((qs.map (fun q => (q - qs.sum / qs.length) ^ 2)).sum / qs.length)) }) := by
  refine ⟨fun v => mem_getUniqueValues data parameter v, ?_, populationStats_fin root⟩
  intro i v hv
  have hv2 : (getUniqueValues data parameter)[i]? = some v := hv
  constructor
  · intro hne
    have hne2 : (filterByNeutral data true).filter
        (fun row => Value.strictEq (Record.field row parameter) v) ≠ [] := by
      intro e; exact hne (by simp [partitionMetrics, e])
    have hagg : (aggregateByParameter root data parameter metric).neutral =
        (getUniqueValues data parameter).map
          (fun v => calculateStats root parameter metric (filterByNeutral data true) v) := rfl
    rw [hagg, List.getElem?_map, hv2, Option.map_some', calculateStats_eq _ _ _ _ _ hne2]
    rfl
  · intro hne
    have hne2 : (filterByNeutral data false).filter
        (fun row => Value.strictEq (Record.field row parameter) v) ≠ [] := by
      intro e; exact hne (by simp [partitionMetrics, e])
    have hagg : (aggregateByParameter root data parameter metric).not_neutral =
        (getUniqueValues data parameter).map
          (fun v => calculateStats root parameter metric (filterByNeutral data false) v) := rfl
    rw [hagg, List.getElem?_map, hv2, Option.map_some', calculateStats_eq _ _ _ _ _ hne2]
    rfl

/-- Witness of C4: the metrics 2 and 4 have mean 3 and population variance 1 (the sample
variance would be 2), so the deviation is the root of 1. -/
theorem aggregateByParameter_population_stats_witness :
    NumericColumn statsExample "m" ∧
    (aggregateByParameter (fun q => q) statsExample "p" "m").neutral[0]? =
      some (populationStats (fun q => q) [JSNum.fin 2, JSNum.fin 4]) ∧
    populationStats (fun q => q) [JSNum.fin 2, JSNum.fin 4] =
      { mean := JSNum.fin 3, std := JSNum.fin 1 } := by
  have hm : NumericColumn statsExample "m" := by
    intro d hd
    simp only [statsExample, List.mem_cons, List.mem_singleton, List.not_mem_nil, or_false] at hd
    rcases hd with rfl | rfl
    · exact ⟨JSNum.fin 2, by decide!⟩
    · exact ⟨JSNum.fin 4, by decide!⟩
  refine ⟨hm, ?_, by decide!⟩
  have h := ((aggregateByParameter_population_stats (fun q => q) statsExample "p" "m" hm).2.1 0
    (Value.num (JSNum.fin 1)) (by decide!)).1 (by decide!)
  rw [h]
  decide!

/-! ## calculateLinearRegression -/

@[simp] theorem JSNum.fin_add_fin (a b : ℚ) : JSNum.fin a + JSNum.fin b = JSNum.fin (a + b) := rfl

@[simp] theorem JSNum.fin_sub_fin (a b : ℚ) : JSNum.fin a - JSNum.fin b = JSNum.fin (a - b) := by
  show JSNum.add (JSNum.fin a) (JSNum.neg (JSNum.fin b)) = _
  simp [JSNum.add, JSNum.neg, sub_eq_add_neg]

@[simp] theorem JSNum.fin_mul_fin (a b : ℚ) : JSNum.fin a * JSNum.fin b = JSNum.fin (a * b) := rfl

theorem JSNum.fin_div_fin (a b : ℚ) (hb : b ≠ 0) : JSNum.fin a / JSNum.fin b = JSNum.fin (a / b) := by
  show JSNum.div (JSNum.fin a) (JSNum.fin b) = _
  simp [JSNum.div, hb]

@[simp] theorem JSNum.Math_pow_two_fin (a : ℚ) :
    JSNum.Math_pow (JSNum.fin a) 2 = JSNum.fin (a ^ 2) := by
  show JSNum.mul (JSNum.fin a) (JSNum.fin a) = _
  simp [JSNum.mul, sq]

theorem JSNum.foldl_fin {α : Type} (l : List α) (f : α → JSNum) (g : α → ℚ) (c : ℚ)
    (h : ∀ a ∈ l, f a = JSNum.fin (g a)) :
    l.foldl (fun sum a => sum + f a) (JSNum.fin c) = JSNum.fin (c + (l.map g).sum) := by
  induction l generalizing c with
  | nil => simp
  | cons a l ih =>
    rw [List.foldl_cons, h a (List.mem_cons_self _ _), JSNum.fin_add_fin,
      ih _ (fun b hb => h b (List.mem_cons_of_mem _ hb)), List.map_cons, List.sum_cons]
    congr 1
    ring

theorem JSNum.foldl_ofRat (pts : List (ℚ × ℚ)) (f : Point → JSNum) (g : ℚ × ℚ → ℚ)
    (h : ∀ p, f (Point.ofRat p) = JSNum.fin (g p)) :
    (pts.map Point.ofRat).foldl (fun sum a => sum + f a) (JSNum.fin 0) =
      JSNum.fin ((pts.map g).sum) := by
  rw [List.foldl_map, JSNum.foldl_fin pts (fun p => f (Point.ofRat p)) g 0 (fun p _ => h p)]
  simp

/-! ### Sums of squares -/

theorem sum_sq_affine (xs : List ℚ) (c s : ℚ) :
    (xs.map (fun x => (c * x - s) ^ 2)).sum =
      c ^ 2 * (xs.map (fun x => x * x)).sum - 2 * c * s * xs.sum + xs.length * s ^ 2 := by
  induction xs with
  | nil => simp
  | cons x xs ih =>
    simp only [List.map_cons, List.sum_cons, List.length_cons, ih, Nat.cast_succ]
    ring

theorem sum_sq_eq_zero {α : Type} (xs : List α) (f : α → ℚ) (h : (xs.map (fun x => (f x) ^ 2)).sum = 0) :
    ∀ x ∈ xs, f x = 0 := by
  induction xs with
  | nil => intro x hx; cases hx
  | cons a xs ih =>
    have hnn : 0 ≤ (xs.map (fun x => (f x) ^ 2)).sum :=
      List.sum_nonneg (by
        intro y hy
        obtain ⟨x, _, rfl⟩ := List.mem_map.1 hy
        exact sq_nonneg _)
    simp only [List.map_cons, List.sum_cons] at h
    have ha : (f a) ^ 2 = 0 := by nlinarith [sq_nonneg (f a)]
    have hrest : (xs.map (fun x => (f x) ^ 2)).sum = 0 := by nlinarith [sq_nonneg (f a)]
    intro x hx
    rcases List.mem_cons.1 hx with rfl | hx
    · exact pow_eq_zero_iff (two_ne_zero) |>.1 ha
    · exact ih hrest x hx

theorem sumX_map (pts : List (ℚ × ℚ)) : sumX pts = (pts.map Prod.fst).sum := rfl

theorem sumX2_map (pts : List (ℚ × ℚ)) :
    sumX2 pts = ((pts.map Prod.fst).map (fun x => x * x)).sum := by
  simp [sumX2, List.map_map, Function.comp_def]

/-- The denominator of the slope vanishes only when all `x` are equal. -/
theorem denominator_ne_zero (pts : List (ℚ × ℚ)) (h : XNotAllEqual pts) :
    (pts.length : ℚ) * sumX2 pts - sumX pts ^ 2 ≠ 0 := by
  obtain ⟨p, hp, q, hq, hpq⟩ := h
  have hlen : (pts.length : ℚ) ≠ 0 :=
    Nat.cast_ne_zero.2 (List.length_pos_of_mem hp).ne'
  intro hD
  have hid := sum_sq_affine (pts.map Prod.fst) pts.length (sumX pts)
  rw [← sumX2_map, ← sumX_map, List.length_map] at hid
  have hzero : ((pts.map Prod.fst).map (fun x => ((pts.length : ℚ) * x - sumX pts) ^ 2)).sum = 0 := by
    rw [hid]
    have : (pts.length : ℚ) ^ 2 * sumX2 pts - 2 * pts.length * sumX pts * sumX pts
        + pts.length * sumX pts ^ 2 = pts.length * (pts.length * sumX2 pts - sumX pts ^ 2) := by
      ring
    rw [this, hD, mul_zero]
  have hall := sum_sq_eq_zero _ (fun x => (pts.length : ℚ) * x - sumX pts) hzero
  have h1 := hall p.1 (List.mem_map_of_mem _ hp)
  have h2 := hall q.1 (List.mem_map_of_mem _ hq)
  simp only at h1 h2
  apply hpq
  have : (pts.length : ℚ) * p.1 = pts.length * q.1 := by linarith
  exact mul_left_cancel₀ hlen this

theorem length_ne_zero_of_xNotAllEqual (pts : List (ℚ × ℚ)) (h : XNotAllEqual pts) :
    (pts.length : ℚ) ≠ 0 := by
  obtain ⟨p, hp, _⟩ := h
  exact Nat.cast_ne_zero.2 (List.length_pos_of_mem hp).ne'

theorem ofNat_length_map (pts : List (ℚ × ℚ)) :
    JSNum.ofNat (pts.map Point.ofRat).length = JSNum.fin (pts.length : ℚ) := by
  simp [JSNum.ofNat]

theorem foldl_sumX (pts : List (ℚ × ℚ)) :
    (pts.map Point.ofRat).foldl (fun sum p => sum + p.x) (JSNum.fin 0) = JSNum.fin (sumX pts) :=
  JSNum.foldl_ofRat pts (fun p => p.x) (fun p => p.1) (fun _ => rfl)

theorem foldl_sumY (pts : List (ℚ × ℚ)) :
    (pts.map Point.ofRat).foldl (fun sum p => sum + p.y) (JSNum.fin 0) = JSNum.fin (sumY pts) :=
  JSNum.foldl_ofRat pts (fun p => p.y) (fun p => p.2) (fun _ => rfl)

theorem foldl_sumXY (pts : List (ℚ × ℚ)) :
    (pts.map Point.ofRat).foldl (fun sum p => sum + p.x * p.y) (JSNum.fin 0) =
      JSNum.fin (sumXY pts) :=
  JSNum.foldl_ofRat pts (fun p => p.x * p.y) (fun p => p.1 * p.2) (fun _ => rfl)

theorem foldl_sumX2 (pts : List (ℚ × ℚ)) :
    (pts.map Point.ofRat).foldl (fun sum p => sum + p.x * p.x) (JSNum.fin 0) =
      JSNum.fin (sumX2 pts) :=
  JSNum.foldl_ofRat pts (fun p => p.x * p.x) (fun p => p.1 * p.1) (fun _ => rfl)

/-- On finite points whose `x` are not all equal the slope is the closed form, a finite
number. -/
theorem regression_slope (root : ℚ → ℚ) (pts : List (ℚ × ℚ)) (h : XNotAllEqual pts) :
    (calculateLinearRegression root (pts.map Point.ofRat)).slope = JSNum.fin (olsSlope pts) := by
  have hD := denominator_ne_zero pts h
  show (JSNum.ofNat (pts.map Point.ofRat).length
      * (pts.map Point.ofRat).foldl (fun sum p => sum + p.x * p.y) (JSNum.fin 0)
      - (pts.map Point.ofRat).foldl (fun sum p => sum + p.x) (JSNum.fin 0)
        * (pts.map Point.ofRat).foldl (fun sum p => sum + p.y) (JSNum.fin 0))
      / (JSNum.ofNat (pts.map Point.ofRat).length
        * (pts.map Point.ofRat).foldl (fun sum p => sum + p.x * p.x) (JSNum.fin 0)
        - (pts.map Point.ofRat).foldl (fun sum p => sum + p.x) (JSNum.fin 0)
          * (pts.map Point.ofRat).foldl (fun sum p => sum + p.x) (JSNum.fin 0)) = _
  rw [ofNat_length_map, foldl_sumX, foldl_sumY, foldl_sumXY, foldl_sumX2]
  simp only [JSNum.fin_mul_fin, JSNum.fin_sub_fin]
  rw [JSNum.fin_div_fin _ _ (by rw [← sq]; exact hD), olsSlope, sq]

/-- On finite points whose `x` are not all equal the intercept is the closed form. -/
theorem regression_intercept (root : ℚ → ℚ) (pts : List (ℚ × ℚ)) (h : XNotAllEqual pts) :
    (calculateLinearRegression root (pts.map Point.ofRat)).intercept =
      JSNum.fin (olsIntercept pts) := by
  have hn := length_ne_zero_of_xNotAllEqual pts h
  show ((pts.map Point.ofRat).foldl (fun sum p => sum + p.y) (JSNum.fin 0)
      - (calculateLinearRegression root (pts.map Point.ofRat)).slope
        * (pts.map Point.ofRat).foldl (fun sum p => sum + p.x) (JSNum.fin 0))
      / JSNum.ofNat (pts.map Point.ofRat).length = _
  rw [regression_slope root pts h, ofNat_length_map, foldl_sumX, foldl_sumY]
  simp only [JSNum.fin_mul_fin, JSNum.fin_sub_fin]
  rw [JSNum.fin_div_fin _ _ hn, olsIntercept]

/-- On finite points whose `x` are not all equal the two sums of squares are the exact
rational sums. -/
theorem regression_sums_of_squares (root : ℚ → ℚ) (pts : List (ℚ × ℚ)) (h : XNotAllEqual pts) :
    (calculateLinearRegression root (pts.map Point.ofRat)).r2 =
      JSNum.fin 1 - JSNum.fin (ssResidual pts) / JSNum.fin (ssTotal pts) ∧
    (calculateLinearRegression root (pts.map Point.ofRat)).se =
      JSNum.Math_sqrt root (JSNum.fin (ssResidual pts) / JSNum.fin ((pts.length : ℚ) - 2)) := by
  have hn := length_ne_zero_of_xNotAllEqual pts h
  have hres : (pts.map Point.ofRat).foldl
      (fun sum p => sum + JSNum.Math_pow (p.y -
        ((calculateLinearRegression root (pts.map Point.ofRat)).slope * p.x
          + (calculateLinearRegression root (pts.map Point.ofRat)).intercept)) 2) (JSNum.fin 0) =
      JSNum.fin (ssResidual pts) := by
    rw [regression_slope root pts h, regression_intercept root pts h]
    exact JSNum.foldl_ofRat pts
      (fun p => JSNum.Math_pow (p.y - (JSNum.fin (olsSlope pts) * p.x
        + JSNum.fin (olsIntercept pts))) 2)
      (fun p => (p.2 - (olsSlope pts * p.1 + olsIntercept pts)) ^ 2)
      (fun p => by simp [Point.ofRat])
  have htot : (pts.map Point.ofRat).foldl
      (fun sum p => sum + JSNum.Math_pow (p.y -
        ((pts.map Point.ofRat).foldl (fun sum p => sum + p.y) (JSNum.fin 0)
          / JSNum.ofNat (pts.map Point.ofRat).length)) 2) (JSNum.fin 0) =
      JSNum.fin (ssTotal pts) := by
    rw [foldl_sumY, ofNat_length_map, JSNum.fin_div_fin _ _ hn]
    exact JSNum.foldl_ofRat pts
      (fun p => JSNum.Math_pow (p.y - JSNum.fin (sumY pts / pts.length)) 2)
      (fun p => (p.2 - sumY pts / pts.length) ^ 2)
      (fun p => by simp [Point.ofRat])
  have hr2 : (calculateLinearRegression root (pts.map Point.ofRat)).r2 =
      JSNum.fin 1 - (pts.map Point.ofRat).foldl
        (fun sum p => sum + JSNum.Math_pow (p.y -
          ((calculateLinearRegression root (pts.map Point.ofRat)).slope * p.x
            + (calculateLinearRegression root (pts.map Point.ofRat)).intercept)) 2) (JSNum.fin 0)
        / (pts.map Point.ofRat).foldl
          (fun sum p => sum + JSNum.Math_pow (p.y -
            ((pts.map Point.ofRat).foldl (fun sum p => sum + p.y) (JSNum.fin 0)
              / JSNum.ofNat (pts.map Point.ofRat).length)) 2) (JSNum.fin 0) := rfl
  have hse : (calculateLinearRegression root (pts.map Point.ofRat)).se =
      JSNum.Math_sqrt root ((pts.map Point.ofRat).foldl
        (fun sum p => sum + JSNum.Math_pow (p.y -
          ((calculateLinearRegression root (pts.map Point.ofRat)).slope * p.x
            + (calculateLinearRegression root (pts.map Point.ofRat)).intercept)) 2) (JSNum.fin 0)
        / (JSNum.ofNat (pts.map Point.ofRat).length - JSNum.fin 2)) := rfl
  constructor
  · rw [hr2, hres, htot]
  · rw [hse, hres, ofNat_length_map, JSNum.fin_sub_fin]

/-- Claim C5.  For every list of `n` finite points whose `x` values are not all equal, the
divisors `n*Sxx2 - Sx^2` and `n` are not zero and `calculateLinearRegression` returns
slope = (n*Sxy - Sx*Sy) / (n*Sxx2 - Sx^2) and intercept = (Sy - slope*Sx) / n, where Sx, Sy,
Sxy, Sxx2 are the sums of x, y, x*y and x*x over the points, in exact arithmetic. -/
theorem calculateLinearRegression_closed_form (root : ℚ → ℚ) (pts : List (ℚ × ℚ))
    (h : XNotAllEqual pts) :
    (pts.length : ℚ) * sumX2 pts - sumX pts ^ 2 ≠ 0 ∧ (pts.length : ℚ) ≠ 0 ∧
    (calculateLinearRegression root (pts.map Point.ofRat)).slope =
      JSNum.fin ((pts.length * sumXY pts - sumX pts * sumY pts)
        / (pts.length * sumX2 pts - sumX pts ^ 2)) ∧
    (calculateLinearRegression root (pts.map Point.ofRat)).intercept =
      JSNum.fin ((sumY pts - (pts.length * sumXY pts - sumX pts * sumY pts)
        / (pts.length * sumX2 pts - sumX pts ^ 2) * sumX pts) / pts.length) :=
  ⟨denominator_ne_zero pts h, length_ne_zero_of_xNotAllEqual pts h,
    regression_slope root pts h, regression_intercept root pts h⟩

/-- Witness of C5: the points (0,1), (1,3), (3,4) have slope 13/14 and intercept 10/7. -/
theorem calculateLinearRegression_closed_form_witness :
    XNotAllEqual [(0, 1), (1, 3), (3, 4)] ∧
    (calculateLinearRegression (fun q => q) ([(0, 1), (1, 3), (3, 4)].map Point.ofRat)).slope =
      JSNum.fin (13 / 14) ∧
    (calculateLinearRegression (fun q => q) ([(0, 1), (1, 3), (3, 4)].map Point.ofRat)).intercept =
      JSNum.fin (10 / 7) := by
  have hx : XNotAllEqual [(0, 1), (1, 3), (3, 4)] :=
    ⟨(0, 1), by simp, (1, 3), by simp, by norm_num⟩
  obtain ⟨_, _, hs, hi⟩ := calculateLinearRegression_closed_form (fun q => q) _ hx
  refine ⟨hx, ?_, ?_⟩
  · rw [hs]; norm_num [sumX, sumY, sumXY, sumX2]
  · rw [hi]; norm_num [sumX, sumY, sumXY, sumX2]

/-! ### Points on a line -/

theorem sums_on_line (pts : List (ℚ × ℚ)) (a b : ℚ) (hline : ∀ p ∈ pts, p.2 = a * p.1 + b) :
    sumY pts = a * sumX pts + pts.length * b ∧ sumXY pts = a * sumX2 pts + b * sumX pts := by
  induction pts with
  | nil => simp [sumX, sumY, sumXY, sumX2]
  | cons p pts ih =>
    obtain ⟨h1, h2⟩ := ih (fun q hq => hline q (List.mem_cons_of_mem _ hq))
    have hp := hline p (List.mem_cons_self _ _)
    simp only [sumX, sumY, sumXY, sumX2, List.map_cons, List.sum_cons, List.length_cons,
      Nat.cast_succ] at h1 h2 ⊢
    rw [h1, h2, hp]
    constructor <;> ring

theorem olsSlope_on_line (pts : List (ℚ × ℚ)) (a b : ℚ) (hline : ∀ p ∈ pts, p.2 = a * p.1 + b)
    (hx : XNotAllEqual pts) : olsSlope pts = a := by
  have hD := denominator_ne_zero pts hx
  obtain ⟨h1, h2⟩ := sums_on_line pts a b hline
  rw [olsSlope, h1, h2, div_eq_iff hD]
  ring

theorem olsIntercept_on_line (pts : List (ℚ × ℚ)) (a b : ℚ)
    (hline : ∀ p ∈ pts, p.2 = a * p.1 + b) (hx : XNotAllEqual pts) : olsIntercept pts = b := by
  have hn := length_ne_zero_of_xNotAllEqual pts hx
  obtain ⟨h1, _⟩ := sums_on_line pts a b hline
  rw [olsIntercept, olsSlope_on_line pts a b hline hx, h1, div_eq_iff hn]
  ring

theorem ssResidual_on_line (pts : List (ℚ × ℚ)) (a b : ℚ) (hline : ∀ p ∈ pts, p.2 = a * p.1 + b)
    (hx : XNotAllEqual pts) : ssResidual pts = 0 := by
  rw [ssResidual, olsSlope_on_line pts a b hline hx, olsIntercept_on_line pts a b hline hx]
  apply List.sum_eq_zero
  intro y hy
  obtain ⟨p, hp, rfl⟩ := List.mem_map.1 hy
  rw [hline p hp]; ring

theorem ssTotal_on_line_ne_zero (pts : List (ℚ × ℚ)) (a b : ℚ)
    (hline : ∀ p ∈ pts, p.2 = a * p.1 + b) (hx : XNotAllEqual pts) (ha : a ≠ 0) :
    ssTotal pts ≠ 0 := by
  intro h0
  obtain ⟨p, hp, q, hq, hpq⟩ := hx
  have hall := sum_sq_eq_zero pts (fun p => p.2 - sumY pts / pts.length) h0
  have h1 := hall p hp
  have h2 := hall q hq
  simp only at h1 h2
  rw [hline p hp] at h1
  rw [hline q hq] at h2
  apply hpq
  have : a * p.1 = a * q.1 := by linarith
  exact mul_left_cancel₀ ha this

/-- Claim C10.  For every list of at least three finite points that all lie on one line
`y = a*x + b` and whose `x` values are not all equal, `calculateLinearRegression` returns
slope = a, intercept = b and standard error se = 0, and r2 = 1 when `a` is not 0 (exact
arithmetic); for the points (0,0), (1,2), (2,4) it returns slope 2, intercept 0, r2 1, se 0. -/
theorem calculateLinearRegression_collinear :
    (∀ (root : ℚ → ℚ) (pts : List (ℚ × ℚ)) (a b : ℚ), 3 ≤ pts.length →
      (∀ p ∈ pts, p.2 = a * p.1 + b) → XNotAllEqual pts →
      (calculateLinearRegression root (pts.map Point.ofRat)).slope = JSNum.fin a ∧
      (calculateLinearRegression root (pts.map Point.ofRat)).intercept = JSNum.fin b ∧
      (calculateLinearRegression root (pts.map Point.ofRat)).se = JSNum.fin 0 ∧
      (a ≠ 0 → (calculateLinearRegression root (pts.map Point.ofRat)).r2 = JSNum.fin 1)) ∧
    (∀ root : ℚ → ℚ,
      calculateLinearRegression root
        [{ x := JSNum.fin 0, y := JSNum.fin 0 }, { x := JSNum.fin 1, y := JSNum.fin 2 },
         { x := JSNum.fin 2, y := JSNum.fin 4 }] =
        { slope := JSNum.fin 2, intercept := JSNum.fin 0, r2 := JSNum.fin 1, se := JSNum.fin 0,
          xMean := JSNum.fin 1, sxx := JSNum.fin 2, n := 3 }) := by
  have general : ∀ (root : ℚ → ℚ) (pts : List (ℚ × ℚ)) (a b : ℚ), 3 ≤ pts.length →
      (∀ p ∈ pts, p.2 = a * p.1 + b) → XNotAllEqual pts →
      (calculateLinearRegression root (pts.map Point.ofRat)).slope = JSNum.fin a ∧
      (calculateLinearRegression root (pts.map Point.ofRat)).intercept = JSNum.fin b ∧
      (calculateLinearRegression root (pts.map Point.ofRat)).se = JSNum.fin 0 ∧
      (a ≠ 0 → (calculateLinearRegression root (pts.map Point.ofRat)).r2 = JSNum.fin 1) := by
    intro root pts a b hn hline hx
    obtain ⟨hr2, hse⟩ := regression_sums_of_squares root pts hx
    have hres := ssResidual_on_line pts a b hline hx
    refine ⟨?_, ?_, ?_, ?_⟩
    · rw [regression_slope root pts hx, olsSlope_on_line pts a b hline hx]
    · rw [regression_intercept root pts hx, olsIntercept_on_line pts a b hline hx]
    · have h2 : (pts.length : ℚ) - 2 ≠ 0 := by
        have : (3 : ℚ) ≤ pts.length := by exact_mod_cast hn
        linarith
      rw [hse, hres, JSNum.fin_div_fin _ _ h2]
      simp [JSNum.Math_sqrt]
    · intro ha
      rw [hr2, hres, JSNum.fin_div_fin _ _ (ssTotal_on_line_ne_zero pts a b hline hx ha)]
      simp
  refine ⟨general, ?_⟩
  intro root
  have hx : XNotAllEqual [(0, 0), (1, 2), (2, 4)] :=
    ⟨(0, 0), by simp, (1, 2), by simp, by norm_num⟩
  obtain ⟨h1, h2, h3, h4⟩ := general root [(0, 0), (1, 2), (2, 4)] 2 0 (by simp)
    (by
      intro p hp
      simp only [List.mem_cons, List.mem_singleton, List.not_mem_nil, or_false] at hp
      rcases hp with rfl | rfl | rfl <;> norm_num)
    hx
  have hxm : (calculateLinearRegression root
      ([(0, 0), (1, 2), (2, 4)].map Point.ofRat)).xMean = JSNum.fin 1 := by
    with_unfolding_all rfl
  have hsxx : (calculateLinearRegression root
      ([(0, 0), (1, 2), (2, 4)].map Point.ofRat)).sxx = JSNum.fin 2 := by
    with_unfolding_all rfl
  have hn : (calculateLinearRegression root
      ([(0, 0), (1, 2), (2, 4)].map Point.ofRat)).n = 3 := rfl
  have hlist : [{ x := JSNum.fin 0, y := JSNum.fin 0 }, { x := JSNum.fin 1, y := JSNum.fin 2 },
      { x := JSNum.fin 2, y := JSNum.fin 4 }] = [(0, 0), (1, 2), (2, 4)].map Point.ofRat := rfl
  rw [hlist]
  cases hc : calculateLinearRegression root ([(0, 0), (1, 2), (2, 4)].map Point.ofRat)
  rw [hc] at h1 h2 h3 h4 hxm hsxx hn
  simp only at h1 h2 h3 h4 hxm hsxx hn
  rw [h1, h2, h3, h4 (by norm_num), hxm, hsxx, hn]

/-- Witness of C10: the four points (1,1), (2,-1), (3,-3), (5,-7) of the line
`y = -2*x + 3`. -/
theorem calculateLinearRegression_collinear_witness :
    3 ≤ [((1 : ℚ), (1 : ℚ)), (2, -1), (3, -3), (5, -7)].length ∧
    (∀ p ∈ [((1 : ℚ), (1 : ℚ)), (2, -1), (3, -3), (5, -7)], p.2 = -2 * p.1 + 3) ∧
    XNotAllEqual [(1, 1), (2, -1), (3, -3), (5, -7)] ∧
    (calculateLinearRegression (fun q => q)
      ([(1, 1), (2, -1), (3, -3), (5, -7)].map Point.ofRat)).slope = JSNum.fin (-2) ∧
    (calculateLinearRegression (fun q => q)
      ([(1, 1), (2, -1), (3, -3), (5, -7)].map Point.ofRat)).intercept = JSNum.fin 3 ∧
    (calculateLinearRegression (fun q => q)
      ([(1, 1), (2, -1), (3, -3), (5, -7)].map Point.ofRat)).se = JSNum.fin 0 ∧
    (calculateLinearRegression (fun q => q)
      ([(1, 1), (2, -1), (3, -3), (5, -7)].map Point.ofRat)).r2 = JSNum.fin 1 := by
  have hline : ∀ p ∈ [((1 : ℚ), (1 : ℚ)), (2, -1), (3, -3), (5, -7)], p.2 = -2 * p.1 + 3 := by
    intro p hp
    simp only [List.mem_cons, List.mem_singleton, List.not_mem_nil, or_false] at hp
    rcases hp with rfl | rfl | rfl | rfl <;> norm_num
  have hx : XNotAllEqual [(1, 1), (2, -1), (3, -3), (5, -7)] :=
    ⟨(1, 1), by simp, (2, -1), by simp, by norm_num⟩
  obtain ⟨h1, h2, h3, h4⟩ := calculateLinearRegression_collinear.1 (fun q => q)
    [(1, 1), (2, -1), (3, -3), (5, -7)] (-2) 3 (by simp) hline hx
  exact ⟨by simp, hline, hx, h1, h2, h3, h4 (by norm_num)⟩

/-! ## The filter store -/

theorem Obj.mem_set {α : Type} (o : Obj α) (k : String) (v : α) (kv : String × α)
    (h : kv ∈ Obj.set o k v) : kv = (k, v) ∨ kv ∈ o := by
  induction o with
  | nil =>
    simp only [Obj.set, List.mem_singleton] at h
    exact Or.inl h
  | cons x rest ih =>
    obtain ⟨a, w⟩ := x
    by_cases hk : a = k
    · subst hk
      simp only [Obj.set, if_true, List.mem_cons] at h
      rcases h with h | h
      · exact Or.inl h
      · exact Or.inr (List.mem_cons_of_mem _ h)
    · simp only [Obj.set, hk, if_false, List.mem_cons] at h
      rcases h with h | h
      · exact Or.inr (h ▸ List.mem_cons_self _ _)
      · rcases ih h with h | h
        · exact Or.inl h
        · exact Or.inr (List.mem_cons_of_mem _ h)

theorem Obj.mem_of_get? {α : Type} (o : Obj α) (k : String) (v : α)
    (h : Obj.get? o k = some v) : (k, v) ∈ o := by
  induction o with
  | nil => simp [Obj.get?] at h
  | cons x rest ih =>
    obtain ⟨a, w⟩ := x
    by_cases hk : a = k
    · subst hk
      simp only [Obj.get?, if_true, Option.some.injEq] at h
      subst h
      exact List.mem_cons_self _ _
    · simp only [Obj.get?, hk, if_false] at h
      exact List.mem_cons_of_mem _ (ih h)

theorem Obj.get?_delete_self {α : Type} (o : Obj α) (k : String) :
    Obj.get? (Obj.delete o k) k = none := by
  induction o with
  | nil => rfl
  | cons x rest ih =>
    obtain ⟨a, w⟩ := x
    by_cases hk : a = k
    · subst hk
      simpa [Obj.delete] using ih
    · have : Obj.delete ((a, w) :: rest) k = (a, w) :: Obj.delete rest k := by
        simp [Obj.delete, hk]
      rw [this]
      simp only [Obj.get?, hk, if_false]
      exact ih

theorem Obj.mem_delete {α : Type} (o : Obj α) (k : String) (kv : String × α)
    (h : kv ∈ Obj.delete o k) : kv ∈ o ∧ kv.1 ≠ k := by
  simpa [Obj.delete] using h

theorem Obj.get?_map {α β : Type} (o : Obj α) (g : α → β) (k : String) :
    Obj.get? (o.map (fun kv => (kv.1, g kv.2))) k = (Obj.get? o k).map g := by
  induction o with
  | nil => rfl
  | cons x rest ih =>
    obtain ⟨a, w⟩ := x
    by_cases hk : a = k
    · simp [Obj.get?, hk]
    · simp only [List.map_cons, Obj.get?, hk, if_false]
      exact ih

theorem Json.ofValue_toValue (j : Json) : Json.ofValue (Json.toValue j) = j := by
  cases j <;> rfl

theorem Json.toValue_injective : Function.Injective Json.toValue := by
  intro a b h
  have := congrArg Json.ofValue h
  rwa [Json.ofValue_toValue, Json.ofValue_toValue] at this

theorem jsonStringify_jsonParse (stored : Obj (List Json)) :
    jsonStringify (jsonParse stored) = stored := by
  unfold jsonStringify jsonParse
  rw [List.map_map]
  have : ((fun kv : String × List Value => (kv.1, kv.2.map Json.ofValue)) ∘
      fun kv : String × List Json => (kv.1, kv.2.map Json.toValue)) = id := by
    funext kv
    obtain ⟨k, js⟩ := kv
    simp only [Function.comp, List.map_map, id]
    congr 1
    have : (Json.ofValue ∘ Json.toValue) = id := funext Json.ofValue_toValue
    rw [this, List.map_id]
  rw [this, List.map_id]

theorem storedList_of_storedInvariant (storage : Storage) (h : StoredInvariant storage) :
    ∀ kv ∈ getActiveFilters storage, StoredList kv.2 := by
  intro kv hkv
  cases storage with
  | none => simp [getActiveFilters] at hkv
  | some stored =>
    simp only [getActiveFilters, jsonParse, List.mem_map] at hkv
    obtain ⟨e, he, rfl⟩ := hkv
    exact ⟨e.2, rfl, (h stored rfl e he).1, (h stored rfl e he).2⟩

theorem storedInvariant_saveFilters (filters : FilterSet) (h : ∀ kv ∈ filters, StoredList kv.2) :
    StoredInvariant (saveFilters filters) := by
  intro stored hs kv hkv
  simp only [saveFilters, Option.some.injEq] at hs
  subst hs
  simp only [jsonStringify, List.mem_map] at hkv
  obtain ⟨e, he, rfl⟩ := hkv
  obtain ⟨js, hjs, hne, hnd⟩ := h e he
  have : e.2.map Json.ofValue = js := by
    rw [hjs, List.map_map]
    have : (Json.ofValue ∘ Json.toValue) = id := funext Json.ofValue_toValue
    rw [this, List.map_id]
  simp only [this]
  exact ⟨hne, hnd⟩

theorem filterSetInvariant_of_storedInvariant (storage : Storage) (h : StoredInvariant storage) :
    FilterSetInvariant (getActiveFilters storage) := by
  intro kv hkv
  obtain ⟨js, hjs, hne, hnd⟩ := storedList_of_storedInvariant storage h kv hkv
  rw [hjs]
  exact ⟨by simpa using hne, hnd.map Json.toValue_injective⟩

theorem Obj.set_set {α : Type} (o : Obj α) (k : String) (a b : α) :
    Obj.set (Obj.set o k a) k b = Obj.set o k b := by
  induction o with
  | nil => simp [Obj.set]
  | cons x rest ih =>
    obtain ⟨c, w⟩ := x
    by_cases hk : c = k
    · simp [Obj.set, hk]
    · simp [Obj.set, hk, ih]

theorem pushIfAbsent_of_get? (filters : FilterSet) (parameter : String) (value : Value)
    (arr : List Value) (h : Obj.get? filters parameter = some arr) :
    pushIfAbsent filters parameter value =
      if value ∈ arr then filters else Obj.set filters parameter (arr ++ [value]) := by
  unfold pushIfAbsent
  rw [h]
  by_cases hin : value ∈ arr
  · simp [hin, (includes_iff arr value).2 hin]
  · have : includes arr value = false := by
      rw [← Bool.not_eq_true, includes_iff]; exact hin
    simp [hin, this]

/-- The filters object that `addFilter` saves. -/
theorem pushIfAbsent_ensureList (filters : FilterSet) (parameter : String) (value : Value) :
    pushIfAbsent (ensureList filters parameter) parameter value =
      match Obj.get? filters parameter with
      | some arr => if value ∈ arr then filters else Obj.set filters parameter (arr ++ [value])
      | none => Obj.set filters parameter [value] := by
  cases hg : Obj.get? filters parameter with
  | some arr =>
    have : ensureList filters parameter = filters := by simp [ensureList, hg]
    rw [this, pushIfAbsent_of_get? _ _ _ arr hg]
  | none =>
    have : ensureList filters parameter = Obj.set filters parameter [] := by simp [ensureList, hg]
    rw [this, pushIfAbsent_of_get? _ _ _ [] (by rw [Obj.get?_set]; simp)]
    simp [Obj.set_set]

theorem storedList_append (arr : List Value) (q : ℚ) (harr : StoredList arr)
    (hin : ¬ Value.num (JSNum.fin q) ∈ arr) : StoredList (arr ++ [Value.num (JSNum.fin q)]) := by
  obtain ⟨js, hjs, _, hnd⟩ := harr
  refine ⟨js ++ [Json.num q], by rw [hjs]; simp [Json.toValue], by simp, ?_⟩
  rw [List.nodup_append]
  refine ⟨hnd, by simp, ?_⟩
  intro a ha hb
  simp only [List.mem_singleton] at hb
  subst hb
  exact hin (by rw [hjs]; exact List.mem_map_of_mem Json.toValue ha)

theorem storedInvariant_addFilter (storage : Storage) (parameter : String) (q : ℚ)
    (h : StoredInvariant storage) :
    StoredInvariant (addFilter storage parameter (Value.num (JSNum.fin q))) := by
  have hf := storedList_of_storedInvariant storage h
  unfold addFilter
  apply storedInvariant_saveFilters
  rw [pushIfAbsent_ensureList]
  cases hg : Obj.get? (getActiveFilters storage) parameter with
  | some arr =>
    by_cases hin : Value.num (JSNum.fin q) ∈ arr
    · simpa only [hin, if_true] using hf
    · simp only [hin, if_false]
      intro kv hkv
      rcases Obj.mem_set _ _ _ _ hkv with rfl | hkv
      · exact storedList_append _ _ (hf _ (Obj.mem_of_get? _ _ _ hg)) hin
      · exact hf kv hkv
  | none =>
    intro kv hkv
    rcases Obj.mem_set _ _ _ _ hkv with rfl | hkv
    · exact ⟨[Json.num q], rfl, by simp, by simp⟩
    · exact hf kv hkv

theorem storedInvariant_removeFilter (storage : Storage) (parameter : String) (value : Value)
    (h : StoredInvariant storage) : StoredInvariant (removeFilter storage parameter value) := by
  have hf := storedList_of_storedInvariant storage h
  unfold removeFilter
  apply storedInvariant_saveFilters
  unfold dropValue
  cases hg : Obj.get? (getActiveFilters storage) parameter with
  | none => exact hf
  | some arr =>
    simp only
    split
    · intro kv hkv
      obtain ⟨hmem, hne⟩ := Obj.mem_delete _ _ _ hkv
      rcases Obj.mem_set _ _ _ _ hmem with rfl | hmem
      · exact absurd rfl hne
      · exact hf kv hmem
    · next hlen =>
      intro kv hkv
      rcases Obj.mem_set _ _ _ _ hkv with rfl | hkv
      · obtain ⟨js, hjs, _, hnd⟩ := hf _ (Obj.mem_of_get? _ _ _ hg)
        simp only at hjs
        refine ⟨js.filter (fun j => !(Value.strictEq (Json.toValue j) value)), ?_, ?_, hnd.filter _⟩
        · simp only [hjs, List.filter_map]; rfl
        · intro e
          apply hlen
          simp only [hjs, List.filter_map, List.length_map]
          have : List.filter ((fun v => !v.strictEq value) ∘ Json.toValue) js = [] := e
          rw [this]; rfl
      · exact hf kv hkv

theorem storedInvariant_of_reachable (storage : Storage)
    (h : Reachable IsFiniteNumber storage) : StoredInvariant storage := by
  induction h with
  | empty => intro stored hs; cases hs
  | add s p v _ hv ih =>
    obtain ⟨q, rfl⟩ := hv
    exact storedInvariant_addFilter s p q ih
  | remove s p v _ ih => exact storedInvariant_removeFilter s p v ih
  | clear s _ _ => intro stored hs; cases hs

/-- The FilterSet invariant on finite numbers.  In every store state reachable from the empty
store by calls of `addFilter` with finite numbers, of `removeFilter` and of `clearFilters`,
every parameter key maps to a non-empty list with no repeated value; and in every store state
`removeFilter` deletes the parameter key when it removes the last value of its list. -/
theorem filterSet_invariant_of_reachable :
    (∀ storage : Storage, Reachable IsFiniteNumber storage →
      FilterSetInvariant (getActiveFilters storage)) ∧
    (∀ (storage : Storage) (parameter : String) (value : Value) (arr : List Value),
      Obj.get? (getActiveFilters storage) parameter = some arr →
      arr.filter (fun v => !(Value.strictEq v value)) = [] →
      Obj.get? (getActiveFilters (removeFilter storage parameter value)) parameter = none) := by
  constructor
  · intro storage h
    exact filterSetInvariant_of_storedInvariant storage (storedInvariant_of_reachable storage h)
  · intro storage parameter value arr hg hkept
    have hd : dropValue (getActiveFilters storage) parameter value =
        Obj.delete (Obj.set (getActiveFilters storage) parameter []) parameter := by
      unfold dropValue
      rw [hg]
      simp [hkept]
    show Obj.get? (jsonParse (jsonStringify (dropValue (getActiveFilters storage) parameter value)))
      parameter = none
    rw [hd]
    unfold jsonParse jsonStringify
    rw [Obj.get?_map, Obj.get?_map, Obj.get?_delete_self]
    rfl

/-- Example of the invariant on finite numbers: add 0.2 and 0.3 under `p_death`, then remove
0.2: the reachable store holds the single list `[0.3]`. -/
theorem filterSet_invariant_of_reachable_witness :
    Reachable IsFiniteNumber
      (removeFilter
        (addFilter (addFilter none "p_death" (Value.num (JSNum.fin 0.2))) "p_death"
          (Value.num (JSNum.fin 0.3)))
        "p_death" (Value.num (JSNum.fin 0.2))) ∧
    getActiveFilters
      (removeFilter
        (addFilter (addFilter none "p_death" (Value.num (JSNum.fin 0.2))) "p_death"
          (Value.num (JSNum.fin 0.3)))
        "p_death" (Value.num (JSNum.fin 0.2))) = [("p_death", [Value.num (JSNum.fin 0.3)])] ∧
    FilterSetInvariant (getActiveFilters
      (removeFilter
        (addFilter (addFilter none "p_death" (Value.num (JSNum.fin 0.2))) "p_death"
          (Value.num (JSNum.fin 0.3)))
        "p_death" (Value.num (JSNum.fin 0.2)))) := by
  have hr : Reachable IsFiniteNumber
      (removeFilter
        (addFilter (addFilter none "p_death" (Value.num (JSNum.fin 0.2))) "p_death"
          (Value.num (JSNum.fin 0.3)))
        "p_death" (Value.num (JSNum.fin 0.2))) :=
    Reachable.remove _ _ _
      (Reachable.add _ _ _ (Reachable.add _ _ _ Reachable.empty ⟨0.2, rfl⟩) ⟨0.3, rfl⟩)
  exact ⟨hr, by decide!, filterSet_invariant_of_reachable.1 _ hr⟩

/-- Claim C7, at the input where the code departs from it.  `Infinity` is written to the JSON
text as `null`, which the `includes` test of the next `addFilter` of `Infinity` does not
recognise, so two calls of `addFilter("p_death", Infinity)` on the empty store leave the list
`[null, null]`: a reachable store state whose list holds a value twice.  The same happens
with `NaN`. -/
theorem filterSet_invariant_fails_for_non_finite :
    Reachable IsNumber
      (addFilter (addFilter none "p_death" (Value.num JSNum.posInf)) "p_death"
        (Value.num JSNum.posInf)) ∧
    getActiveFilters
      (addFilter (addFilter none "p_death" (Value.num JSNum.posInf)) "p_death"
        (Value.num JSNum.posInf))
      = [("p_death", [Value.null, Value.null])] ∧
    ¬ FilterSetInvariant (getActiveFilters
      (addFilter (addFilter none "p_death" (Value.num JSNum.posInf)) "p_death"
        (Value.num JSNum.posInf))) ∧
    getActiveFilters
      (addFilter (addFilter none "p_death" (Value.num JSNum.nan)) "p_death" (Value.num JSNum.nan))
      = [("p_death", [Value.null, Value.null])] := by
  have hg : getActiveFilters
      (addFilter (addFilter none "p_death" (Value.num JSNum.posInf)) "p_death"
        (Value.num JSNum.posInf))
      = [("p_death", [Value.null, Value.null])] := by decide!
  refine ⟨Reachable.add _ _ _ (Reachable.add _ _ _ Reachable.empty ⟨_, rfl⟩) ⟨_, rfl⟩, hg, ?_,
    by decide!⟩
  rw [hg]
  intro h
  have := (h ("p_death", [Value.null, Value.null]) (List.mem_singleton.2 rfl)).2
  simp at this

/-! ### addFilter is idempotent -/

theorem get?_pushIfAbsent_ensureList (filters : FilterSet) (parameter : String) (value : Value) :
    ∃ arr, Obj.get? (pushIfAbsent (ensureList filters parameter) parameter value) parameter
      = some arr ∧ value ∈ arr := by
  rw [pushIfAbsent_ensureList]
  cases hg : Obj.get? filters parameter with
  | some arr =>
    by_cases hin : value ∈ arr
    · exact ⟨arr, by simpa only [hin, if_true] using hg, hin⟩
    · exact ⟨arr ++ [value], by simp only [hin, if_false, Obj.get?_set, if_true], by simp⟩
  | none => exact ⟨[value], by simp only [Obj.get?_set, if_true], by simp⟩

theorem addFilter_of_stored (stored : Obj (List Json)) (parameter : String) (value : Value)
    (arr : List Value) (hg : Obj.get? (getActiveFilters (some stored)) parameter = some arr)
    (hin : value ∈ arr) : addFilter (some stored) parameter value = some stored := by
  unfold addFilter
  simp only
  rw [pushIfAbsent_ensureList, hg]
  simp only [hin, if_true]
  show some (jsonStringify (jsonParse stored)) = some stored
  rw [jsonStringify_jsonParse]

/-- Idempotence of `addFilter` on finite numbers.  For every store state, every parameter and
every finite number, calling `addFilter(parameter, value)` twice leaves the same stored
FilterSet as calling it once; and calling it when the value is already stored under the
parameter inserts no duplicate and leaves the stored FilterSet unchanged. -/
theorem addFilter_idempotent_finite :
    (∀ (storage : Storage) (parameter : String) (q : ℚ),
      addFilter (addFilter storage parameter (Value.num (JSNum.fin q))) parameter
          (Value.num (JSNum.fin q)) =
        addFilter storage parameter (Value.num (JSNum.fin q))) ∧
    (∀ (stored : Obj (List Json)) (parameter : String) (value : Value) (arr : List Value),
      Obj.get? (getActiveFilters (some stored)) parameter = some arr → value ∈ arr →
      addFilter (some stored) parameter value = some stored) := by
  refine ⟨?_, addFilter_of_stored⟩
  intro storage parameter q
  obtain ⟨arr, hget, hin⟩ := get?_pushIfAbsent_ensureList (getActiveFilters storage) parameter
    (Value.num (JSNum.fin q))
  have h1 : addFilter storage parameter (Value.num (JSNum.fin q)) =
      some (jsonStringify (pushIfAbsent (ensureList (getActiveFilters storage) parameter)
        parameter (Value.num (JSNum.fin q)))) := rfl
  rw [h1]
  apply addFilter_of_stored _ _ _ (arr.map (fun v => Json.toValue (Json.ofValue v)))
  · show Obj.get? (jsonParse (jsonStringify _)) parameter = _
    unfold jsonParse jsonStringify
    rw [Obj.get?_map, Obj.get?_map, hget]
    simp
  · exact List.mem_map.2 ⟨_, hin, rfl⟩

/-- Example of the idempotence on finite numbers: 0.2 is stored under `p_death`, and adding it
again changes nothing. -/
theorem addFilter_idempotent_finite_witness :
    Obj.get? (getActiveFilters (some [("p_death", [Json.num 0.2, Json.num 0.3])])) "p_death" =
      some [Value.num (JSNum.fin 0.2), Value.num (JSNum.fin 0.3)] ∧
    Value.num (JSNum.fin 0.2) ∈ [Value.num (JSNum.fin 0.2), Value.num (JSNum.fin 0.3)] ∧
    addFilter (some [("p_death", [Json.num 0.2, Json.num 0.3])]) "p_death"
      (Value.num (JSNum.fin 0.2)) = some [("p_death", [Json.num 0.2, Json.num 0.3])] :=
  ⟨by decide!, by simp,
    addFilter_idempotent_finite.2 _ "p_death" (Value.num (JSNum.fin 0.2))
      [Value.num (JSNum.fin 0.2), Value.num (JSNum.fin 0.3)] (by decide!) (by simp)⟩

/-- Claim C8, at the input where the code departs from it.  One call of
`addFilter("p_death", Infinity)` on the empty store leaves `[null]`, two calls leave
`[null, null]`: the second call stores the value again.  The same happens with `NaN`. -/
theorem addFilter_not_idempotent_for_non_finite :
    addFilter none "p_death" (Value.num JSNum.posInf) = some [("p_death", [Json.null])] ∧
    addFilter (addFilter none "p_death" (Value.num JSNum.posInf)) "p_death"
      (Value.num JSNum.posInf) = some [("p_death", [Json.null, Json.null])] ∧
    addFilter (addFilter none "p_death" (Value.num JSNum.posInf)) "p_death"
      (Value.num JSNum.posInf) ≠ addFilter none "p_death" (Value.num JSNum.posInf) ∧
    addFilter none "p_death" (Value.num JSNum.nan) = some [("p_death", [Json.null])] ∧
    addFilter (addFilter none "p_death" (Value.num JSNum.nan)) "p_death" (Value.num JSNum.nan) =
      some [("p_death", [Json.null, Json.null])] := by
  refine ⟨by decide!, by decide!, by decide!, by decide!, by decide!⟩

/-! ## The lineage tree -/

theorem cloneMapGet_foldl_id (clones : List Clone) (id : Int) (init : Option Clone)
    (hinit : ∀ c, init = some c → c.id = id) (c : Clone)
    (h : clones.foldl (fun found clone => if clone.id = id then some clone else found) init
      = some c) : c.id = id := by
  induction clones generalizing init with
  | nil => exact hinit c h
  | cons x xs ih =>
    simp only [List.foldl_cons] at h
    refine ih _ ?_ h
    intro d hd
    by_cases hx : x.id = id
    · simp only [hx, if_true, Option.some.injEq] at hd
      subst hd; exact hx
    · simp only [hx, if_false] at hd
      exact hinit d hd

theorem cloneMapGet_id (clones : List Clone) (id : Int) (c : Clone)
    (h : cloneMapGet clones id = some c) : c.id = id :=
  cloneMapGet_foldl_id clones id none (fun _ hc => by cases hc) c h

theorem mem_setAdd (s : List Int) (x y : Int) : x ∈ setAdd s y ↔ x ∈ s ∨ x = y := by
  unfold setAdd
  by_cases h : y ∈ s
  · simp only [h, if_true]
    constructor
    · exact Or.inl
    · rintro (h1 | rfl)
      · exact h1
      · exact h
  · simp [h]

theorem ancestorIter_succ (clones : List Clone) (k : Nat) (id m : Int) :
    ancestorIter clones (k + 1) id = some m ↔
      ∃ clone a, cloneMapGet clones id = some clone ∧ clone.ancestor = some a ∧
        ancestorIter clones k a = some m := by
  rw [ancestorIter]
  cases hg : cloneMapGet clones id with
  | none => simp
  | some clone =>
    cases ha : clone.ancestor with
    | none => simp [ha]
    | some a => simp [ha]

theorem ancestorIter_succ_of (clones : List Clone) (k : Nat) (id a : Int) (clone : Clone)
    (hg : cloneMapGet clones id = some clone) (ha : clone.ancestor = some a) :
    ancestorIter clones (k + 1) id = ancestorIter clones k a := by
  rw [ancestorIter, hg]
  simp only [ha]

theorem traceBack_mono (clones : List Clone) (m : Int) (fuel : Nat) (c : Int) (rel r : List Int)
    (h : traceBack clones m fuel c rel = some r) (fuel2 : Nat) (hf : fuel ≤ fuel2) :
    traceBack clones m fuel2 c rel = some r := by
  induction fuel generalizing c rel fuel2 with
  | zero => simp [traceBack] at h
  | succ n ih =>
    obtain ⟨n2, rfl⟩ : ∃ n2, fuel2 = n2 + 1 := ⟨fuel2 - 1, by omega⟩
    rw [traceBack] at h ⊢
    by_cases hc : c = m
    · simpa only [hc, if_true] using h
    · simp only [hc, if_false] at h ⊢
      cases hg : cloneMapGet clones c with
      | none => simpa only [hg] using h
      | some clone =>
        simp only [hg] at h ⊢
        cases ha : clone.ancestor with
        | none => simpa only [ha] using h
        | some a =>
          simp only [ha] at h ⊢
          exact ih a _ h n2 (by omega)

theorem traceAll_mono (clones : List Clone) (m : Int) (fuel : Nat) (present : List Int)
    (rel r : List Int) (h : traceAll clones m fuel present rel = some r) (fuel2 : Nat)
    (hf : fuel ≤ fuel2) : traceAll clones m fuel2 present rel = some r := by
  induction present generalizing rel with
  | nil => simpa [traceAll] using h
  | cons p ps ih =>
    rw [traceAll] at h ⊢
    cases ht : traceBack clones m fuel p (setAdd rel p) with
    | none => simp [ht] at h
    | some r1 =>
      simp only [ht] at h
      rw [traceBack_mono clones m fuel p _ r1 ht fuel2 hf]
      exact ih r1 h

/-- The walk from `c` reaches `mrcaId` after `k` steps and adds the ids passed on the way. -/
theorem traceBack_spec (clones : List Clone) (m : Int) (k : Nat) (c : Int) (rel : List Int)
    (hk : ancestorIter clones k c = some m)
    (hmin : ∀ j, j < k → ancestorIter clones j c ≠ some m) :
    ∃ r, traceBack clones m (k + 1) c rel = some r ∧
      ∀ x, x ∈ r ↔ x ∈ rel ∨ ∃ i, 1 ≤ i ∧ i ≤ k ∧ ancestorIter clones i c = some x := by
  induction k generalizing c rel with
  | zero =>
    simp only [ancestorIter, Option.some.injEq] at hk
    refine ⟨rel, by simp [traceBack, hk], ?_⟩
    intro x
    constructor
    · exact Or.inl
    · rintro (h | ⟨i, h1, h2, _⟩)
      · exact h
      · omega
  | succ k ih =>
    have hc : c ≠ m := by
      intro e
      exact hmin 0 (Nat.succ_pos _) (by simp [ancestorIter, e])
    obtain ⟨clone, a, hg, ha, hka⟩ := (ancestorIter_succ clones k c m).1 hk
    have hstep : ∀ j, ancestorIter clones (j + 1) c = ancestorIter clones j a :=
      fun j => ancestorIter_succ_of clones j c a clone hg ha
    obtain ⟨r, hr, hmem⟩ := ih a (setAdd rel a) hka
      (fun j hj => by rw [← hstep]; exact hmin (j + 1) (by omega))
    refine ⟨r, ?_, ?_⟩
    · rw [traceBack]
      simp only [hc, if_false, hg, ha]
      exact hr
    · intro x
      rw [hmem, mem_setAdd]
      constructor
      · rintro ((h | rfl) | ⟨i, h1, h2, h3⟩)
        · exact Or.inl h
        · exact Or.inr ⟨1, le_refl _, by omega, by rw [hstep]; rfl⟩
        · exact Or.inr ⟨i + 1, by omega, by omega, by rw [hstep]; exact h3⟩
      · rintro (h | ⟨i, h1, h2, h3⟩)
        · exact Or.inl (Or.inl h)
        · obtain ⟨i2, rfl⟩ : ∃ i2, i = i2 + 1 := ⟨i - 1, by omega⟩
          rw [hstep] at h3
          cases i2 with
          | zero =>
            simp only [ancestorIter, Option.some.injEq] at h3
            exact Or.inl (Or.inr h3.symm)
          | succ i3 => exact Or.inr ⟨i3 + 1, by omega, by omega, h3⟩

/-- A descendant reaches `mrcaId` at a least number of steps. -/
theorem exists_least_steps (clones : List Clone) (m p : Int)
    (h : IsDescendantOrSelf clones m p) :
    ∃ k, ancestorIter clones k p = some m ∧ ∀ j, j < k → ancestorIter clones j p ≠ some m := by
  classical
  exact ⟨Nat.find h, Nat.find_spec h, fun j hj => Nat.find_min h hj⟩

theorem onChain_iff (clones : List Clone) (m p : Int) (k : Nat)
    (hk : ancestorIter clones k p = some m)
    (hmin : ∀ j, j < k → ancestorIter clones j p ≠ some m) (x : Int) :
    OnChain clones m p x ↔ ∃ i, i ≤ k ∧ ancestorIter clones i p = some x := by
  constructor
  · rintro ⟨i, hi, hbefore⟩
    refine ⟨i, ?_, hi⟩
    by_contra hlt
    exact hbefore k (by omega) hk
  · rintro ⟨i, hi, hx⟩
    exact ⟨i, hx, fun j hj => hmin j (by omega)⟩

theorem traceAll_spec (clones : List Clone) (m : Int) (present : List Int) (rel : List Int)
    (h : ∀ p ∈ present, IsDescendantOrSelf clones m p) :
    ∃ r N, (∀ fuel, N ≤ fuel → traceAll clones m fuel present rel = some r) ∧
      ∀ x, x ∈ r ↔ x ∈ rel ∨ ∃ p ∈ present, OnChain clones m p x := by
  induction present generalizing rel with
  | nil => exact ⟨rel, 0, fun _ _ => rfl, fun x => by simp⟩
  | cons p ps ih =>
    obtain ⟨k, hk, hmin⟩ := exists_least_steps clones m p (h p (List.mem_cons_self _ _))
    obtain ⟨r1, hr1, hmem1⟩ := traceBack_spec clones m k p (setAdd rel p) hk hmin
    obtain ⟨r, N, hr, hmem⟩ := ih r1 (fun q hq => h q (List.mem_cons_of_mem _ hq))
    refine ⟨r, max (k + 1) N, ?_, ?_⟩
    · intro fuel hf
      rw [traceAll, traceBack_mono clones m (k + 1) p _ r1 hr1 fuel (le_trans (le_max_left _ _) hf)]
      exact hr fuel (le_trans (le_max_right _ _) hf)
    · intro x
      rw [hmem, hmem1, mem_setAdd]
      simp only [List.mem_cons, exists_eq_or_imp, onChain_iff clones m p k hk hmin]
      constructor
      · rintro (((h1 | rfl) | ⟨i, _, h2, h3⟩) | h4)
        · exact Or.inl h1
        · exact Or.inr (Or.inl ⟨0, Nat.zero_le _, rfl⟩)
        · exact Or.inr (Or.inl ⟨i, h2, h3⟩)
        · exact Or.inr (Or.inr h4)
      · rintro (h1 | ⟨i, h2, h3⟩ | h4)
        · exact Or.inl (Or.inl (Or.inl h1))
        · cases i with
          | zero =>
            simp only [ancestorIter, Option.some.injEq] at h3
            exact Or.inl (Or.inl (Or.inr h3.symm))
          | succ i => exact Or.inl (Or.inr ⟨i + 1, by omega, h2, h3⟩)
        · exact Or.inr h4

theorem ancestorIter_add (clones : List Clone) (i j : Nat) (p : Int) :
    ancestorIter clones (i + j) p = (ancestorIter clones i p).bind (ancestorIter clones j) := by
  induction i generalizing p with
  | zero => simp [ancestorIter]
  | succ i ih =>
    have : i + 1 + j = (i + j) + 1 := by omega
    rw [this, ancestorIter, ancestorIter]
    cases cloneMapGet clones p with
    | none => rfl
    | some clone =>
      cases ha : clone.ancestor with
      | none => simp only [ha]; rfl
      | some a => simp only [ha]; exact ih a

theorem ancestorIter_one (clones : List Clone) (x y : Int) :
    ancestorIter clones 1 x = some y ↔
      ∃ clone, cloneMapGet clones x = some clone ∧ clone.ancestor = some y := by
  rw [ancestorIter_succ]
  simp [ancestorIter]

theorem ancestorIter_isSome_of_le (clones : List Clone) (k i : Nat) (p m : Int)
    (hk : ancestorIter clones k p = some m) (hi : i ≤ k) :
    ∃ y, ancestorIter clones i p = some y := by
  obtain ⟨j, rfl⟩ : ∃ j, k = i + j := ⟨k - i, by omega⟩
  rw [ancestorIter_add] at hk
  cases h : ancestorIter clones i p with
  | none => simp [h] at hk
  | some y => exact ⟨y, rfl⟩

theorem mem_childIds (clones : List Clone) (relevantIds : List Int) (rootId parent id : Int) :
    id ∈ childIds clones relevantIds rootId parent ↔
      parent ∈ relevantIds ∧ (cloneMapGet clones parent).isSome ∧ id ∈ relevantIds ∧ id ≠ rootId ∧
        ∃ clone, cloneMapGet clones id = some clone ∧ clone.ancestor = some parent := by
  unfold childIds
  by_cases hp : parent ∈ relevantIds ∧ (cloneMapGet clones parent).isSome = true
  · simp only [hp, and_self, if_true, List.mem_filter, Bool.and_eq_true, decide_eq_true_eq,
      true_and]
    cases hg : cloneMapGet clones id with
    | none => simp
    | some clone => simp
  · simp only [hp, if_false, List.not_mem_nil, false_iff]
    rintro ⟨h1, h2, _⟩
    exact hp ⟨h1, h2⟩

/-- In the tree built from a relevant set that consists of the root id and of chains up to
it, the node ids are the relevant ids. -/
theorem inTree_iff_relevant (clones : List Clone) (present relevant : List Int) (m : Int)
    (cm : Clone) (hm : cloneMapGet clones m = some cm)
    (hP : ∀ p ∈ present, IsDescendantOrSelf clones m p)
    (hrel : ∀ x, x ∈ relevant ↔ x = m ∨ ∃ p ∈ present, OnChain clones m p x) (x : Int) :
    InTree { root := cm, children := childIds clones relevant m } x ↔ x ∈ relevant := by
  have hcm : cm.id = m := cloneMapGet_id clones m cm hm
  constructor
  · intro h
    induction h with
    | root => exact (hrel _).2 (Or.inl hcm)
    | child parent id _ hid _ => exact ((mem_childIds _ _ _ _ _).1 hid).2.2.1
  · intro hx
    rcases (hrel x).1 hx with rfl | ⟨p, hp, hchain⟩
    · have := @InTree.root { root := cm, children := childIds clones relevant x }
      rwa [hcm] at this
    · obtain ⟨k, hk, hmin⟩ := exists_least_steps clones m p (hP p hp)
      obtain ⟨i, hi, hxi⟩ := (onChain_iff clones m p k hk hmin x).1 hchain
      -- downward induction along the chain, from the root id
      have key : ∀ d i y, i + d = k → ancestorIter clones i p = some y →
          InTree { root := cm, children := childIds clones relevant m } y := by
        intro d
        induction d with
        | zero =>
          intro i y hik hy
          have : i = k := by omega
          subst this
          rw [hk] at hy
          simp only [Option.some.injEq] at hy
          subst hy
          have := @InTree.root { root := cm, children := childIds clones relevant m }
          rwa [hcm] at this
        | succ d ih =>
          intro i y hik hy
          obtain ⟨y2, hy2⟩ := ancestorIter_isSome_of_le clones k (i + 1) p m hk (by omega)
          have hstep : ancestorIter clones 1 y = some y2 := by
            have := ancestorIter_add clones i 1 p
            rw [hy, hy2] at this
            exact this.symm
          obtain ⟨cy, hcy, hay⟩ := (ancestorIter_one clones y y2).1 hstep
          have hparent := ih (i + 1) y2 (by omega) hy2
          refine InTree.child y2 y hparent ?_
          have hchain_mem : ∀ j z, j ≤ k → ancestorIter clones j p = some z → z ∈ relevant :=
            fun j z hj hz =>
              (hrel z).2 (Or.inr ⟨p, hp, (onChain_iff clones m p k hk hmin z).2 ⟨j, hj, hz⟩⟩)
          refine (mem_childIds _ _ _ _ _).2
            ⟨hchain_mem (i + 1) y2 (by omega) hy2, ?_, hchain_mem i y (by omega) hy, ?_,
              cy, hcy, hay⟩
          · by_cases hlast : i + 1 = k
            · rw [hlast, hk] at hy2
              simp only [Option.some.injEq] at hy2
              subst hy2
              rw [hm]; rfl
            · obtain ⟨y3, hy3⟩ := ancestorIter_isSome_of_le clones k (i + 2) p m hk (by omega)
              have hstep2 : ancestorIter clones 1 y2 = some y3 := by
                have := ancestorIter_add clones (i + 1) 1 p
                rw [hy2, hy3] at this
                exact this.symm
              obtain ⟨c2, hc2, _⟩ := (ancestorIter_one clones y2 y3).1 hstep2
              rw [hc2]; rfl
          · intro e
            subst e
            exact hmin i (by omega) hy
      exact key (k - i) i x (by omega) hxi

theorem lineageTree_mono (clones : List Clone) (present : List Int) (m : Int) (fuel : Nat)
    (t : FilteredTree) (h : lineageTree clones present m fuel = some t) (fuel2 : Nat)
    (hf : fuel ≤ fuel2) : lineageTree clones present m fuel2 = some t := by
  unfold lineageTree relevantCloneIds at h ⊢
  cases hr : traceAll clones m fuel present [m] with
  | none => simp [hr] at h
  | some r =>
    rw [traceAll_mono clones m fuel present [m] r hr fuel2 hf]
    simpa only [hr] using h

/-- Claim C6.  For every clone list, every MRCA id `m` that has a clone in the list and every
list `P` of present ids that are `m` or descendants of `m`, the relevant-set closure of
`renderLineageTree` ends and `buildFilteredTree` returns a tree rooted at `m` whose node ids
are exactly `m` together with every id on the ancestor chain from each id of `P` up to `m`;
nothing else of the clone list appears.  (Distinct ids and acyclicity of the whole list are
not needed for this.)  With the clones 1 (no ancestor), 2 (ancestor 1), 3 (ancestor 2),
4 (ancestor 2), `P = {4}` and `m = 1` the tree contains exactly 1, 2 and 4. -/
theorem lineageTree_nodes :
    (∀ (clones : List Clone) (present : List Int) (mrcaId : Int),
      (cloneMapGet clones mrcaId).isSome →
      (∀ p ∈ present, IsDescendantOrSelf clones mrcaId p) →
      ∃ t, (∃ N, ∀ fuel, N ≤ fuel → lineageTree clones present mrcaId fuel = some t) ∧
        t.root.id = mrcaId ∧
        ∀ x, InTree t x ↔ x = mrcaId ∨ ∃ p ∈ present, OnChain clones mrcaId p x) ∧
    (∃ t, (∀ fuel, 3 ≤ fuel → lineageTree lineageExample [4] 1 fuel = some t) ∧
      t.root.id = 1 ∧ ∀ x, InTree t x ↔ x = 1 ∨ x = 2 ∨ x = 4) := by
  constructor
  · intro clones present m hm hP
    obtain ⟨cm, hcm⟩ := Option.isSome_iff_exists.1 hm
    obtain ⟨r, N, hr, hmem⟩ := traceAll_spec clones m present [m] hP
    have hrel : ∀ x, x ∈ r ↔ x = m ∨ ∃ p ∈ present, OnChain clones m p x := by
      intro x; rw [hmem, List.mem_singleton]
    refine ⟨{ root := cm, children := childIds clones r m }, ⟨N, ?_⟩,
      cloneMapGet_id clones m cm hcm, ?_⟩
    · intro fuel hf
      unfold lineageTree relevantCloneIds
      rw [hr fuel hf]
      unfold buildFilteredTree
      simp only [(hrel m).2 (Or.inl rfl), if_true, hcm]
    · intro x
      rw [inTree_iff_relevant clones present r m cm hcm hP hrel x, hrel]
  · refine ⟨lineageExampleTree, ?_, rfl, ?_⟩
    · intro fuel hf
      exact lineageTree_mono lineageExample [4] 1 3 _ rfl fuel hf
    · intro x
      constructor
      · intro h
        induction h with
        | root => exact Or.inl rfl
        | child parent id _ hid ih =>
          have hid2 : id ∈ childIds lineageExample [1, 4, 2] 1 parent := hid
          rcases ih with rfl | rfl | rfl
          · have : childIds lineageExample [1, 4, 2] 1 1 = [2] := by decide
            rw [this] at hid2
            exact Or.inr (Or.inl (List.mem_singleton.1 hid2))
          · have : childIds lineageExample [1, 4, 2] 1 2 = [4] := by decide
            rw [this] at hid2
            exact Or.inr (Or.inr (List.mem_singleton.1 hid2))
          · have : childIds lineageExample [1, 4, 2] 1 4 = [] := by decide
            rw [this] at hid2
            cases hid2
      · have h1 : InTree lineageExampleTree 1 := InTree.root
        have h2 : InTree lineageExampleTree 2 :=
          InTree.child 1 2 h1 (by decide)
        have h4 : InTree lineageExampleTree 4 :=
          InTree.child 2 4 h2 (by decide)
        rintro (rfl | rfl | rfl)
        · exact h1
        · exact h2
        · exact h4

/-- Witness of C6: in the example list the MRCA 2 has a clone and the present ids 3 and 4
descend from it; the tree is rooted at 2. -/
theorem lineageTree_nodes_witness :
    (cloneMapGet lineageExample 2).isSome ∧
    (∀ p ∈ [3, 4], IsDescendantOrSelf lineageExample 2 p) ∧
    ∃ t, (∃ N, ∀ fuel, N ≤ fuel → lineageTree lineageExample [3, 4] 2 fuel = some t) ∧
      t.root.id = 2 ∧
      ∀ x, InTree t x ↔ x = 2 ∨ ∃ p ∈ [3, 4], OnChain lineageExample 2 p x := by
  have hP : ∀ p ∈ [(3 : Int), 4], IsDescendantOrSelf lineageExample 2 p := by
    intro p hp
    simp only [List.mem_cons, List.mem_singleton, List.not_mem_nil, or_false] at hp
    rcases hp with rfl | rfl
    · exact ⟨1, by decide⟩
    · exact ⟨1, by decide⟩
  exact ⟨by decide, hP, lineageTree_nodes.1 lineageExample [3, 4] 2 (by decide) hP⟩

/-! ### The coefficient of determination -/

theorem ssTotal_of_constant_y (pts : List (ℚ × ℚ)) (c : ℚ) (hy : ∀ p ∈ pts, p.2 = c)
    (hn : (pts.length : ℚ) ≠ 0) : ssTotal pts = 0 := by
  have hline : ∀ p ∈ pts, p.2 = 0 * p.1 + c := fun p hp => by rw [hy p hp]; ring
  obtain ⟨h1, _⟩ := sums_on_line pts 0 c hline
  have hmean : sumY pts / pts.length = c := by
    rw [h1, div_eq_iff hn]; ring
  rw [ssTotal, hmean]
  apply List.sum_eq_zero
  intro y hy2
  obtain ⟨p, hp, rfl⟩ := List.mem_map.1 hy2
  rw [hy p hp]; ring

/-- Claim C11, in exact arithmetic.  On finite points whose `x` values are not all equal,
`calculateLinearRegression` returns r2 = 1 - SS_res/SS_tot, with SS_tot the sum of
`(y - mean of y)^2` and SS_res the sum of `(y - (slope*x + intercept))^2` over the points, for
the returned slope and intercept.  When all `y` values are identical, SS_tot and SS_res are
both 0, no special case is taken, and r2 is the result of the division 0/0: not-a-number.
(Exact arithmetic.) -/
theorem calculateLinearRegression_r2 (root : ℚ → ℚ) (pts : List (ℚ × ℚ))
    (hx : XNotAllEqual pts) :
    (calculateLinearRegression root (pts.map Point.ofRat)).slope = JSNum.fin (olsSlope pts) ∧
    (calculateLinearRegression root (pts.map Point.ofRat)).intercept =
      JSNum.fin (olsIntercept pts) ∧
    (calculateLinearRegression root (pts.map Point.ofRat)).r2 =
      JSNum.fin 1 - JSNum.fin (ssResidual pts) / JSNum.fin (ssTotal pts) ∧
    (∀ c : ℚ, (∀ p ∈ pts, p.2 = c) →
      ssTotal pts = 0 ∧ ssResidual pts = 0 ∧
      JSNum.fin (ssResidual pts) / JSNum.fin (ssTotal pts) = JSNum.nan ∧
      (calculateLinearRegression root (pts.map Point.ofRat)).r2 = JSNum.nan) := by
  obtain ⟨hr2, _⟩ := regression_sums_of_squares root pts hx
  refine ⟨regression_slope root pts hx, regression_intercept root pts hx, hr2, ?_⟩
  intro c hy
  have hn := length_ne_zero_of_xNotAllEqual pts hx
  have htot := ssTotal_of_constant_y pts c hy hn
  have hres := ssResidual_on_line pts 0 c (fun p hp => by rw [hy p hp]; ring) hx
  have hdiv : JSNum.fin (ssResidual pts) / JSNum.fin (ssTotal pts) = JSNum.nan := by
    rw [htot, hres]; rfl
  refine ⟨htot, hres, hdiv, ?_⟩
  rw [hr2, hdiv]; rfl

/-- Witness of C11: the points (0,5), (1,5), (2,5) have r2 = NaN. -/
theorem calculateLinearRegression_r2_witness :
    XNotAllEqual [(0, 5), (1, 5), (2, 5)] ∧
    (∀ p ∈ [((0 : ℚ), (5 : ℚ)), (1, 5), (2, 5)], p.2 = 5) ∧
    (calculateLinearRegression (fun q => q) ([(0, 5), (1, 5), (2, 5)].map Point.ofRat)).r2 =
      JSNum.nan := by
  have hx : XNotAllEqual [(0, 5), (1, 5), (2, 5)] :=
    ⟨(0, 5), by simp, (1, 5), by simp, by norm_num⟩
  have hy : ∀ p ∈ [((0 : ℚ), (5 : ℚ)), (1, 5), (2, 5)], p.2 = 5 := by
    intro p hp
    simp only [List.mem_cons, List.mem_singleton, List.not_mem_nil, or_false] at hp
    rcases hp with rfl | rfl | rfl <;> rfl
  exact ⟨hx, hy, ((calculateLinearRegression_r2 (fun q => q) _ hx).2.2.2 5 hy).2.2.2⟩

/-! ### Degenerate partitions -/

theorem aggregate_cohort_getElem? (root : ℚ → ℚ) (data : List Record) (parameter metric : String)
    (cohort : Bool) (i : Nat) (v : Value)
    (hv : (aggregateByParameter root data parameter metric).values[i]? = some v) :
    ((aggregateByParameter root data parameter metric).cohort cohort)[i]? =
      some (calculateStats root parameter metric (filterByNeutral data cohort) v) := by
  have hv2 : (getUniqueValues data parameter)[i]? = some v := hv
  cases cohort with
  | true =>
    have hagg : (aggregateByParameter root data parameter metric).cohort true =
        (getUniqueValues data parameter).map
          (fun v => calculateStats root parameter metric (filterByNeutral data true) v) := rfl
    rw [hagg, List.getElem?_map, hv2, Option.map_some']
  | false =>
    have hagg : (aggregateByParameter root data parameter metric).cohort false =
        (getUniqueValues data parameter).map
          (fun v => calculateStats root parameter metric (filterByNeutral data false) v) := rfl
    rw [hagg, List.getElem?_map, hv2, Option.map_some']

/-- Claim C17.  For every list of records, every distinct value `v` of the parameter (the entry
at index `i` of `values`) and each cohort (neutral, not neutral), when the cohort has no record
with the parameter equal to `v`, `aggregateByParameter` returns `{mean: 0, std: 0}` for that
value and cohort: a defined result, not a failure and not a missing entry. -/
theorem aggregateByParameter_empty_partition (root : ℚ → ℚ) (data : List Record)
    (parameter metric : String) (i : Nat) (v : Value) (cohort : Bool)
    (hv : (aggregateByParameter root data parameter metric).values[i]? = some v)
    (hempty : ∀ row ∈ filterByNeutral data cohort,
      Value.strictEq (Record.field row parameter) v = false) :
    ((aggregateByParameter root data parameter metric).cohort cohort)[i]? =
      some { mean := JSNum.fin 0, std := JSNum.fin 0 } := by
  rw [aggregate_cohort_getElem? root data parameter metric cohort i v hv]
  have hfil : (filterByNeutral data cohort).filter
      (fun row => Value.strictEq (Record.field row parameter) v) = [] := by
    rw [List.filter_eq_nil_iff]
    intro row hrow
    rw [hempty row hrow]; simp
  unfold calculateStats
  simp [hfil]

/-- Witness of C17: in `statsExample` both records are neutral, so the not-neutral cohort has
no record with `p = 1` and gets mean 0 and std 0. -/
theorem aggregateByParameter_empty_partition_witness :
    (aggregateByParameter (fun q => q) statsExample "p" "m").values[0]? =
      some (Value.num (JSNum.fin 1)) ∧
    (∀ row ∈ filterByNeutral statsExample false,
      Value.strictEq (Record.field row "p") (Value.num (JSNum.fin 1)) = false) ∧
    (aggregateByParameter (fun q => q) statsExample "p" "m").not_neutral[0]? =
      some { mean := JSNum.fin 0, std := JSNum.fin 0 } := by
  have hv : (aggregateByParameter (fun q => q) statsExample "p" "m").values[0]? =
      some (Value.num (JSNum.fin 1)) := by decide!
  have hempty : ∀ row ∈ filterByNeutral statsExample false,
      Value.strictEq (Record.field row "p") (Value.num (JSNum.fin 1)) = false := by
    intro row hrow
    have hnn : filterByNeutral statsExample false = [] := by decide!
    rw [hnn] at hrow
    cases hrow
  exact ⟨hv, hempty,
    aggregateByParameter_empty_partition (fun q => q) statsExample "p" "m" 0 _ false hv hempty⟩

theorem populationStats_constant (root : ℚ → ℚ) (qs : List ℚ) (c : ℚ) (hne : qs ≠ [])
    (hc : ∀ q ∈ qs, q = c) :
    populationStats root (qs.map JSNum.fin) = { mean := JSNum.fin c, std := JSNum.fin 0 } := by
  have hlen : (qs.length : ℚ) ≠ 0 :=
    Nat.cast_ne_zero.2 (fun e => hne (List.length_eq_zero.1 e))
  have hsum : qs.sum = qs.length * c := by
    clear hne hlen
    induction qs with
    | nil => simp
    | cons q qs ih =>
      rw [List.sum_cons, ih (fun x hx => hc x (List.mem_cons_of_mem _ hx)),
        hc q (List.mem_cons_self _ _), List.length_cons, Nat.cast_succ]
      ring
  have hmean : qs.sum / qs.length = c := by
    rw [hsum, mul_comm, mul_div_assoc, div_self hlen, mul_one]
  rw [populationStats_fin root qs hne, hmean]
  have hzero : (qs.map (fun q => (q - c) ^ 2)).sum = 0 := by
    apply List.sum_eq_zero
    intro y hy
    obtain ⟨q, hq, rfl⟩ := List.mem_map.1 hy
    rw [hc q hq]; ring
  rw [hzero, zero_div]
  simp [JSNum.Math_sqrt]

/-- Claim C18, as the code has it.  For every k >= 1 and every finite number `c`, when the
partition of a cohort for a parameter value consists of k records that all have metric = `c`,
`aggregateByParameter` returns mean = `c` and std = 0 exactly for that partition.  (Exact
arithmetic.) -/
theorem aggregateByParameter_constant_partition (root : ℚ → ℚ) (data : List Record)
    (parameter metric : String) (c : ℚ) :
    ConstantPartitionStats root data parameter metric (JSNum.fin c) := by
  intro i v cohort hv hne hall
  rw [aggregate_cohort_getElem? root data parameter metric cohort i v hv,
    calculateStats_eq root parameter metric _ v hne]
  have hmap : ((filterByNeutral data cohort).filter
      (fun row => Value.strictEq (Record.field row parameter) v)).map
      (fun row => Value.toNumber (Record.field row metric)) =
      ((partitionRecords data cohort parameter v).map (fun _ => c)).map JSNum.fin := by
    rw [List.map_map]
    apply List.map_congr_left
    intro row hrow
    have := hall row hrow
    simp only [Function.comp, this, Value.toNumber]
  rw [hmap, populationStats_constant root _ c (by simpa using hne)
    (fun q hq => by
      obtain ⟨_, _, rfl⟩ := List.mem_map.1 hq
      rfl)]

/-- Witness of C18: two neutral records with `p = 1` and metric 3 give mean 3 and std 0. -/
theorem aggregateByParameter_constant_partition_witness :
    (aggregateByParameter (fun q => q)
      [[("neutral", Value.bool true), ("p", Value.num (JSNum.fin 1)), ("m", Value.num (JSNum.fin 3))],
       [("neutral", Value.bool true), ("p", Value.num (JSNum.fin 1)), ("m", Value.num (JSNum.fin 3))]]
      "p" "m").neutral[0]? = some { mean := JSNum.fin 3, std := JSNum.fin 0 } :=
  aggregateByParameter_constant_partition (fun q => q) _ "p" "m" 3 0 (Value.num (JSNum.fin 1)) true
    (by decide!) (by decide!)
    (by
      intro row hrow
      have hp : partitionRecords
          [[("neutral", Value.bool true), ("p", Value.num (JSNum.fin 1)),
              ("m", Value.num (JSNum.fin 3))],
            [("neutral", Value.bool true), ("p", Value.num (JSNum.fin 1)),
              ("m", Value.num (JSNum.fin 3))]] true "p" (Value.num (JSNum.fin 1)) =
          [[("neutral", Value.bool true), ("p", Value.num (JSNum.fin 1)),
              ("m", Value.num (JSNum.fin 3))],
            [("neutral", Value.bool true), ("p", Value.num (JSNum.fin 1)),
              ("m", Value.num (JSNum.fin 3))]] := by decide!
      rw [hp] at hrow
      simp only [List.mem_cons, List.mem_singleton, List.not_mem_nil, or_false, or_self] at hrow
      subst hrow
      decide!)

/-! ### getUniqueValues is sorted -/

theorem JSNum.isPositive_sub (x y : JSNum) (hx : x ≠ JSNum.nan) (hy : y ≠ JSNum.nan) :
    JSNum.isPositive (JSNum.sub x y) = true ↔ JSNum.lt y x = true := by
  cases x <;> cases y <;>
    simp [JSNum.sub, JSNum.neg, JSNum.add, JSNum.isPositive, JSNum.lt] at hx hy ⊢

theorem JSNum.lt_irrefl (x : JSNum) : JSNum.lt x x = false := by
  cases x <;> simp [JSNum.lt]

theorem JSNum.lt_trans (x y z : JSNum) (h1 : JSNum.lt x y = true) (h2 : JSNum.lt y z = true) :
    JSNum.lt x z = true := by
  cases x <;> cases y <;> cases z <;> simp [JSNum.lt] at h1 h2 ⊢
  linarith

theorem JSNum.lt_or_lt (x y : JSNum) (hx : x ≠ JSNum.nan) (hy : y ≠ JSNum.nan) (hxy : x ≠ y) :
    JSNum.lt x y = true ∨ JSNum.lt y x = true := by
  cases x <;> cases y <;> simp [JSNum.lt] at hx hy hxy ⊢
  exact hxy

theorem sortRel_iff (x y : JSNum) (hx : x ≠ JSNum.nan) (hy : y ≠ JSNum.nan) :
    JSNum.isPositive (compareNumeric (Value.num x) (Value.num y)) = false ↔
      JSNum.lt y x = false := by
  have := JSNum.isPositive_sub x y hx hy
  unfold compareNumeric
  simp only [Value.toNumber]
  rw [← Bool.not_eq_true, ← Bool.not_eq_true, this]

theorem pairwise_orderedInsert {α : Type} (r : α → α → Prop) [DecidableRel r] (good : α → Prop)
    (htot : ∀ a b, good a → good b → ¬ r a b → r b a)
    (htrans : ∀ a b c, good a → good b → good c → r a b → r b c → r a c)
    (a : α) (l : List α) (ha : good a) (hl : ∀ b ∈ l, good b) (hs : l.Pairwise r) :
    (l.orderedInsert r a).Pairwise r := by
  induction l with
  | nil => simp
  | cons b l ih =>
    rw [List.pairwise_cons] at hs
    have hb := hl b (List.mem_cons_self _ _)
    have hl2 : ∀ c ∈ l, good c := fun c hc => hl c (List.mem_cons_of_mem _ hc)
    by_cases hab : r a b
    · rw [List.orderedInsert, if_pos hab, List.pairwise_cons]
      refine ⟨?_, List.pairwise_cons.2 hs⟩
      intro c hc
      rcases List.mem_cons.1 hc with rfl | hc
      · exact hab
      · exact htrans a b c ha hb (hl2 c hc) hab (hs.1 c hc)
    · rw [List.orderedInsert, if_neg hab, List.pairwise_cons]
      refine ⟨?_, ih hl2 hs.2⟩
      intro c hc
      rcases (List.mem_orderedInsert r).1 hc with rfl | hc
      · exact htot _ _ ha hb hab
      · exact hs.1 c hc

theorem pairwise_insertionSort {α : Type} (r : α → α → Prop) [DecidableRel r] (good : α → Prop)
    (htot : ∀ a b, good a → good b → ¬ r a b → r b a)
    (htrans : ∀ a b c, good a → good b → good c → r a b → r b c → r a c)
    (l : List α) (hl : ∀ b ∈ l, good b) : (l.insertionSort r).Pairwise r := by
  induction l with
  | nil => simp
  | cons a l ih =>
    rw [List.insertionSort]
    apply pairwise_orderedInsert r good htot htrans a _ (hl a (List.mem_cons_self _ _))
    · intro b hb
      exact hl b (List.mem_cons_of_mem _ ((List.perm_insertionSort r l).mem_iff.1 hb))
    · exact ih (fun b hb => hl b (List.mem_cons_of_mem _ hb))

theorem nodup_newSet_foldl (values acc : List Value) (hacc : acc.Nodup) :
    (values.foldl (fun acc v => if includes acc v then acc else acc ++ [v]) acc).Nodup := by
  induction values generalizing acc with
  | nil => exact hacc
  | cons x xs ih =>
    simp only [List.foldl_cons]
    apply ih
    by_cases hx : includes acc x = true
    · simpa only [hx, if_true] using hacc
    · have hnot : ¬ x ∈ acc := fun h => hx ((includes_iff _ _).2 h)
      simp only [hx, Bool.false_eq_true, if_false]
      rw [List.nodup_append]
      refine ⟨hacc, List.nodup_singleton x, ?_⟩
      intro a ha hb
      rw [List.mem_singleton] at hb
      subst hb
      exact hnot ha

theorem nodup_newSet (values : List Value) : (newSet values).Nodup :=
  nodup_newSet_foldl values [] List.nodup_nil

theorem jsSort_of_defined (comparefn : Value → Value → JSNum) (arr : List Value)
    (h : ∀ v ∈ arr, v ≠ Value.undefined) :
    jsSort comparefn arr =
      arr.insertionSort (fun a b => JSNum.isPositive (comparefn a b) = false) := by
  unfold jsSort
  have h1 : arr.filter (fun v => decide (v ≠ Value.undefined)) = arr := by
    rw [List.filter_eq_self]
    intro v hv
    simpa using h v hv
  have h2 : arr.filter (fun v => decide (v = Value.undefined)) = [] := by
    rw [List.filter_eq_nil_iff]
    intro v hv
    simpa using h v hv
  rw [h1, h2, List.append_nil]

theorem getUniqueValues_strictlyAscending (data : List Record) (parameterName : String)
    (h : NonNaNColumn data parameterName) :
    StrictlyAscending (getUniqueValues data parameterName) ∧
    (getUniqueValues data parameterName).Nodup := by
  have hgood : ∀ v ∈ newSet (data.map (fun row => Record.field row parameterName)),
      IsNonNaNNumber v := by
    intro v hv
    obtain ⟨row, hrow, rfl⟩ := List.mem_map.1 ((mem_newSet _ _).1 hv)
    exact h row hrow
  have hdef : ∀ v ∈ newSet (data.map (fun row => Record.field row parameterName)),
      v ≠ Value.undefined := by
    intro v hv e
    obtain ⟨x, hx, _⟩ := hgood v hv
    rw [e] at hx
    cases hx
  have hsort : getUniqueValues data parameterName =
      (newSet (data.map (fun row => Record.field row parameterName))).insertionSort
        (fun a b => JSNum.isPositive (compareNumeric a b) = false) := by
    unfold getUniqueValues
    exact jsSort_of_defined _ _ hdef
  have hperm := List.perm_insertionSort
    (fun a b => JSNum.isPositive (compareNumeric a b) = false)
    (newSet (data.map (fun row => Record.field row parameterName)))
  have hnodup : (getUniqueValues data parameterName).Nodup := by
    rw [hsort]
    exact hperm.nodup_iff.2 (nodup_newSet _)
  have hpair := pairwise_insertionSort
    (fun a b => JSNum.isPositive (compareNumeric a b) = false) IsNonNaNNumber
    (by
      rintro a b ⟨x, rfl, hx⟩ ⟨y, rfl, hy⟩ hab
      replace hab : ¬ JSNum.isPositive (compareNumeric (Value.num x) (Value.num y)) = false := hab
      show JSNum.isPositive (compareNumeric (Value.num y) (Value.num x)) = false
      rw [sortRel_iff x y hx hy] at hab
      rw [sortRel_iff y x hy hx]
      rw [Bool.not_eq_false] at hab
      by_contra hc
      rw [Bool.not_eq_false] at hc
      have := JSNum.lt_trans _ _ _ hab hc
      rw [JSNum.lt_irrefl] at this
      cases this)
    (by
      rintro a b c ⟨x, rfl, hx⟩ ⟨y, rfl, hy⟩ ⟨z, rfl, hz⟩ hab hbc
      replace hab : JSNum.isPositive (compareNumeric (Value.num x) (Value.num y)) = false := hab
      replace hbc : JSNum.isPositive (compareNumeric (Value.num y) (Value.num z)) = false := hbc
      show JSNum.isPositive (compareNumeric (Value.num x) (Value.num z)) = false
      rw [sortRel_iff x y hx hy] at hab
      rw [sortRel_iff y z hy hz] at hbc
      rw [sortRel_iff x z hx hz]
      by_contra hc
      rw [Bool.not_eq_false] at hc
      -- z < x, not y < x, not z < y
      by_cases hxy : x = y
      · subst hxy; rw [hc] at hbc; cases hbc
      · rcases JSNum.lt_or_lt x y hx hy hxy with h1 | h1
        · have := JSNum.lt_trans _ _ _ hc h1
          rw [this] at hbc; cases hbc
        · rw [h1] at hab; cases hab)
    _ hgood
  refine ⟨?_, hnodup⟩
  unfold StrictlyAscending
  rw [hsort]
  rw [hsort] at hnodup
  have hboth := hpair.and hnodup
  refine hboth.imp_of_mem ?_
  intro a b ha hb hab
  obtain ⟨x, rfl, hx⟩ := hgood a (hperm.mem_iff.1 ha)
  obtain ⟨y, rfl, hy⟩ := hgood b (hperm.mem_iff.1 hb)
  obtain ⟨hr, hne⟩ := hab
  replace hr : JSNum.isPositive (compareNumeric (Value.num x) (Value.num y)) = false := hr
  rw [sortRel_iff x y hx hy] at hr
  have hxy : x ≠ y := fun e => hne (by rw [e])
  show JSNum.lt x y = true
  rcases JSNum.lt_or_lt x y hx hy hxy with h1 | h1
  · exact h1
  · rw [h1] at hr; cases hr

/-- Claim C19.  For every list of records whose values for the parameter are numbers other than
`NaN`, `getUniqueValues` returns a list that is strictly ascending in numeric order, contains no
value twice, and contains a value if and only if some record has that value for the
parameter. -/
theorem getUniqueValues_sorted_distinct (data : List Record) (parameterName : String)
    (h : NonNaNColumn data parameterName) :
    StrictlyAscending (getUniqueValues data parameterName) ∧
    (getUniqueValues data parameterName).Nodup ∧
    ∀ v, v ∈ getUniqueValues data parameterName ↔
      ∃ row ∈ data, Record.field row parameterName = v :=
  ⟨(getUniqueValues_strictlyAscending data parameterName h).1,
    (getUniqueValues_strictlyAscending data parameterName h).2,
    mem_getUniqueValues data parameterName⟩

/-- Witness of C19: the values 3, 1, 3, 2 give the list 1, 2, 3. -/
theorem getUniqueValues_sorted_distinct_witness :
    NonNaNColumn uniqueExample "p" ∧
    getUniqueValues uniqueExample "p" =
      [Value.num (JSNum.fin 1), Value.num (JSNum.fin 2), Value.num (JSNum.fin 3)] ∧
    StrictlyAscending (getUniqueValues uniqueExample "p") := by
  have h : NonNaNColumn uniqueExample "p" := by
    intro d hd
    simp only [uniqueExample, List.mem_cons, List.mem_singleton, List.not_mem_nil,
      or_false] at hd
    rcases hd with rfl | rfl | rfl | rfl
    · exact ⟨JSNum.fin 3, by decide!, by simp⟩
    · exact ⟨JSNum.fin 1, by decide!, by simp⟩
    · exact ⟨JSNum.fin 3, by decide!, by simp⟩
    · exact ⟨JSNum.fin 2, by decide!, by simp⟩
  exact ⟨h, by decide!, (getUniqueValues_sorted_distinct uniqueExample "p" h).1⟩

/-! ### The shape of the pivot table -/

theorem mapToFixed_length (toFixed : JSNum → Nat → String) (vs : List Value)
    (labels : List String) (h : mapToFixed toFixed vs = some labels) :
    labels.length = vs.length := by
  induction vs generalizing labels with
  | nil =>
    simp only [mapToFixed, Option.some.injEq] at h
    subst h; rfl
  | cons v vs ih =>
    cases v with
    | num x =>
      simp only [mapToFixed, Option.map_eq_some'] at h
      obtain ⟨l, hl, rfl⟩ := h
      simp [ih l hl]
    | undefined => simp [mapToFixed] at h
    | null => simp [mapToFixed] at h
    | bool b => simp [mapToFixed] at h
    | str s => simp [mapToFixed] at h

theorem createPivotTable_labels (toFixed : JSNum → Nat → String) (data : List Record)
    (param1 param2 metric : String) (t : PivotTable)
    (h : createPivotTable toFixed data param1 param2 metric = some t) :
    mapToFixed toFixed t.xValues = some t.xLabels ∧
    mapToFixed toFixed t.yValues = some t.yLabels := by
  unfold createPivotTable at h
  simp only at h
  split at h
  · next xl yl hxl hyl =>
    simp only [Option.some.injEq] at h
    subst h
    exact ⟨hxl, hyl⟩
  · cases h

theorem nonNaNColumn_filterByNeutral (data : List Record) (parameter : String) (neutral : Bool)
    (h : NonNaNColumn data parameter) : NonNaNColumn (filterByNeutral data neutral) parameter :=
  fun d hd => h d (List.mem_of_mem_filter hd)

/-- Claim C20.  For every list of records with numeric (non-NaN) values of `param1` and
`param2`, `createPivotTable` returns a table whose `yValues` and `xValues` are the strictly
ascending distinct values of `param1` and `param2` among the records with `neutral === false`;
the grid `values` has exactly `yValues.length` rows, each row has exactly `xValues.length`
cells, and `xLabels` and `yLabels` have the lengths of `xValues` and `yValues`. -/
theorem createPivotTable_shape (toFixed : JSNum → Nat → String) (data : List Record)
    (param1 param2 metric : String) (h1 : NonNaNColumn data param1)
    (h2 : NonNaNColumn data param2) :
    ∃ t, createPivotTable toFixed data param1 param2 metric = some t ∧
      (StrictlyAscending t.yValues ∧ t.yValues.Nodup ∧
        ∀ v, v ∈ t.yValues ↔ ∃ d ∈ filterByNeutral data false, Record.field d param1 = v) ∧
      (StrictlyAscending t.xValues ∧ t.xValues.Nodup ∧
        ∀ v, v ∈ t.xValues ↔ ∃ d ∈ filterByNeutral data false, Record.field d param2 = v) ∧
      t.values.length = t.yValues.length ∧
      (∀ row ∈ t.values, row.length = t.xValues.length) ∧
      t.xLabels.length = t.xValues.length ∧ t.yLabels.length = t.yValues.length := by
  have g1 := nonNaNColumn_filterByNeutral data param1 false h1
  have g2 := nonNaNColumn_filterByNeutral data param2 false h2
  obtain ⟨xl, hxl⟩ := mapToFixed_isSome toFixed (getUniqueValues (filterByNeutral data false) param2)
    (by
      intro v hv
      obtain ⟨row, hrow, rfl⟩ := (mem_getUniqueValues _ _ _).1 hv
      obtain ⟨x, hx, _⟩ := g2 row hrow
      exact ⟨x, hx⟩)
  obtain ⟨yl, hyl⟩ := mapToFixed_isSome toFixed (getUniqueValues (filterByNeutral data false) param1)
    (by
      intro v hv
      obtain ⟨row, hrow, rfl⟩ := (mem_getUniqueValues _ _ _).1 hv
      obtain ⟨x, hx, _⟩ := g1 row hrow
      exact ⟨x, hx⟩)
  have ht : ∃ t, createPivotTable toFixed data param1 param2 metric = some t := by
    unfold createPivotTable
    simp only [hxl, hyl]
    exact ⟨_, rfl⟩
  obtain ⟨t, ht⟩ := ht
  obtain ⟨hx, hy, hv⟩ := createPivotTable_eq_some toFixed data param1 param2 metric t ht
  obtain ⟨hxlab, hylab⟩ := createPivotTable_labels toFixed data param1 param2 metric t ht
  refine ⟨t, ht, ?_, ?_, ?_, ?_, mapToFixed_length _ _ _ hxlab, mapToFixed_length _ _ _ hylab⟩
  · rw [hy]
    exact ⟨(getUniqueValues_strictlyAscending _ _ g1).1,
      (getUniqueValues_strictlyAscending _ _ g1).2, mem_getUniqueValues _ _⟩
  · rw [hx]
    exact ⟨(getUniqueValues_strictlyAscending _ _ g2).1,
      (getUniqueValues_strictlyAscending _ _ g2).2, mem_getUniqueValues _ _⟩
  · rw [hv, hy, List.length_map]
  · intro row hrow
    rw [hv] at hrow
    obtain ⟨y, _, rfl⟩ := List.mem_map.1 hrow
    rw [List.length_map, hx]

theorem nonNaNColumn_pivotExample (parameter : String) (hp : parameter = "a" ∨ parameter = "b") :
    NonNaNColumn pivotExample parameter := by
  intro d hd
  simp only [pivotExample, List.mem_cons, List.mem_singleton, List.not_mem_nil, or_false] at hd
  rcases hp with rfl | rfl <;> rcases hd with rfl | rfl | rfl
  · exact ⟨JSNum.fin 1, by decide!, by simp⟩
  · exact ⟨JSNum.fin 3, by decide!, by simp⟩
  · exact ⟨JSNum.fin 1, by decide!, by simp⟩
  · exact ⟨JSNum.fin 2, by decide!, by simp⟩
  · exact ⟨JSNum.fin 4, by decide!, by simp⟩
  · exact ⟨JSNum.fin 4, by decide!, by simp⟩

/-- Witness of C20: the table of `pivotExample` has the row keys 1, 3, the column keys 2, 4 and
a grid of 2 rows with 2 cells each. -/
theorem createPivotTable_shape_witness :
    NonNaNColumn pivotExample "a" ∧ NonNaNColumn pivotExample "b" ∧
    ∃ t, createPivotTable (fun _ _ => "") pivotExample "a" "b" "m" = some t ∧
      t.yValues = [Value.num (JSNum.fin 1), Value.num (JSNum.fin 3)] ∧
      t.xValues = [Value.num (JSNum.fin 2), Value.num (JSNum.fin 4)] ∧
      StrictlyAscending t.yValues ∧ StrictlyAscending t.xValues ∧
      t.values.length = t.yValues.length ∧
      (∀ row ∈ t.values, row.length = t.xValues.length) ∧
      t.xLabels.length = t.xValues.length ∧ t.yLabels.length = t.yValues.length := by
  have ha := nonNaNColumn_pivotExample "a" (Or.inl rfl)
  have hb := nonNaNColumn_pivotExample "b" (Or.inr rfl)
  obtain ⟨t, ht, hy, hx, h3, h4, h5, h6⟩ :=
    createPivotTable_shape (fun _ _ => "") pivotExample "a" "b" "m" ha hb
  have hfields := createPivotTable_eq_some (fun _ _ => "") pivotExample "a" "b" "m" t ht
  refine ⟨ha, hb, t, ht, ?_, ?_, hy.1, hx.1, h3, h4, h5, h6⟩
  · rw [hfields.2.1]; decide!
  · rw [hfields.1]; decide!

/-! ## The confidence band -/

theorem confidenceArrays_foldl (root : ℚ → ℚ) (regression : Regression) (xMin xMax : JSNum)
    (l : List Nat) (init : List Point × List Point) :
    l.foldl
      (fun arrays i =>
        (arrays.1 ++ [(confidenceStep root regression xMin xMax i).1],
         arrays.2 ++ [(confidenceStep root regression xMin xMax i).2]))
      init =
    (init.1 ++ l.map (fun i => (confidenceStep root regression xMin xMax i).1),
     init.2 ++ l.map (fun i => (confidenceStep root regression xMin xMax i).2)) := by
  induction l generalizing init with
  | nil => simp
  | cons i l ih => simp [ih]

theorem confidenceStep_eq (root : ℚ → ℚ) (regression : Regression) (xMin xMax : JSNum) (i : Nat) :
    confidenceStep root regression xMin xMax i =
      (bandUpper root regression (bandX xMin xMax i),
       bandLower root regression (bandX xMin xMax i)) := rfl

theorem confidenceArrays_eq (root : ℚ → ℚ) (regression : Regression) (xMin xMax : JSNum) :
    confidenceArrays root regression xMin xMax =
      ((List.range 51).map (fun i => bandUpper root regression (bandX xMin xMax i)),
       (List.range 51).map (fun i => bandLower root regression (bandX xMin xMax i))) := by
  unfold confidenceArrays
  rw [confidenceArrays_foldl]
  simp only [List.nil_append, confidenceStep_eq]
  rfl

theorem JSNum.min2_fin (a b : ℚ) : JSNum.min2 (JSNum.fin a) (JSNum.fin b) = JSNum.fin (min a b) := by
  by_cases h : b < a
  · simp [JSNum.min2, JSNum.lt, h, min_eq_right (le_of_lt h)]
  · simp [JSNum.min2, JSNum.lt, h, min_eq_left (not_lt.1 h)]

theorem JSNum.max2_fin (a b : ℚ) : JSNum.max2 (JSNum.fin a) (JSNum.fin b) = JSNum.fin (max a b) := by
  by_cases h : a < b
  · simp [JSNum.max2, JSNum.lt, h, max_eq_right (le_of_lt h)]
  · simp [JSNum.max2, JSNum.lt, h, max_eq_left (not_lt.1 h)]

theorem foldl_min2_fin (qs : List ℚ) (a : ℚ) :
    (qs.map JSNum.fin).foldl JSNum.min2 (JSNum.fin a) = JSNum.fin (qs.foldl min a) := by
  induction qs generalizing a with
  | nil => rfl
  | cons q qs ih => simp only [List.map_cons, List.foldl_cons, JSNum.min2_fin, ih]

theorem foldl_max2_fin (qs : List ℚ) (a : ℚ) :
    (qs.map JSNum.fin).foldl JSNum.max2 (JSNum.fin a) = JSNum.fin (qs.foldl max a) := by
  induction qs generalizing a with
  | nil => rfl
  | cons q qs ih => simp only [List.map_cons, List.foldl_cons, JSNum.max2_fin, ih]

theorem foldl_min_spec (qs : List ℚ) (a : ℚ) :
    qs.foldl min a ∈ a :: qs ∧ ∀ q ∈ a :: qs, qs.foldl min a ≤ q := by
  induction qs generalizing a with
  | nil => simp
  | cons b qs ih =>
    obtain ⟨hmem, hle⟩ := ih (min a b)
    simp only [List.foldl_cons]
    constructor
    · rcases List.mem_cons.1 hmem with h | h
      · rw [h]
        rcases min_choice a b with h2 | h2 <;> rw [h2] <;> simp
      · exact List.mem_cons_of_mem _ (List.mem_cons_of_mem _ h)
    · intro q hq
      have hmin := hle (min a b) (List.mem_cons_self _ _)
      rcases List.mem_cons.1 hq with rfl | hq
      · exact le_trans hmin (min_le_left _ _)
      · rcases List.mem_cons.1 hq with rfl | hq
        · exact le_trans hmin (min_le_right _ _)
        · exact hle q (List.mem_cons_of_mem _ hq)

theorem foldl_max_spec (qs : List ℚ) (a : ℚ) :
    qs.foldl max a ∈ a :: qs ∧ ∀ q ∈ a :: qs, q ≤ qs.foldl max a := by
  induction qs generalizing a with
  | nil => simp
  | cons b qs ih =>
    obtain ⟨hmem, hle⟩ := ih (max a b)
    simp only [List.foldl_cons]
    constructor
    · rcases List.mem_cons.1 hmem with h | h
      · rw [h]
        rcases max_choice a b with h2 | h2 <;> rw [h2] <;> simp
      · exact List.mem_cons_of_mem _ (List.mem_cons_of_mem _ h)
    · intro q hq
      have hmax := hle (max a b) (List.mem_cons_self _ _)
      rcases List.mem_cons.1 hq with rfl | hq
      · exact le_trans (le_max_left _ _) hmax
      · rcases List.mem_cons.1 hq with rfl | hq
        · exact le_trans (le_max_right _ _) hmax
        · exact hle q (List.mem_cons_of_mem _ hq)

/-- On a non-empty list of finite numbers `Math.min` and `Math.max` return the least and the
greatest element. -/
theorem Math_min_max_fin (qs : List ℚ) (hne : qs ≠ []) :
    ∃ m M, Math_min (qs.map JSNum.fin) = JSNum.fin m ∧ Math_max (qs.map JSNum.fin) = JSNum.fin M ∧
      m ∈ qs ∧ M ∈ qs ∧ (∀ q ∈ qs, m ≤ q) ∧ (∀ q ∈ qs, q ≤ M) := by
  cases qs with
  | nil => exact absurd rfl hne
  | cons a qs =>
    refine ⟨qs.foldl min a, qs.foldl max a, ?_, ?_, (foldl_min_spec qs a).1, (foldl_max_spec qs a).1,
      (foldl_min_spec qs a).2, (foldl_max_spec qs a).2⟩
    · show (qs.map JSNum.fin).foldl JSNum.min2 (JSNum.min2 JSNum.posInf (JSNum.fin a)) = _
      have : JSNum.min2 JSNum.posInf (JSNum.fin a) = JSNum.fin a := by simp [JSNum.min2, JSNum.lt]
      rw [this, foldl_min2_fin]
    · show (qs.map JSNum.fin).foldl JSNum.max2 (JSNum.max2 JSNum.negInf (JSNum.fin a)) = _
      have : JSNum.max2 JSNum.negInf (JSNum.fin a) = JSNum.fin a := by simp [JSNum.max2, JSNum.lt]
      rw [this, foldl_max2_fin]

theorem bandX_fin (m M : ℚ) (i : Nat) :
    bandX (JSNum.fin m) (JSNum.fin M) i = JSNum.fin (m + (M - m) * i / 50) := by
  unfold bandX JSNum.ofNat
  rw [JSNum.fin_sub_fin, JSNum.fin_mul_fin, JSNum.fin_div_fin _ _ (by norm_num), JSNum.fin_add_fin]

theorem regression_xMean_sxx (root : ℚ → ℚ) (pts : List (ℚ × ℚ)) (h : XNotAllEqual pts) :
    (calculateLinearRegression root (pts.map Point.ofRat)).xMean =
      JSNum.fin (sumX pts / pts.length) ∧
    (calculateLinearRegression root (pts.map Point.ofRat)).sxx =
      JSNum.fin (sumX2 pts - sumX pts ^ 2 / pts.length) := by
  have hn := length_ne_zero_of_xNotAllEqual pts h
  have h1 : (calculateLinearRegression root (pts.map Point.ofRat)).xMean =
      (pts.map Point.ofRat).foldl (fun sum p => sum + p.x) (JSNum.fin 0)
        / JSNum.ofNat (pts.map Point.ofRat).length := rfl
  have h2 : (calculateLinearRegression root (pts.map Point.ofRat)).sxx =
      (pts.map Point.ofRat).foldl (fun sum p => sum + p.x * p.x) (JSNum.fin 0)
        - ((pts.map Point.ofRat).foldl (fun sum p => sum + p.x) (JSNum.fin 0)
          * (pts.map Point.ofRat).foldl (fun sum p => sum + p.x) (JSNum.fin 0))
          / JSNum.ofNat (pts.map Point.ofRat).length := rfl
  constructor
  · rw [h1, foldl_sumX, ofNat_length_map, JSNum.fin_div_fin _ _ hn]
  · rw [h2, foldl_sumX, foldl_sumX2, ofNat_length_map, JSNum.fin_mul_fin,
      JSNum.fin_div_fin _ _ hn, JSNum.fin_sub_fin, sq]

/-- Claim C12, in exact arithmetic.  The confidence band of `renderRegressionPlot` and of
`renderOverviewRegressionPlot` is evaluated at exactly 51 points
`x_i = xMin + (xMax - xMin)*i/50`, `i = 0..50`; at each `x_i` the upper and lower bounds are
`(slope*x_i + intercept)` plus and minus `1.96 * se * sqrt(1/n + (x_i - xMean)^2 / sxx)`, and
the plotted polygon is the 51 upper points in ascending `x` followed by the 51 lower points in
descending `x`.  On finite points whose `x` are not all equal, se = sqrt(SS_res/(n - 2)),
xMean = Sx/n and sxx = Sxx2 - Sx^2/n; on a non-empty list of finite points, `xMin` and `xMax`
are the least and the greatest observed `x`, `x_0 = xMin`, `x_50 = xMax` and the `x_i`
ascend.  (Exact arithmetic.) -/
theorem confidenceInterval_points :
    (∀ (root : ℚ → ℚ) (dataPoints : List Point),
      (confidenceInterval root dataPoints).length = 102 ∧
      (∀ i, i ≤ 50 → (confidenceInterval root dataPoints)[i]? =
        some (bandUpper root (calculateLinearRegression root dataPoints)
          (bandX (Math_min (dataPoints.map (fun p => p.x)))
            (Math_max (dataPoints.map (fun p => p.x))) i))) ∧
      (∀ i, i ≤ 50 → (confidenceInterval root dataPoints)[51 + i]? =
        some (bandLower root (calculateLinearRegression root dataPoints)
          (bandX (Math_min (dataPoints.map (fun p => p.x)))
            (Math_max (dataPoints.map (fun p => p.x))) (50 - i))))) ∧
    (∀ (root : ℚ → ℚ) (pts : List (ℚ × ℚ)), XNotAllEqual pts →
      (calculateLinearRegression root (pts.map Point.ofRat)).se =
        JSNum.Math_sqrt root (JSNum.fin (ssResidual pts) / JSNum.fin ((pts.length : ℚ) - 2)) ∧
      (calculateLinearRegression root (pts.map Point.ofRat)).xMean =
        JSNum.fin (sumX pts / pts.length) ∧
      (calculateLinearRegression root (pts.map Point.ofRat)).sxx =
        JSNum.fin (sumX2 pts - sumX pts ^ 2 / pts.length) ∧
      (calculateLinearRegression root (pts.map Point.ofRat)).n = pts.length) ∧
    (∀ pts : List (ℚ × ℚ), pts ≠ [] →
      ∃ m M, Math_min ((pts.map Point.ofRat).map (fun p => p.x)) = JSNum.fin m ∧
        Math_max ((pts.map Point.ofRat).map (fun p => p.x)) = JSNum.fin M ∧
        (∃ p ∈ pts, p.1 = m) ∧ (∃ p ∈ pts, p.1 = M) ∧
        (∀ p ∈ pts, m ≤ p.1 ∧ p.1 ≤ M) ∧
        (∀ i : Nat, bandX (JSNum.fin m) (JSNum.fin M) i = JSNum.fin (m + (M - m) * i / 50)) ∧
        bandX (JSNum.fin m) (JSNum.fin M) 0 = JSNum.fin m ∧
        bandX (JSNum.fin m) (JSNum.fin M) 50 = JSNum.fin M ∧
        (∀ i j : Nat, i ≤ j → m + (M - m) * i / 50 ≤ m + (M - m) * j / 50)) := by
  refine ⟨?_, ?_, ?_⟩
  · intro root dataPoints
    have harr : confidenceInterval root dataPoints =
        (List.range 51).map (fun i => bandUpper root (calculateLinearRegression root dataPoints)
          (bandX (Math_min (dataPoints.map (fun p => p.x)))
            (Math_max (dataPoints.map (fun p => p.x))) i))
        ++ ((List.range 51).map (fun i => bandLower root (calculateLinearRegression root dataPoints)
          (bandX (Math_min (dataPoints.map (fun p => p.x)))
            (Math_max (dataPoints.map (fun p => p.x))) i))).reverse := by
      unfold confidenceInterval
      simp only [confidenceArrays_eq]
    refine ⟨?_, ?_, ?_⟩
    · rw [harr]; simp
    · intro i hi
      rw [harr, List.getElem?_append_left (by simp; omega), List.getElem?_map,
        List.getElem?_range (by omega)]
      rfl
    · intro i hi
      rw [harr, List.getElem?_append_right (by simp), List.getElem?_reverse (by simp; omega),
        List.getElem?_map]
      simp only [List.length_map, List.length_range]
      have : 51 - 1 - (51 + i - 51) = 50 - i := by omega
      rw [this, List.getElem?_range (by omega)]
      rfl
  · intro root pts hx
    exact ⟨(regression_sums_of_squares root pts hx).2, (regression_xMean_sxx root pts hx).1,
      (regression_xMean_sxx root pts hx).2, by
        show (pts.map Point.ofRat).length = pts.length
        simp⟩
  · intro pts hne
    have hmap : (pts.map Point.ofRat).map (fun p => p.x) = (pts.map Prod.fst).map JSNum.fin := by
      simp [List.map_map, Function.comp_def, Point.ofRat]
    obtain ⟨m, M, hm, hM, hmem, hMem, hle, hge⟩ :=
      Math_min_max_fin (pts.map Prod.fst) (by simpa using hne)
    obtain ⟨p, hp, rfl⟩ := List.mem_map.1 hmem
    obtain ⟨q, hq, rfl⟩ := List.mem_map.1 hMem
    have hmM : p.1 ≤ q.1 := hle q.1 (List.mem_map_of_mem _ hq)
    refine ⟨p.1, q.1, by rw [hmap, hm], by rw [hmap, hM], ⟨p, hp, rfl⟩, ⟨q, hq, rfl⟩, ?_,
      fun i => bandX_fin _ _ i, ?_, ?_, ?_⟩
    · intro r hr
      exact ⟨hle r.1 (List.mem_map_of_mem _ hr), hge r.1 (List.mem_map_of_mem _ hr)⟩
    · rw [bandX_fin]; congr 1; simp
    · rw [bandX_fin]; congr 1; push_cast; ring
    · intro i j hij
      have hij2 : (i : ℚ) ≤ j := by exact_mod_cast hij
      have : (q.1 - p.1) * i / 50 ≤ (q.1 - p.1) * j / 50 := by
        apply div_le_div_of_nonneg_right _ (by norm_num)
        exact mul_le_mul_of_nonneg_left hij2 (by linarith)
      linarith

/-- Witness of C12: for the points (0,1), (1,3), (3,4) the band is centred at xMean = 4/3 with
sxx = 14/3, and the polygon has 102 points. -/
theorem confidenceInterval_points_witness :
    XNotAllEqual [(0, 1), (1, 3), (3, 4)] ∧
    (calculateLinearRegression (fun q => q) ([(0, 1), (1, 3), (3, 4)].map Point.ofRat)).xMean =
      JSNum.fin (4 / 3) ∧
    (calculateLinearRegression (fun q => q) ([(0, 1), (1, 3), (3, 4)].map Point.ofRat)).sxx =
      JSNum.fin (14 / 3) ∧
    (confidenceInterval (fun q => q) ([(0, 1), (1, 3), (3, 4)].map Point.ofRat)).length = 102 := by
  have hx : XNotAllEqual [(0, 1), (1, 3), (3, 4)] :=
    ⟨(0, 1), by simp, (1, 3), by simp, by norm_num⟩
  obtain ⟨_, h2, h3, _⟩ := confidenceInterval_points.2.1 (fun q => q) [(0, 1), (1, 3), (3, 4)] hx
  refine ⟨hx, ?_, ?_, (confidenceInterval_points.1 (fun q => q) _).1⟩
  · rw [h2]; norm_num [sumX]
  · rw [h3]; norm_num [sumX, sumX2]

/-! ## The callers of calculateLinearRegression -/

/-- Claim C13, as the code has it.  `renderRegressionPlot` (simulation.js) calls
`calculateLinearRegression` only with a non-empty list: it returns before the call when there
is no data point, so the divisor `n` of its call is never zero.  For a list of `n` points the
divisor `n - 2` of the standard error is positive exactly when `n >= 3`, which the caller does
not check. -/
theorem renderRegressionPlot_passes_nonempty :
    (∀ (clones : List PlotClone) (sequencingData : List SeqSample) (pts : List Point),
      renderRegressionPlotPoints clones sequencingData = some pts →
      1 ≤ pts.length ∧ JSNum.ofNat pts.length ≠ JSNum.fin 0 ∧
      pts = extractDataPoints clones sequencingData) ∧
    (∀ n : Nat, (0 : ℚ) < (n : ℚ) - 2 ↔ 3 ≤ n) := by
  constructor
  · intro clones sequencingData pts h
    unfold renderRegressionPlotPoints at h
    simp only at h
    split at h
    · cases h
    · next hlen =>
      simp only [Option.some.injEq] at h
      subst h
      refine ⟨Nat.pos_of_ne_zero hlen, ?_, rfl⟩
      intro e
      unfold JSNum.ofNat at e
      simp only [JSNum.fin.injEq, Nat.cast_eq_zero] at e
      exact hlen e
  · intro n
    constructor
    · intro h
      have : (2 : ℚ) < n := by linarith
      have : 2 < n := by exact_mod_cast this
      omega
    · intro h
      have : (3 : ℚ) ≤ n := by exact_mod_cast h
      linarith

/-- Witness of C13: one clone and one sample give a call with one point. -/
theorem renderRegressionPlot_passes_nonempty_witness :
    renderRegressionPlotPoints [{ id := 1, fitness := JSNum.fin 1, tmb := JSNum.fin 7 }]
      [{ mrca := 1 }] = some [{ x := JSNum.fin 1, y := JSNum.fin 7 }] ∧
    1 ≤ [({ x := JSNum.fin 1, y := JSNum.fin 7 } : Point)].length :=
  ⟨by decide!,
    (renderRegressionPlot_passes_nonempty.1 [{ id := 1, fitness := JSNum.fin 1, tmb := JSNum.fin 7 }]
      [{ mrca := 1 }] _ (by decide!)).1⟩

/-- Counterexample to C13 as stated: with one clone and one sequencing sample
`renderRegressionPlot` calls `calculateLinearRegression` with a single point (the divisor
`n - 2` is -1), and `renderOverviewRegressionPlot` with one visible simulation without samples
calls it with no point at all (the divisor `n` is 0). -/
theorem callers_pass_fewer_than_three :
    renderRegressionPlotPoints [{ id := 1, fitness := JSNum.fin 1, tmb := JSNum.fin 7 }]
      [{ mrca := 1 }] = some [{ x := JSNum.fin 1, y := JSNum.fin 7 }] ∧
    renderOverviewRegressionPlotPoints [{ id := "c_1", clones := [], seqData := [] }]
      (fun _ => true) = some [] ∧
    ¬ CallersPassAtLeast 3 := by
  have h1 : renderRegressionPlotPoints [{ id := 1, fitness := JSNum.fin 1, tmb := JSNum.fin 7 }]
      [{ mrca := 1 }] = some [{ x := JSNum.fin 1, y := JSNum.fin 7 }] := by decide!
  refine ⟨h1, rfl, ?_⟩
  intro h
  have := h.1 _ _ _ h1
  simp at this

/-! ## buildTreeStructure -/

theorem cloneMapGet_foldl_of_not_mem (l : List Clone) (id : Int) (init : Option Clone)
    (h : ∀ c ∈ l, c.id ≠ id) :
    l.foldl (fun found clone => if clone.id = id then some clone else found) init = init := by
  induction l generalizing init with
  | nil => rfl
  | cons x xs ih =>
    simp only [List.foldl_cons, h x (List.mem_cons_self _ _), if_false]
    exact ih init (fun c hc => h c (List.mem_cons_of_mem _ hc))

theorem cloneMapGet_foldl_of_mem (l : List Clone) (c : Clone) (init : Option Clone)
    (hnd : (l.map (fun clone => clone.id)).Nodup) (hc : c ∈ l) :
    l.foldl (fun found clone => if clone.id = c.id then some clone else found) init = some c := by
  induction l generalizing init with
  | nil => cases hc
  | cons x xs ih =>
    simp only [List.map_cons, List.nodup_cons, List.mem_map, not_exists, not_and] at hnd
    simp only [List.foldl_cons]
    rcases List.mem_cons.1 hc with rfl | hc
    · simp only [if_true]
      exact cloneMapGet_foldl_of_not_mem xs c.id _ (fun d hd e => hnd.1 d hd e)
    · exact ih _ hnd.2 hc

theorem cloneMapGet_of_mem (clones : List Clone) (c : Clone)
    (hnd : (clones.map (fun clone => clone.id)).Nodup) (hc : c ∈ clones) :
    cloneMapGet clones c.id = some c :=
  cloneMapGet_foldl_of_mem clones c none hnd hc

theorem cloneMapGet_foldl_mem (l : List Clone) (id : Int) (init : Option Clone) (c : Clone)
    (h : l.foldl (fun found clone => if clone.id = id then some clone else found) init = some c) :
    c ∈ l ∨ init = some c := by
  induction l generalizing init with
  | nil => exact Or.inr h
  | cons x xs ih =>
    simp only [List.foldl_cons] at h
    rcases ih _ h with h1 | h1
    · exact Or.inl (List.mem_cons_of_mem _ h1)
    · by_cases hx : x.id = id
      · simp only [hx, if_true, Option.some.injEq] at h1
        subst h1
        exact Or.inl (List.mem_cons_self _ _)
      · simp only [hx, if_false] at h1
        exact Or.inr h1

theorem cloneMapGet_mem (clones : List Clone) (id : Int) (c : Clone)
    (h : cloneMapGet clones id = some c) : c ∈ clones := by
  rcases cloneMapGet_foldl_mem clones id none c h with h1 | h1
  · exact h1
  · cases h1

theorem buildTreeStructure_root_foldl (clones l : List Clone)
    (hnd : (clones.map (fun clone => clone.id)).Nodup) (hl : ∀ c ∈ l, c ∈ clones)
    (init : Option Clone) (hinit : ∀ node, init = some node → node ∈ clones ∧ node.ancestor = none) :
    (∀ node, l.foldl
        (fun root clone => if clone.ancestor = none then cloneMapGet clones clone.id else root)
        init = some node → node ∈ clones ∧ node.ancestor = none) ∧
    (l.foldl
        (fun root clone => if clone.ancestor = none then cloneMapGet clones clone.id else root)
        init = none ↔ init = none ∧ ∀ c ∈ l, c.ancestor ≠ none) := by
  induction l generalizing init with
  | nil => simpa using hinit
  | cons x xs ih =>
    have hx := hl x (List.mem_cons_self _ _)
    have hxs : ∀ c ∈ xs, c ∈ clones := fun c hc => hl c (List.mem_cons_of_mem _ hc)
    simp only [List.foldl_cons]
    by_cases ha : x.ancestor = none
    · simp only [ha, if_true, cloneMapGet_of_mem clones x hnd hx]
      obtain ⟨h1, h2⟩ := ih hxs (some x) (by
        intro node hn
        simp only [Option.some.injEq] at hn
        subst hn
        exact ⟨hx, ha⟩)
      refine ⟨h1, ?_⟩
      rw [h2]
      constructor
      · rintro ⟨h, _⟩; cases h
      · rintro ⟨_, h⟩
        exact absurd ha (h x (List.mem_cons_self _ _))
    · simp only [ha, if_false]
      obtain ⟨h1, h2⟩ := ih hxs init hinit
      refine ⟨h1, ?_⟩
      rw [h2]
      constructor
      · rintro ⟨h, h3⟩
        refine ⟨h, ?_⟩
        intro c hc
        rcases List.mem_cons.1 hc with rfl | hc
        · exact ha
        · exact h3 c hc
      · rintro ⟨h, h3⟩
        exact ⟨h, fun c hc => h3 c (List.mem_cons_of_mem _ hc)⟩

theorem mem_treeChildIds (clones : List Clone) (parent id : Int)
    (h : id ∈ treeChildIds clones parent) : ∃ c ∈ clones, c.id = id := by
  unfold treeChildIds at h
  split at h
  · obtain ⟨c, hc, rfl⟩ := List.mem_map.1 h
    exact ⟨c, List.mem_of_mem_filter hc, rfl⟩
  · cases h

/-- Claim C14.  For every clone list with distinct ids, `buildTreeStructure` returns no tree
(null) if and only if no clone in the list has ancestor = null; otherwise the returned root is
a clone of the list with ancestor = null, every node of the returned tree is a clone of the
list, and its children are exactly the clones of the list whose ancestor is the node's id, in
list order. -/
theorem buildTreeStructure_spec (clones : List Clone)
    (hnd : (clones.map (fun clone => clone.id)).Nodup) :
    (buildTreeStructure clones = none ↔ ∀ c ∈ clones, c.ancestor ≠ none) ∧
    (∀ t, buildTreeStructure clones = some t →
      t.root ∈ clones ∧ t.root.ancestor = none ∧
      ∀ x, InTree t x →
        (∃ node ∈ clones, node.id = x) ∧
        t.children x =
          (clones.filter (fun c => decide (c.ancestor = some x))).map (fun c => c.id)) := by
  obtain ⟨h1, h2⟩ := buildTreeStructure_root_foldl clones clones hnd (fun _ h => h) none
    (fun _ h => by cases h)
  constructor
  · unfold buildTreeStructure
    cases hr : clones.foldl
        (fun root clone => if clone.ancestor = none then cloneMapGet clones clone.id else root)
        none with
    | none =>
      simp only [true_iff]
      exact ((h2.1 hr).2)
    | some node =>
      simp only [reduceCtorEq, false_iff]
      intro hall
      have := h2.2 ⟨rfl, hall⟩
      rw [hr] at this
      cases this
  · intro t ht
    unfold buildTreeStructure at ht
    cases hr : clones.foldl
        (fun root clone => if clone.ancestor = none then cloneMapGet clones clone.id else root)
        none with
    | none => simp [hr] at ht
    | some node =>
      simp only [hr, Option.some.injEq] at ht
      subst ht
      obtain ⟨hmem, hanc⟩ := h1 node hr
      refine ⟨hmem, hanc, ?_⟩
      intro x hx
      have hnode : ∃ c ∈ clones, c.id = x := by
        cases hx with
        | root => exact ⟨node, hmem, rfl⟩
        | child parent id _ hid => exact mem_treeChildIds clones parent x hid
      refine ⟨hnode, ?_⟩
      obtain ⟨c, hc, rfl⟩ := hnode
      show treeChildIds clones c.id = _
      unfold treeChildIds
      rw [cloneMapGet_of_mem clones c hnd hc]
      simp

/-- Witness of C14: in the example list the clone 1 is the root, and the children of the node 2
are the clones 3 and 4. -/
theorem buildTreeStructure_spec_witness :
    (lineageExample.map (fun clone => clone.id)).Nodup ∧
    ∃ t, buildTreeStructure lineageExample = some t ∧
      t.root = { id := 1, ancestor := none } ∧ t.children 1 = [2] ∧ t.children 2 = [3, 4] ∧
      (∀ x, InTree t x →
        t.children x =
          (lineageExample.filter (fun c => decide (c.ancestor = some x))).map (fun c => c.id)) := by
  have hnd : (lineageExample.map (fun clone => clone.id)).Nodup := by decide
  refine ⟨hnd, _, rfl, rfl, by decide, by decide, ?_⟩
  intro x hx
  exact (((buildTreeStructure_spec lineageExample hnd).2 _ rfl).2.2 x hx).2

/-! ## Termination of the ancestor walk -/

theorem cloneMapGet_some_mem_ids (clones : List Clone) (x : Int) (c : Clone)
    (h : cloneMapGet clones x = some c) :
    x ∈ (clones.map (fun clone => clone.id)).toFinset := by
  rw [List.mem_toFinset, List.mem_map]
  exact ⟨c, cloneMapGet_mem clones x c h, cloneMapGet_id clones x c h⟩

theorem not_stopsAt_iff (clones : List Clone) (m x : Int) :
    ¬ StopsAt clones m x ↔
      x ≠ m ∧ ∃ clone a, cloneMapGet clones x = some clone ∧ clone.ancestor = some a := by
  unfold StopsAt
  cases hg : cloneMapGet clones x with
  | none => simp
  | some clone =>
    cases ha : clone.ancestor with
    | none => simp [ha]
    | some a => simp [ha]

theorem ancestorIter_next (clones : List Clone) (k : Nat) (p x a : Int) (clone : Clone)
    (hk : ancestorIter clones k p = some x) (hg : cloneMapGet clones x = some clone)
    (ha : clone.ancestor = some a) : ancestorIter clones (k + 1) p = some a := by
  rw [ancestorIter_add, hk]
  exact (ancestorIter_one clones x a).2 ⟨clone, hg, ha⟩

/-- Without a cycle the walk from any id meets a stop within as many steps as there are
clones. -/
theorem exists_stop (clones : List Clone) (hacyc : NoCycle clones) (m p : Int) :
    ∃ k, k ≤ clones.length ∧ ∃ x, ancestorIter clones k p = some x ∧ StopsAt clones m x := by
  by_contra hno
  have hns : ∀ k, k ≤ clones.length → ∀ x, ancestorIter clones k p = some x →
      ¬ StopsAt clones m x := by
    intro k hk x hx hs
    exact hno ⟨k, hk, x, hx, hs⟩
  have hdef : ∀ k, k ≤ clones.length + 1 → ∃ x, ancestorIter clones k p = some x := by
    intro k
    induction k with
    | zero => intro _; exact ⟨p, rfl⟩
    | succ k ih =>
      intro hk
      obtain ⟨x, hx⟩ := ih (by omega)
      obtain ⟨_, clone, a, hg, ha⟩ := (not_stopsAt_iff clones m x).1 (hns k (by omega) x hx)
      exact ⟨a, ancestorIter_next clones k p x a clone hx hg ha⟩
  have hmaps : ∀ j ∈ Finset.range (clones.length + 1),
      (ancestorIter clones j p).getD 0 ∈ (clones.map (fun clone => clone.id)).toFinset := by
    intro j hj
    rw [Finset.mem_range] at hj
    obtain ⟨x, hx⟩ := hdef j (by omega)
    obtain ⟨_, clone, a, hg, _⟩ := (not_stopsAt_iff clones m x).1 (hns j (by omega) x hx)
    rw [hx]
    exact cloneMapGet_some_mem_ids clones x clone hg
  have hcard : ((clones.map (fun clone => clone.id)).toFinset).card
      < (Finset.range (clones.length + 1)).card := by
    rw [Finset.card_range]
    exact Nat.lt_succ_of_le (le_trans (List.toFinset_card_le _) (by simp))
  obtain ⟨i, hi, j, hj, hij, hfij⟩ := Finset.exists_ne_map_eq_of_card_lt_of_maps_to hcard hmaps
  rw [Finset.mem_range] at hi hj
  -- a repeated id on the walk closes a cycle
  have hcycle : ∀ i j, i < j → j ≤ clones.length →
      (ancestorIter clones i p).getD 0 = (ancestorIter clones j p).getD 0 → False := by
    intro i j hlt hj heq
    obtain ⟨x, hx⟩ := hdef i (by omega)
    obtain ⟨y, hy⟩ := hdef j (by omega)
    rw [hx, hy] at heq
    simp only [Option.getD_some] at heq
    subst heq
    have hadd := ancestorIter_add clones i (j - i) p
    rw [show i + (j - i) = j by omega, hx, hy] at hadd
    exact hacyc x (j - i) (by omega) hadd.symm
  rcases Nat.lt_or_gt_of_ne hij with h | h
  · exact hcycle i j h (by omega) hfij
  · exact hcycle j i h (by omega) hfij.symm

/-- The first stop of the walk from `p`. -/
theorem exists_first_stop (clones : List Clone) (hacyc : NoCycle clones) (m p : Int) :
    ∃ k x, k ≤ clones.length ∧ ancestorIter clones k p = some x ∧ StopsAt clones m x ∧
      ∀ j y, j < k → ancestorIter clones j p = some y → ¬ StopsAt clones m y := by
  classical
  have hex : ∃ k, ∃ x, ancestorIter clones k p = some x ∧ StopsAt clones m x := by
    obtain ⟨k, _, x, hx, hs⟩ := exists_stop clones hacyc m p
    exact ⟨k, x, hx, hs⟩
  obtain ⟨k0, hk0, x0, hx0, hs0⟩ := exists_stop clones hacyc m p
  obtain ⟨x, hx, hs⟩ := Nat.find_spec hex
  refine ⟨Nat.find hex, x, le_trans (Nat.find_min' hex ⟨x0, hx0, hs0⟩) hk0, hx, hs, ?_⟩
  intro j y hj hy hsy
  exact Nat.find_min hex hj ⟨y, hy, hsy⟩

/-- The walk from `c` runs to its first stop and adds the ids passed on the way. -/
theorem traceBack_walk (clones : List Clone) (m : Int) (k : Nat) (c x : Int) (rel : List Int)
    (hk : ancestorIter clones k c = some x) (hstop : StopsAt clones m x)
    (hmin : ∀ j y, j < k → ancestorIter clones j c = some y → ¬ StopsAt clones m y) :
    ∃ r, traceBack clones m (k + 1) c rel = some r ∧
      ∀ z, z ∈ r ↔ z ∈ rel ∨ ∃ i, 1 ≤ i ∧ i ≤ k ∧ ancestorIter clones i c = some z := by
  induction k generalizing c rel with
  | zero =>
    simp only [ancestorIter, Option.some.injEq] at hk
    subst hk
    refine ⟨rel, ?_, ?_⟩
    · rw [traceBack]
      rcases hstop with h | h | ⟨clone, hg, ha⟩
      · simp [h]
      · by_cases hc : c = m
        · simp [hc]
        · simp [hc, h]
      · by_cases hc : c = m
        · simp [hc]
        · simp [hc, hg, ha]
    · intro z
      constructor
      · exact Or.inl
      · rintro (h | ⟨i, h1, h2, _⟩)
        · exact h
        · omega
  | succ k ih =>
    obtain ⟨hc, clone, a, hg, ha⟩ := (not_stopsAt_iff clones m c).1 (hmin 0 c (Nat.succ_pos _) rfl)
    have hstep : ∀ j, ancestorIter clones (j + 1) c = ancestorIter clones j a :=
      fun j => ancestorIter_succ_of clones j c a clone hg ha
    obtain ⟨r, hr, hmem⟩ := ih a (setAdd rel a) (by rw [← hstep]; exact hk)
      (fun j y hj hy => hmin (j + 1) y (by omega) (by rw [hstep]; exact hy))
    refine ⟨r, ?_, ?_⟩
    · rw [traceBack]
      simp only [hc, if_false, hg, ha]
      exact hr
    · intro z
      rw [hmem, mem_setAdd]
      constructor
      · rintro ((h | rfl) | ⟨i, h1, h2, h3⟩)
        · exact Or.inl h
        · exact Or.inr ⟨1, le_refl _, by omega, by rw [hstep]; rfl⟩
        · exact Or.inr ⟨i + 1, by omega, by omega, by rw [hstep]; exact h3⟩
      · rintro (h | ⟨i, h1, h2, h3⟩)
        · exact Or.inl (Or.inl h)
        · obtain ⟨i2, rfl⟩ : ∃ i2, i = i2 + 1 := ⟨i - 1, by omega⟩
          rw [hstep] at h3
          cases i2 with
          | zero =>
            simp only [ancestorIter, Option.some.injEq] at h3
            exact Or.inl (Or.inr h3.symm)
          | succ i3 => exact Or.inr ⟨i3 + 1, by omega, by omega, h3⟩

theorem onWalk_iff (clones : List Clone) (m p : Int) (k : Nat) (x : Int)
    (hk : ancestorIter clones k p = some x) (hstop : StopsAt clones m x)
    (hmin : ∀ j y, j < k → ancestorIter clones j p = some y → ¬ StopsAt clones m y) (z : Int) :
    OnWalk clones m p z ↔ ∃ i, i ≤ k ∧ ancestorIter clones i p = some z := by
  constructor
  · rintro ⟨i, hi, hbefore⟩
    refine ⟨i, ?_, hi⟩
    by_contra hlt
    exact hbefore k x (by omega) hk hstop
  · rintro ⟨i, hi, hz⟩
    exact ⟨i, hz, fun j y hj hy => hmin j y (by omega) hy⟩

theorem traceAll_walks (clones : List Clone) (hacyc : NoCycle clones) (m : Int)
    (present : List Int) (rel : List Int) :
    ∃ r, (∀ fuel, clones.length + 1 ≤ fuel → traceAll clones m fuel present rel = some r) ∧
      ∀ z, z ∈ r ↔ z ∈ rel ∨ ∃ p ∈ present, OnWalk clones m p z := by
  induction present generalizing rel with
  | nil => exact ⟨rel, fun _ _ => rfl, fun z => by simp⟩
  | cons p ps ih =>
    obtain ⟨k, x, hkn, hk, hstop, hmin⟩ := exists_first_stop clones hacyc m p
    obtain ⟨r1, hr1, hmem1⟩ := traceBack_walk clones m k p x (setAdd rel p) hk hstop hmin
    obtain ⟨r, hr, hmem⟩ := ih r1
    refine ⟨r, ?_, ?_⟩
    · intro fuel hf
      rw [traceAll, traceBack_mono clones m (k + 1) p _ r1 hr1 fuel (by omega)]
      exact hr fuel hf
    · intro z
      rw [hmem, hmem1, mem_setAdd]
      simp only [List.mem_cons, exists_eq_or_imp, onWalk_iff clones m p k x hk hstop hmin]
      constructor
      · rintro (((h1 | rfl) | ⟨i, _, h2, h3⟩) | h4)
        · exact Or.inl h1
        · exact Or.inr (Or.inl ⟨0, Nat.zero_le _, rfl⟩)
        · exact Or.inr (Or.inl ⟨i, h2, h3⟩)
        · exact Or.inr (Or.inr h4)
      · rintro (h1 | ⟨i, h2, h3⟩ | h4)
        · exact Or.inl (Or.inl (Or.inl h1))
        · cases i with
          | zero =>
            simp only [ancestorIter, Option.some.injEq] at h3
            exact Or.inl (Or.inl (Or.inr h3.symm))
          | succ i => exact Or.inl (Or.inr ⟨i + 1, by omega, h2, h3⟩)
        · exact Or.inr h4

/-- Claim C16.  For every clone map whose ancestor relation has no cycle, every MRCA id and
every present id, the ancestor walk of `renderLineageTree` terminates, within as many steps
as there are clones: it stops at the first id that is the MRCA id, or whose clone has
ancestor = null, or that is missing from the clone map, and it has added the ids passed on
the way to the set.  A missing id raises no error and ends only that walk: the loop over all
present ids completes, and its set holds the MRCA id and every id visited by any walk. -/
theorem ancestorWalk_terminates (clones : List Clone) (hacyc : NoCycle clones) (mrcaId : Int) :
    (∀ (present : Int) (relevant : List Int),
      ∃ k x r, k ≤ clones.length ∧ ancestorIter clones k present = some x ∧
        StopsAt clones mrcaId x ∧
        (∀ j y, j < k → ancestorIter clones j present = some y → ¬ StopsAt clones mrcaId y) ∧
        (∀ fuel, clones.length + 1 ≤ fuel →
          traceBack clones mrcaId fuel present relevant = some r) ∧
        (∀ z, z ∈ r ↔
          z ∈ relevant ∨ ∃ i, 1 ≤ i ∧ i ≤ k ∧ ancestorIter clones i present = some z)) ∧
    (∀ presentCloneIds : List Int,
      ∃ r, (∀ fuel, clones.length + 1 ≤ fuel →
          relevantCloneIds clones presentCloneIds mrcaId fuel = some r) ∧
        ∀ z, z ∈ r ↔ z = mrcaId ∨ ∃ p ∈ presentCloneIds, OnWalk clones mrcaId p z) := by
  constructor
  · intro present relevant
    obtain ⟨k, x, hkn, hk, hstop, hmin⟩ := exists_first_stop clones hacyc mrcaId present
    obtain ⟨r, hr, hmem⟩ := traceBack_walk clones mrcaId k present x relevant hk hstop hmin
    exact ⟨k, x, r, hkn, hk, hstop, hmin,
      fun fuel hf => traceBack_mono clones mrcaId (k + 1) present relevant r hr fuel (by omega),
      hmem⟩
  · intro presentCloneIds
    obtain ⟨r, hr, hmem⟩ := traceAll_walks clones hacyc mrcaId presentCloneIds [mrcaId]
    refine ⟨r, hr, ?_⟩
    intro z
    rw [hmem, List.mem_singleton]

theorem noCycle_of_decreasing (clones : List Clone)
    (h : ∀ c ∈ clones, ∀ a, c.ancestor = some a → a < c.id) : NoCycle clones := by
  have key : ∀ k id y, ancestorIter clones (k + 1) id = some y → y < id := by
    intro k
    induction k with
    | zero =>
      intro id y hy
      obtain ⟨clone, hg, ha⟩ := (ancestorIter_one clones id y).1 hy
      have := h clone (cloneMapGet_mem clones id clone hg) y ha
      rwa [cloneMapGet_id clones id clone hg] at this
    | succ k ih =>
      intro id y hy
      obtain ⟨clone, a, hg, ha, hrest⟩ := (ancestorIter_succ clones (k + 1) id y).1 hy
      have h1 := h clone (cloneMapGet_mem clones id clone hg) a ha
      rw [cloneMapGet_id clones id clone hg] at h1
      exact lt_trans (ih a y hrest) h1
  intro id k hk hcyc
  obtain ⟨k2, rfl⟩ : ∃ k2, k = k2 + 1 := ⟨k - 1, by omega⟩
  exact lt_irrefl _ (key k2 id id hcyc)

/-- Witness of C16: the clone 5 declares the ancestor 0, which is missing; the walk from 5 adds
5 and 0 and ends there, and the walk from 4 in the example list still reaches the MRCA 1. -/
theorem ancestorWalk_terminates_witness :
    NoCycle ({ id := 5, ancestor := some 0 } :: lineageExample) ∧
    relevantCloneIds ({ id := 5, ancestor := some 0 } :: lineageExample) [5, 4] 1 6 =
      some [1, 5, 0, 4, 2] ∧
    ∃ r, (∀ fuel, ({ id := 5, ancestor := some 0 } :: lineageExample).length + 1 ≤ fuel →
        relevantCloneIds ({ id := 5, ancestor := some 0 } :: lineageExample) [5, 4] 1 fuel
          = some r) ∧
      ∀ z, z ∈ r ↔ z = 1 ∨
        ∃ p ∈ [5, 4], OnWalk ({ id := 5, ancestor := some 0 } :: lineageExample) 1 p z := by
  have hacyc : NoCycle ({ id := 5, ancestor := some 0 } :: lineageExample) := by
    apply noCycle_of_decreasing
    decide
  exact ⟨hacyc, by decide, (ancestorWalk_terminates _ hacyc 1).2 [5, 4]⟩

/-! ## Minimality of the induced sub-tree -/

theorem onWalk_prefix (clones : List Clone) (m p x : Int) (i : Nat)
    (hx : ancestorIter clones (i + 1) p = some x)
    (hbefore : ∀ j y, j < i + 1 → ancestorIter clones j p = some y → ¬ StopsAt clones m y) :
    ∃ y clone, OnWalk clones m p y ∧ y ≠ m ∧ cloneMapGet clones y = some clone ∧
      clone.ancestor = some x := by
  obtain ⟨y, hy⟩ := ancestorIter_isSome_of_le clones (i + 1) i p x hx (Nat.le_succ _)
  have hstep : ancestorIter clones 1 y = some x := by
    have := ancestorIter_add clones i 1 p
    rw [hx, hy] at this
    exact this.symm
  obtain ⟨clone, hg, ha⟩ := (ancestorIter_one clones y x).1 hstep
  have hns := hbefore i y (Nat.lt_succ_self _) hy
  refine ⟨y, clone, ⟨i, hy, fun j z hj hz => hbefore j z (by omega) hz⟩, ?_, hg, ha⟩
  intro e
  exact hns (Or.inl e)

theorem inTree_relevant (clones : List Clone) (relevant : List Int) (m : Int) (cm : Clone)
    (hm : cloneMapGet clones m = some cm) (hrel : m ∈ relevant) (x : Int)
    (h : InTree { root := cm, children := childIds clones relevant m } x) :
    x ∈ relevant ∧ (cloneMapGet clones x).isSome := by
  have hcm : cm.id = m := cloneMapGet_id clones m cm hm
  induction h with
  | root =>
    show cm.id ∈ relevant ∧ _
    rw [hcm, hm]
    exact ⟨hrel, rfl⟩
  | child parent id _ hid _ =>
    obtain ⟨_, _, h3, _, clone, hg, _⟩ := (mem_childIds _ _ _ _ _).1 hid
    exact ⟨h3, by rw [hg]; rfl⟩

/-- Claim C15.  For every clone list whose ancestor relation has no cycle, every MRCA id `m`
that has a clone in the list and every list `P` of present ids, the tree returned for
`(m, P)` exists, is rooted at `m`, and every leaf of it (a node without children) is `m`
itself or an id of `P`; every node other than `m` is an id of `P` or an ancestor of one, so an
intermediate clone with no descendant in `P` never appears in the tree. -/
theorem lineageTree_leaves (clones : List Clone) (hacyc : NoCycle clones)
    (presentCloneIds : List Int) (mrcaId : Int) (hm : (cloneMapGet clones mrcaId).isSome) :
    ∃ t, (∀ fuel, clones.length + 1 ≤ fuel →
        lineageTree clones presentCloneIds mrcaId fuel = some t) ∧
      t.root.id = mrcaId ∧
      (∀ x, InTree t x → t.children x = [] → x = mrcaId ∨ x ∈ presentCloneIds) ∧
      (∀ x, InTree t x →
        x = mrcaId ∨ ∃ p ∈ presentCloneIds, ∃ i, ancestorIter clones i p = some x) := by
  obtain ⟨cm, hcm⟩ := Option.isSome_iff_exists.1 hm
  obtain ⟨r, hr, hmem⟩ := traceAll_walks clones hacyc mrcaId presentCloneIds [mrcaId]
  have hmr : mrcaId ∈ r := (hmem mrcaId).2 (Or.inl (List.mem_singleton.2 rfl))
  refine ⟨{ root := cm, children := childIds clones r mrcaId }, ?_,
    cloneMapGet_id clones mrcaId cm hcm, ?_, ?_⟩
  · intro fuel hf
    unfold lineageTree relevantCloneIds
    rw [hr fuel hf]
    unfold buildFilteredTree
    simp only [hmr, if_true, hcm]
  · intro x hx hleaf
    obtain ⟨hxr, hxc⟩ := inTree_relevant clones r mrcaId cm hcm hmr x hx
    rcases (hmem x).1 hxr with h | ⟨p, hp, i, hi, hbefore⟩
    · exact Or.inl (List.mem_singleton.1 h)
    · cases i with
      | zero =>
        simp only [ancestorIter, Option.some.injEq] at hi
        subst hi
        exact Or.inr hp
      | succ i =>
        exfalso
        obtain ⟨y, clone, hwalk, hym, hg, ha⟩ := onWalk_prefix clones mrcaId p x i hi hbefore
        have hyr : y ∈ r := (hmem y).2 (Or.inr ⟨p, hp, hwalk⟩)
        have hchild : y ∈ childIds clones r mrcaId x :=
          (mem_childIds _ _ _ _ _).2 ⟨hxr, hxc, hyr, hym, clone, hg, ha⟩
        have hleaf2 : childIds clones r mrcaId x = [] := hleaf
        rw [hleaf2] at hchild
        cases hchild
  · intro x hx
    obtain ⟨hxr, _⟩ := inTree_relevant clones r mrcaId cm hcm hmr x hx
    rcases (hmem x).1 hxr with h | ⟨p, hp, i, hi, _⟩
    · exact Or.inl (List.mem_singleton.1 h)
    · exact Or.inr ⟨p, hp, i, hi⟩

/-- Witness of C15: in the example list with the MRCA 1 and the present id 4 the tree exists,
and its leaves are among 1 and 4. -/
theorem lineageTree_leaves_witness :
    NoCycle lineageExample ∧ (cloneMapGet lineageExample 1).isSome ∧
    ∃ t, (∀ fuel, lineageExample.length + 1 ≤ fuel →
        lineageTree lineageExample [4] 1 fuel = some t) ∧
      t.root.id = 1 ∧
      (∀ x, InTree t x → t.children x = [] → x = 1 ∨ x ∈ [4]) ∧
      (∀ x, InTree t x → x = 1 ∨ ∃ p ∈ [4], ∃ i, ancestorIter lineageExample i p = some x) := by
  have hacyc : NoCycle lineageExample := by
    apply noCycle_of_decreasing
    decide
  exact ⟨hacyc, by decide, lineageTree_leaves lineageExample hacyc [4] 1 (by decide)⟩

/-! ## parseResumeData: the number of records and their field set -/

theorem dropWhile_append_of_all {α : Type} (p : α → Bool) (l1 l2 : List α)
    (h : ∀ c ∈ l1, p c = true) : (l1 ++ l2).dropWhile p = l2.dropWhile p := by
  induction l1 with
  | nil => rfl
  | cons c cs ih =>
    have hc := h c (List.mem_cons_self _ _)
    simp only [List.cons_append, List.dropWhile_cons, hc, if_true]
    exact ih (fun d hd => h d (List.mem_cons_of_mem _ hd))

/-- White space appended to a text is removed by `trim`. -/
theorem trimChars_append_blank (cs ws : List Char) (h : ∀ c ∈ ws, isJSWhiteSpace c = true) :
    trimChars (cs ++ ws) = trimChars cs := by
  induction cs with
  | nil =>
    have h1 := dropWhile_append_of_all isJSWhiteSpace ws [] h
    simp only [List.append_nil] at h1
    simp [trimChars, h1]
  | cons c cs ih =>
    by_cases hc : isJSWhiteSpace c = true
    · have e1 : trimChars (c :: cs ++ ws) = trimChars (cs ++ ws) := by
        simp [trimChars, List.dropWhile_cons, hc]
      have e2 : trimChars (c :: cs) = trimChars cs := by
        simp [trimChars, List.dropWhile_cons, hc]
      rw [e1, e2, ih]
    · have e1 : (c :: cs ++ ws).dropWhile isJSWhiteSpace = (c :: cs) ++ ws := by
        simp [List.dropWhile_cons, hc]
      have e2 : (c :: cs).dropWhile isJSWhiteSpace = c :: cs := by
        simp [List.dropWhile_cons, hc]
      unfold trimChars
      rw [e1, e2, List.reverse_append,
        dropWhile_append_of_all isJSWhiteSpace ws.reverse _
          (fun d hd => h d (List.mem_reverse.1 hd))]

theorem jsTrim_append_blank (tsvText blank : String) (h : IsBlank blank) :
    jsTrim (tsvText ++ blank) = jsTrim tsvText := by
  unfold jsTrim
  rw [String.data_append, trimChars_append_blank _ _ h]

/-- The number of pieces of `split` is the number of separators plus one. -/
theorem length_splitChars (sep : Char) (cs : List Char) :
    (splitChars sep cs).length = cs.count sep + 1 := by
  induction cs with
  | nil => rfl
  | cons c cs ih =>
    by_cases hc : c = sep
    · subst hc
      simp [splitChars, ih]
    · have hne : (c == sep) = false := by simpa using hc
      rw [splitChars, if_neg hc, List.count_cons, hne]
      cases hs : splitChars sep cs with
      | nil => rw [hs] at ih; simp at ih
      | cons w ws => rw [hs] at ih; simpa using ih

theorem parseResumeData_length (tsvText : String) :
    (parseResumeData tsvText).length = (linesOf tsvText).length - 1 := by
  simp [parseResumeData, linesOf]

/-- Claim C21.  For every TSV text, `parseResumeData` returns exactly L - 1 records, where L
is the number of lines of the trimmed text (the number of its line feeds plus one), and the
record at position `k` is the one built from line `k + 1`; white space appended at the end of
the text (any number of empty or whitespace-only lines) changes nothing in the result. -/
theorem parseResumeData_record_count (tsvText : String) :
    (linesOf tsvText).length = (jsTrim tsvText).data.count LF + 1 ∧
    (parseResumeData tsvText).length = (linesOf tsvText).length - 1 ∧
    (∀ k line, (linesOf tsvText)[k + 1]? = some line →
      (parseResumeData tsvText)[k]? =
        some (parseRow (headersOf tsvText) (jsSplit TAB line))) ∧
    (∀ blank : String, IsBlank blank →
      parseResumeData (tsvText ++ blank) = parseResumeData tsvText) := by
  refine ⟨?_, parseResumeData_length tsvText, fun k line h => parseResumeData_getElem? tsvText k line h,
    ?_⟩
  · simp [linesOf, jsSplit, length_splitChars]
  · intro blank hb
    unfold parseResumeData
    rw [jsTrim_append_blank tsvText blank hb]

/-- Witness of C21: a header line and two data lines, followed by an empty line and a line of
two spaces, give two records. -/
theorem parseResumeData_record_count_witness :
    IsBlank "\n\n  \n" ∧
    (linesOf "a\n1\n2")[1 + 1]? = some "2" ∧
    (parseResumeData "a\n1\n2\n\n  \n").length = 2 ∧
    (parseResumeData "a\n1\n2")[1]? = some (parseRow (headersOf "a\n1\n2") (jsSplit TAB "2")) ∧
    parseResumeData ("a\n1\n2" ++ "\n\n  \n") = parseResumeData "a\n1\n2" := by
  have hb : IsBlank "\n\n  \n" := by
    intro c hc
    have hc2 : c ∈ [Char.ofNat 10, Char.ofNat 10, Char.ofNat 32, Char.ofNat 32, Char.ofNat 10] := hc
    simp only [List.mem_cons, List.mem_singleton, List.not_mem_nil, or_false] at hc2
    rcases hc2 with rfl | rfl | rfl | rfl | rfl <;> decide
  have hl : (linesOf "a\n1\n2")[1 + 1]? = some "2" := by decide
  have h := parseResumeData_record_count "a\n1\n2"
  refine ⟨hb, hl, ?_, h.2.2.1 1 "2" hl, h.2.2.2 "\n\n  \n" hb⟩
  have e : parseResumeData "a\n1\n2\n\n  \n" = parseResumeData ("a\n1\n2" ++ "\n\n  \n") := rfl
  rw [e, h.2.2.2 "\n\n  \n" hb, h.2.1]
  decide

theorem Obj.mem_keys_set {α : Type} (o : Obj α) (k : String) (v : α) (name : String) :
    name ∈ Obj.keys (Obj.set o k v) ↔ name ∈ Obj.keys o ∨ name = k := by
  induction o with
  | nil => simp [Obj.set, Obj.keys]
  | cons kv rest ih =>
    obtain ⟨a, w⟩ := kv
    by_cases h : a = k
    · subst h
      simp only [Obj.set, if_true, Obj.keys, List.map_cons, List.mem_cons]
      tauto
    · have ih2 : name ∈ List.map Prod.fst (Obj.set rest k v) ↔
          name ∈ List.map Prod.fst rest ∨ name = k := ih
      simp only [Obj.set, if_neg h, Obj.keys, List.map_cons, List.mem_cons, ih2]
      tauto

theorem Obj.mem_keys_foldl_set {α β : Type} (l : List β) (key : β → String) (val : β → α)
    (o : Obj α) (name : String) :
    name ∈ Obj.keys (l.foldl (fun row b => Obj.set row (key b) (val b)) o) ↔
      name ∈ Obj.keys o ∨ ∃ b ∈ l, name = key b := by
  induction l generalizing o with
  | nil => simp
  | cons x xs ih =>
    simp only [List.foldl_cons, ih, Obj.mem_keys_set, List.mem_cons, exists_eq_or_imp]
    tauto

theorem Obj.nodup_keys_set {α : Type} (o : Obj α) (k : String) (v : α)
    (h : (Obj.keys o).Nodup) : (Obj.keys (Obj.set o k v)).Nodup := by
  induction o with
  | nil => simp [Obj.set, Obj.keys]
  | cons kv rest ih =>
    obtain ⟨a, w⟩ := kv
    have h2 : a ∉ Obj.keys rest ∧ (Obj.keys rest).Nodup := by
      simpa [Obj.keys] using h
    by_cases hk : a = k
    · subst hk
      simpa [Obj.set, Obj.keys] using h
    · have hmem := Obj.mem_keys_set rest k v a
      have hnd : (Obj.keys (Obj.set rest k v)).Nodup := ih h2.2
      have : a ∉ Obj.keys (Obj.set rest k v) := by
        rw [hmem]; push_neg; exact ⟨h2.1, hk⟩
      simp only [Obj.set, if_neg hk, Obj.keys, List.map_cons, List.nodup_cons]
      exact ⟨this, hnd⟩

theorem Obj.nodup_keys_foldl_set {α β : Type} (l : List β) (key : β → String) (val : β → α)
    (o : Obj α) (h : (Obj.keys o).Nodup) :
    (Obj.keys (l.foldl (fun row b => Obj.set row (key b) (val b)) o)).Nodup := by
  induction l generalizing o with
  | nil => exact h
  | cons x xs ih =>
    simp only [List.foldl_cons]
    exact ih _ (Obj.nodup_keys_set o _ _ h)

/-- The fields of a row are the header names other than `__proto__`, whatever the values of
the line are. -/
theorem mem_keys_parseRow (headers values : List String) (name : String) :
    name ∈ Obj.keys (parseRow headers values) ↔ name ∈ headers ∧ name ≠ "__proto__" := by
  rw [parseRow_eq]
  refine (Obj.mem_keys_foldl_set _ (fun kv : String × Value => kv.1)
    (fun kv : String × Value => kv.2) [] name).trans ?_
  constructor
  · rintro (h | ⟨b, hb, rfl⟩)
    · simp [Obj.keys] at h
    · obtain ⟨hb1, hb2⟩ := List.mem_filter.1 hb
      obtain ⟨ih, hih, rfl⟩ := List.mem_map.1 hb1
      exact ⟨List.snd_mem_of_mem_enum hih, by simpa using hb2⟩
  · rintro ⟨h, hne⟩
    obtain ⟨i, hi⟩ := List.mem_iff_getElem?.1 h
    refine Or.inr ⟨(name, coerceField name (valueAt values i)), ?_, rfl⟩
    rw [List.mem_filter]
    refine ⟨List.mem_map.2 ⟨(i, name), List.mk_mem_enum_iff_getElem?.2 hi, rfl⟩, ?_⟩
    simpa using hne

theorem mem_parseResumeData (tsvText : String) (row : Record) (h : row ∈ parseResumeData tsvText) :
    ∃ line ∈ (linesOf tsvText).drop 1, row = parseRow (headersOf tsvText) (jsSplit TAB line) := by
  unfold parseResumeData at h
  obtain ⟨line, hl, rfl⟩ := List.mem_map.1 h
  exact ⟨line, hl, rfl⟩

theorem nodup_keys_parseRow (headers values : List String) :
    (Obj.keys (parseRow headers values)).Nodup := by
  rw [parseRow_eq]
  exact Obj.nodup_keys_foldl_set _ (fun kv : String × Value => kv.1)
    (fun kv : String × Value => kv.2) [] (by simp [Obj.keys])

/-- Claim C22, as the code has it.  For every TSV text, every record returned by
`parseResumeData` has exactly the header names of the first line other than `__proto__` as
its fields, each once; this holds for the row built from any list of values, shorter or
longer than the header line. -/
theorem parseResumeData_field_set (tsvText : String) :
    (∀ row ∈ parseResumeData tsvText,
      (∀ name, name ∈ Obj.keys row ↔ name ∈ headersOf tsvText ∧ name ≠ "__proto__") ∧
        (Obj.keys row).Nodup) ∧
    (∀ values : List String,
      (∀ name, name ∈ Obj.keys (parseRow (headersOf tsvText) values) ↔
        name ∈ headersOf tsvText ∧ name ≠ "__proto__") ∧
      (Obj.keys (parseRow (headersOf tsvText) values)).Nodup) := by
  constructor
  · intro row hrow
    obtain ⟨line, _, rfl⟩ := mem_parseResumeData tsvText row hrow
    exact ⟨fun name => mem_keys_parseRow _ _ name, nodup_keys_parseRow _ _⟩
  · intro values
    exact ⟨fun name => mem_keys_parseRow _ _ name, nodup_keys_parseRow _ _⟩

/-- Witness of C22: under the header `a<TAB>b` the line `1` (one value) and the line
`1<TAB>2<TAB>3` (three values) both give a record with the fields `a` and `b`. -/
theorem parseResumeData_field_set_witness :
    parseResumeData "a\tb\n1\n1\t2\t3" =
      [[("a", Value.num (parseFloat (Value.str "1"))), ("b", Value.num JSNum.nan)],
       [("a", Value.num (parseFloat (Value.str "1"))),
        ("b", Value.num (parseFloat (Value.str "2")))]] ∧
    (∀ name, name ∈ Obj.keys [("a", Value.num (parseFloat (Value.str "1"))),
        ("b", Value.num JSNum.nan)] ↔
      name ∈ headersOf "a\tb\n1\n1\t2\t3" ∧ name ≠ "__proto__") ∧
    (∀ name, name ∈ Obj.keys [("a", Value.num (parseFloat (Value.str "1"))),
        ("b", Value.num (parseFloat (Value.str "2")))] ↔
      name ∈ headersOf "a\tb\n1\n1\t2\t3" ∧ name ≠ "__proto__") := by
  have hp : parseResumeData "a\tb\n1\n1\t2\t3" =
      [[("a", Value.num (parseFloat (Value.str "1"))), ("b", Value.num JSNum.nan)],
       [("a", Value.num (parseFloat (Value.str "1"))),
        ("b", Value.num (parseFloat (Value.str "2")))]] := rfl
  have h := (parseResumeData_field_set "a\tb\n1\n1\t2\t3").1
  exact ⟨hp, (h _ (by rw [hp]; exact List.mem_cons_self _ _)).1,
    (h _ (by rw [hp]; exact List.mem_cons_of_mem _ (List.mem_cons_self _ _))).1⟩

/-- Counterexample to C22 as stated: with the header line `__proto__<TAB>x` and the data line
`1<TAB>2` the only record is `{x: 2}`; the header name `__proto__` is not one of its fields,
so its field set is not the set of header names. -/
theorem parseResumeData_proto_header_not_a_field :
    headersOf "__proto__\tx\n1\t2" = ["__proto__", "x"] ∧
    parseResumeData "__proto__\tx\n1\t2" = [[("x", Value.num (parseFloat (Value.str "2")))]] ∧
    ¬ (∀ row ∈ parseResumeData "__proto__\tx\n1\t2",
      ∀ name, name ∈ Obj.keys row ↔ name ∈ headersOf "__proto__\tx\n1\t2") := by
  have hh : headersOf "__proto__\tx\n1\t2" = ["__proto__", "x"] := rfl
  have hp : parseResumeData "__proto__\tx\n1\t2" =
      [[("x", Value.num (parseFloat (Value.str "2")))]] := rfl
  refine ⟨hh, hp, ?_⟩
  intro h
  have h1 := (h _ (by rw [hp]; exact List.mem_cons_self _ _) "__proto__").2
    (by rw [hh]; exact List.mem_cons_self _ _)
  simp [Obj.keys] at h1

/-! ## The queries of the filter store -/

/-- Claim C23, at the input where the code departs from it.  With no entry for the parameter
(the empty store, or a store holding another parameter only) `isFiltered` returns
`undefined`, not the boolean `false`; where the parameter has an entry the result is the
boolean of the membership test. -/
theorem isFiltered_absent_parameter :
    isFiltered none "p_death" (Value.num (JSNum.fin (1 / 10))) = Value.undefined ∧
    isFiltered (some [("p_birth", [Json.num (1 / 2)])]) "p_death" (Value.num (JSNum.fin (1 / 10)))
      = Value.undefined ∧
    isFiltered none "p_death" (Value.num (JSNum.fin (1 / 10))) ≠ Value.bool false ∧
    isFiltered (some [("p_death", [Json.num (1 / 2)])]) "p_death" (Value.num (JSNum.fin (1 / 2)))
      = Value.bool true ∧
    isFiltered (some [("p_death", [Json.num (1 / 2)])]) "p_death" (Value.num (JSNum.fin (1 / 10)))
      = Value.bool false := by
  refine ⟨rfl, rfl, ?_, ?_, ?_⟩
  · intro h; cases h
  · decide!
  · decide!

theorem foldl_add_length {α : Type} (ls : List (List α)) (n : Nat) :
    ls.foldl (fun sum values => sum + values.length) n = n + (ls.map List.length).sum := by
  induction ls generalizing n with
  | nil => simp
  | cons l ls ih => simp only [List.foldl_cons, ih, List.map_cons, List.sum_cons]; omega

theorem getFilterCount_eq_sum (storage : Storage) :
    getFilterCount storage = ((getActiveFilters storage).map (fun kv => kv.2.length)).sum := by
  unfold getFilterCount
  simp only [foldl_add_length, Nat.zero_add, List.map_map]
  rfl

theorem length_filterPairs (filters : FilterSet) :
    (filterPairs filters).length = (filters.map (fun kv => kv.2.length)).sum := by
  induction filters with
  | nil => rfl
  | cons kv rest ih =>
    have hcons : filterPairs (kv :: rest) = kv.2.map (fun v => (kv.1, v)) ++ filterPairs rest := by
      simp [filterPairs]
    rw [hcons, List.length_append, List.length_map, List.map_cons, List.sum_cons, ih]

theorem mem_filterPairs (filters : FilterSet) (pv : String × Value) :
    pv ∈ filterPairs filters ↔ ∃ kv ∈ filters, kv.1 = pv.1 ∧ pv.2 ∈ kv.2 := by
  obtain ⟨p, v⟩ := pv
  simp only [filterPairs, List.mem_flatMap, List.mem_map, Prod.mk.injEq]
  constructor
  · rintro ⟨kv, hkv, w, hw, rfl, rfl⟩
    exact ⟨kv, hkv, rfl, hw⟩
  · rintro ⟨kv, hkv, rfl, hv⟩
    exact ⟨kv, hkv, v, hv, rfl, rfl⟩

/-- With distinct keys and value lists without repetition no pair is listed twice. -/
theorem nodup_filterPairs (filters : FilterSet) (hk : (Obj.keys filters).Nodup)
    (hv : ∀ kv ∈ filters, kv.2.Nodup) : (filterPairs filters).Nodup := by
  induction filters with
  | nil => simp [filterPairs]
  | cons kv rest ih =>
    have hk2 : kv.1 ∉ Obj.keys rest ∧ (Obj.keys rest).Nodup := by
      simpa [Obj.keys] using hk
    have hrest := ih hk2.2 (fun e he => hv e (List.mem_cons_of_mem _ he))
    have hcons : filterPairs (kv :: rest) = kv.2.map (fun v => (kv.1, v)) ++ filterPairs rest := by
      simp [filterPairs]
    rw [hcons, List.nodup_append]
    refine ⟨?_, hrest, ?_⟩
    · exact (hv kv (List.mem_cons_self _ _)).map (fun a b h => (Prod.mk.inj h).2)
    · intro pv h1 h2
      obtain ⟨v, _, rfl⟩ := List.mem_map.1 h1
      obtain ⟨e, he, hke, _⟩ := (mem_filterPairs rest _).1 h2
      apply hk2.1
      simp only [Obj.keys, List.mem_map]
      exact ⟨e, he, hke⟩

/-- Claim C24.  For every store state, `getFilterCount` returns the sum over the stored
parameters of the length of the value list, which is the number of listed (parameter, value)
pairs (and no pair is listed twice when the parameters are distinct and the FilterSet
invariant holds); it is 0 for the empty store. -/
theorem getFilterCount_spec (storage : Storage) :
    getFilterCount storage = ((getActiveFilters storage).map (fun kv => kv.2.length)).sum ∧
    getFilterCount storage = (filterPairs (getActiveFilters storage)).length ∧
    ((Obj.keys (getActiveFilters storage)).Nodup → FilterSetInvariant (getActiveFilters storage) →
      (filterPairs (getActiveFilters storage)).Nodup) ∧
    (getActiveFilters storage = [] → getFilterCount storage = 0) := by
  refine ⟨getFilterCount_eq_sum storage, ?_, ?_, ?_⟩
  · rw [length_filterPairs, getFilterCount_eq_sum]
  · intro hk hinv
    exact nodup_filterPairs _ hk (fun kv hkv => (hinv kv hkv).2)
  · intro he
    rw [getFilterCount_eq_sum, he]; rfl

/-- Witness of C24: the store `{p_death: [0.1, 0.2], p_birth: [0.5]}` holds three pairs, and
the store without item holds none. -/
theorem getFilterCount_spec_witness :
    getFilterCount (some [("p_death", [Json.num (1 / 10), Json.num (1 / 5)]),
      ("p_birth", [Json.num (1 / 2)])]) = 3 ∧
    (filterPairs (getActiveFilters (some [("p_death", [Json.num (1 / 10), Json.num (1 / 5)]),
      ("p_birth", [Json.num (1 / 2)])]))).Nodup ∧
    getActiveFilters none = [] ∧ getFilterCount none = 0 := by
  have h := getFilterCount_spec (some [("p_death", [Json.num (1 / 10), Json.num (1 / 5)]),
      ("p_birth", [Json.num (1 / 2)])])
  have hk : (Obj.keys (getActiveFilters (some [("p_death", [Json.num (1 / 10), Json.num (1 / 5)]),
      ("p_birth", [Json.num (1 / 2)])]))).Nodup := by decide
  have hinv : FilterSetInvariant (getActiveFilters
      (some [("p_death", [Json.num (1 / 10), Json.num (1 / 5)]), ("p_birth", [Json.num (1 / 2)])])) :=
    filterSetInvariant_of_storedInvariant _ (by
      intro stored hs kv hkv
      cases hs
      simp only [List.mem_cons, List.mem_singleton, List.not_mem_nil, or_false] at hkv
      rcases hkv with rfl | rfl
      · exact ⟨by simp, by decide!⟩
      · exact ⟨by simp, by simp⟩)
  exact ⟨rfl, h.2.2.1 hk hinv, rfl, (getFilterCount_spec none).2.2.2 rfl⟩

/-- Claim C25.  For every store state, after `clearFilters` the store is empty:
`getActiveFilters` returns the empty mapping, `hasActiveFilters` returns false and
`getFilterCount` returns 0. -/
theorem clearFilters_empties (storage : Storage) :
    getActiveFilters (clearFilters storage) = [] ∧
    hasActiveFilters (clearFilters storage) = false ∧
    getFilterCount (clearFilters storage) = 0 :=
  ⟨rfl, rfl, rfl⟩

/-! ## The frame of addFilter and removeFilter -/

theorem Obj.get?_delete_of_ne {α : Type} (o : Obj α) (k q : String) (h : q ≠ k) :
    Obj.get? (Obj.delete o k) q = Obj.get? o q := by
  induction o with
  | nil => rfl
  | cons x rest ih =>
    obtain ⟨a, w⟩ := x
    by_cases hk : a = k
    · subst hk
      have hq : ¬ a = q := fun e => h e.symm
      simpa [Obj.delete, Obj.get?, hq] using ih
    · have : Obj.delete ((a, w) :: rest) k = (a, w) :: Obj.delete rest k := by
        simp [Obj.delete, hk]
      rw [this]
      by_cases hq : a = q
      · simp [Obj.get?, hq]
      · simp only [Obj.get?, hq, if_false]
        exact ih

/-- What `JSON.parse` reads is written back unchanged, so it is read again unchanged. -/
theorem jsonParse_jsonStringify_stored (storage : Storage) :
    jsonParse (jsonStringify (getActiveFilters storage)) = getActiveFilters storage := by
  cases storage with
  | none => rfl
  | some stored =>
    show jsonParse (jsonStringify (jsonParse stored)) = jsonParse stored
    rw [jsonStringify_jsonParse]

theorem getActiveFilters_saveFilters (filters : FilterSet) :
    getActiveFilters (saveFilters filters) =
      filters.map (fun kv => (kv.1, kv.2.map (fun v => Json.toValue (Json.ofValue v)))) := by
  simp [getActiveFilters, saveFilters, jsonParse, jsonStringify, List.map_map, Function.comp_def]

theorem get?_getActiveFilters_saveFilters (filters : FilterSet) (q : String) :
    Obj.get? (getActiveFilters (saveFilters filters)) q =
      (Obj.get? filters q).map (fun arr => arr.map (fun v => Json.toValue (Json.ofValue v))) := by
  rw [getActiveFilters_saveFilters]
  exact Obj.get?_map filters (fun arr => arr.map (fun v => Json.toValue (Json.ofValue v))) q

/-- A list read from the store is unchanged by writing and reading it again. -/
theorem get?_stored_roundTrip (storage : Storage) (q : String) :
    (Obj.get? (getActiveFilters storage) q).map
      (fun arr => arr.map (fun v => Json.toValue (Json.ofValue v))) =
      Obj.get? (getActiveFilters storage) q := by
  have h := get?_getActiveFilters_saveFilters (getActiveFilters storage) q
  rw [← h]
  show Obj.get? (jsonParse (jsonStringify (getActiveFilters storage))) q = _
  rw [jsonParse_jsonStringify_stored]

theorem get?_pushIfAbsent_of_ne (filters : FilterSet) (p q : String) (value : Value) (h : q ≠ p) :
    Obj.get? (pushIfAbsent (ensureList filters p) p value) q = Obj.get? filters q := by
  have hpq : ¬ p = q := fun e => h e.symm
  rw [pushIfAbsent_ensureList]
  cases hg : Obj.get? filters p with
  | some arr =>
    by_cases hin : value ∈ arr
    · simp only [hin, if_true]
    · simp only [hin, if_false, Obj.get?_set, hpq]
  | none => simp only [Obj.get?_set, hpq, if_false]

theorem get?_dropValue_of_ne (filters : FilterSet) (p q : String) (value : Value) (h : q ≠ p) :
    Obj.get? (dropValue filters p value) q = Obj.get? filters q := by
  have hpq : ¬ p = q := fun e => h e.symm
  unfold dropValue
  cases hg : Obj.get? filters p with
  | some arr =>
    simp only
    split
    · rw [Obj.get?_delete_of_ne _ _ _ h, Obj.get?_set, if_neg hpq]
    · rw [Obj.get?_set, if_neg hpq]
  | none => rfl

/-- Claim C30.  For every store state, parameter `p` and value, `addFilter(p, value)` and
`removeFilter(p, value)` leave the value list of every parameter other than `p` as it was
(absent parameters stay absent), and `removeFilter` on a parameter without entry leaves the
whole stored FilterSet unchanged. -/
theorem addFilter_removeFilter_frame (storage : Storage) (p : String) (value : Value) :
    (∀ q, q ≠ p → Obj.get? (getActiveFilters (addFilter storage p value)) q =
      Obj.get? (getActiveFilters storage) q) ∧
    (∀ q, q ≠ p → Obj.get? (getActiveFilters (removeFilter storage p value)) q =
      Obj.get? (getActiveFilters storage) q) ∧
    (Obj.get? (getActiveFilters storage) p = none →
      getActiveFilters (removeFilter storage p value) = getActiveFilters storage) := by
  refine ⟨?_, ?_, ?_⟩
  · intro q hq
    unfold addFilter
    simp only
    rw [get?_getActiveFilters_saveFilters, get?_pushIfAbsent_of_ne _ _ _ _ hq,
      get?_stored_roundTrip]
  · intro q hq
    unfold removeFilter
    simp only
    rw [get?_getActiveFilters_saveFilters, get?_dropValue_of_ne _ _ _ _ hq,
      get?_stored_roundTrip]
  · intro hnone
    unfold removeFilter
    simp only
    have hd : dropValue (getActiveFilters storage) p value = getActiveFilters storage := by
      unfold dropValue
      rw [hnone]
    rw [hd]
    exact jsonParse_jsonStringify_stored storage

/-- Witness of C30: in the store `{p_death: [0.1], p_birth: [0.5]}` adding 0.2 to `p_death`
or removing 0.1 from it leaves `p_birth` at `[0.5]`, and removing from the absent parameter
`mu` leaves the store as it is. -/
theorem addFilter_removeFilter_frame_witness :
    "p_birth" ≠ "p_death" ∧
    Obj.get? (getActiveFilters (addFilter
      (some [("p_death", [Json.num (1 / 10)]), ("p_birth", [Json.num (1 / 2)])])
      "p_death" (Value.num (JSNum.fin (1 / 5))))) "p_birth" = some [Value.num (JSNum.fin (1 / 2))] ∧
    Obj.get? (getActiveFilters (removeFilter
      (some [("p_death", [Json.num (1 / 10)]), ("p_birth", [Json.num (1 / 2)])])
      "p_death" (Value.num (JSNum.fin (1 / 10))))) "p_birth" = some [Value.num (JSNum.fin (1 / 2))] ∧
    Obj.get? (getActiveFilters
      (some [("p_death", [Json.num (1 / 10)]), ("p_birth", [Json.num (1 / 2)])])) "mu" = none ∧
    getActiveFilters (removeFilter
      (some [("p_death", [Json.num (1 / 10)]), ("p_birth", [Json.num (1 / 2)])])
      "mu" (Value.num (JSNum.fin (1 / 10)))) =
      [("p_death", [Value.num (JSNum.fin (1 / 10))]), ("p_birth", [Value.num (JSNum.fin (1 / 2))])] := by
  have hne : "p_birth" ≠ "p_death" := by decide
  have hnone : Obj.get? (getActiveFilters
      (some [("p_death", [Json.num (1 / 10)]), ("p_birth", [Json.num (1 / 2)])])) "mu" = none := by
    decide
  refine ⟨hne, ?_, ?_, hnone, ?_⟩
  · rw [(addFilter_removeFilter_frame _ "p_death" _).1 "p_birth" hne]; rfl
  · rw [(addFilter_removeFilter_frame _ "p_death" _).2.1 "p_birth" hne]; rfl
  · rw [(addFilter_removeFilter_frame _ "mu" _).2.2 hnone]; rfl

/-! ## addFilter followed by removeFilter -/

theorem Value.strictEq_of_jsonExact (w value : Value) (h : JsonExact value) :
    Value.strictEq w value = decide (w = value) := by
  cases value with
  | num x =>
    cases x with
    | fin q =>
      cases w with
      | num y => cases y <;> simp [Value.strictEq, JSNum.strictEq]
      | _ => simp [Value.strictEq]
    | _ => simp [JsonExact, Json.ofValue, Json.toValue] at h
  | _ => cases w <;> simp [Value.strictEq]

theorem filter_append_singleton (arr : List Value) (value : Value) (h : JsonExact value)
    (hnot : value ∉ arr) :
    (arr ++ [value]).filter (fun w => !(Value.strictEq w value)) = arr := by
  rw [List.filter_append]
  have h1 : arr.filter (fun w => !(Value.strictEq w value)) = arr := by
    rw [List.filter_eq_self]
    intro w hw
    rw [Value.strictEq_of_jsonExact w value h]
    have : w ≠ value := fun e => hnot (e ▸ hw)
    simp [this]
  have h2 : [value].filter (fun w => !(Value.strictEq w value)) = [] := by
    simp [Value.strictEq_of_jsonExact value value h]
  rw [h1, h2, List.append_nil]

theorem Obj.set_of_get? {α : Type} (o : Obj α) (k : String) (v : α)
    (h : Obj.get? o k = some v) : Obj.set o k v = o := by
  induction o with
  | nil => simp [Obj.get?] at h
  | cons x rest ih =>
    obtain ⟨a, w⟩ := x
    by_cases hk : a = k
    · subst hk
      simp only [Obj.get?, if_true, Option.some.injEq] at h
      simp [Obj.set, h]
    · simp only [Obj.get?, hk, if_false] at h
      simp [Obj.set, hk, ih h]

theorem Obj.delete_set_of_get?_none {α : Type} (o : Obj α) (k : String) (v : α)
    (h : Obj.get? o k = none) : Obj.delete (Obj.set o k v) k = o := by
  induction o with
  | nil => simp [Obj.set, Obj.delete]
  | cons x rest ih =>
    obtain ⟨a, w⟩ := x
    by_cases hk : a = k
    · simp [Obj.get?, hk] at h
    · simp only [Obj.get?, hk, if_false] at h
      have ih2 : Obj.delete (Obj.set rest k v) k = rest := ih h
      have e : Obj.delete ((a, w) :: Obj.set rest k v) k = (a, w) :: Obj.delete (Obj.set rest k v) k := by
        simp [Obj.delete, hk]
      simp only [Obj.set, hk, if_false]
      rw [e, ih2]

theorem Obj.map_set {α β : Type} (o : Obj α) (g : α → β) (k : String) (v : α) :
    (Obj.set o k v).map (fun kv => (kv.1, g kv.2)) =
      Obj.set (o.map (fun kv => (kv.1, g kv.2))) k (g v) := by
  induction o with
  | nil => simp [Obj.set]
  | cons x rest ih =>
    obtain ⟨a, w⟩ := x
    by_cases hk : a = k
    · simp [Obj.set, hk]
    · simp only [Obj.set, hk, if_false, List.map_cons, ih]

/-- The filters object saved by `addFilter` for a value that JSON stores exactly and that is
not stored yet is read back unchanged. -/
theorem getActiveFilters_addFilter (storage : Storage) (parameter : String) (value : Value)
    (hv : JsonExact value) :
    getActiveFilters (addFilter storage parameter value) =
      pushIfAbsent (ensureList (getActiveFilters storage) parameter) parameter value := by
  unfold addFilter
  simp only
  rw [getActiveFilters_saveFilters, pushIfAbsent_ensureList]
  have hF2 : (getActiveFilters storage).map
      (fun kv => (kv.1, kv.2.map (fun v => Json.toValue (Json.ofValue v)))) =
      getActiveFilters storage := by
    have := getActiveFilters_saveFilters (getActiveFilters storage)
    rw [← this]
    exact jsonParse_jsonStringify_stored storage
  cases hg : Obj.get? (getActiveFilters storage) parameter with
  | some arr =>
    have harr : arr.map (fun v => Json.toValue (Json.ofValue v)) = arr := by
      have := get?_stored_roundTrip storage parameter
      rw [hg] at this
      simpa using this
    by_cases hin : value ∈ arr
    · simp only [hin, if_true]
      exact hF2
    · simp only [hin, if_false]
      have hm := Obj.map_set (getActiveFilters storage)
        (fun l : List Value => l.map (fun v => Json.toValue (Json.ofValue v))) parameter
        (arr ++ [value])
      have hv2 : Json.toValue (Json.ofValue value) = value := hv
      rw [hF2] at hm
      simp only [List.map_append, harr, List.map_cons, List.map_nil, hv2] at hm
      exact hm
  | none =>
    simp only
    have hm := Obj.map_set (getActiveFilters storage)
      (fun l : List Value => l.map (fun v => Json.toValue (Json.ofValue v))) parameter [value]
    have hv2 : Json.toValue (Json.ofValue value) = value := hv
    rw [hF2] at hm
    simp only [List.map_cons, List.map_nil, hv2] at hm
    exact hm

theorem dropValue_pushIfAbsent (filters : FilterSet) (parameter : String) (value : Value)
    (hinv : FilterSetInvariant filters) (hv : JsonExact value)
    (hnot : NotStored filters parameter value) :
    dropValue (pushIfAbsent (ensureList filters parameter) parameter value) parameter value =
      filters := by
  rw [pushIfAbsent_ensureList]
  cases hg : Obj.get? filters parameter with
  | some arr =>
    have hin : value ∉ arr := hnot arr hg
    have hne : arr ≠ [] := (hinv _ (Obj.mem_of_get? filters parameter arr hg)).1
    simp only [hin, if_false]
    unfold dropValue
    rw [Obj.get?_set, if_pos rfl]
    simp only
    rw [filter_append_singleton arr value hv hin]
    have hlen : ¬ arr.length = 0 := fun e => hne (List.length_eq_zero.1 e)
    rw [if_neg hlen, Obj.set_set, Obj.set_of_get? _ _ _ hg]
  | none =>
    simp only
    unfold dropValue
    rw [Obj.get?_set, if_pos rfl]
    simp only
    have hk : List.filter (fun w => !(Value.strictEq w value)) [value] = [] := by
      simp [Value.strictEq_of_jsonExact value value hv]
    rw [hk]
    simp only [List.length_nil, if_true]
    rw [Obj.set_set, Obj.delete_set_of_get?_none _ _ _ hg]

theorem jsonExact_iff (value : Value) :
    JsonExact value ↔ value ≠ Value.undefined ∧ value ≠ Value.num JSNum.nan ∧
      value ≠ Value.num JSNum.posInf ∧ value ≠ Value.num JSNum.negInf := by
  cases value with
  | num x => cases x <;> simp [JsonExact, Json.ofValue, Json.toValue]
  | _ => simp [JsonExact, Json.ofValue, Json.toValue]

/-- Claim C29, as the code has it.  For every store state satisfying the FilterSet invariant,
every parameter and every value that JSON stores exactly (a finite number, a string, a
boolean or null) and that is not currently stored under that parameter,
`addFilter(parameter, value)` followed by `removeFilter(parameter, value)` restores the stored
FilterSet to the state before the two calls: the same parameters in the same order, with the
same value lists in the same order. -/
theorem addFilter_removeFilter_restores (storage : Storage) (parameter : String) (value : Value)
    (hinv : FilterSetInvariant (getActiveFilters storage)) (hv : JsonExact value)
    (hnot : NotStored (getActiveFilters storage) parameter value) :
    getActiveFilters (removeFilter (addFilter storage parameter value) parameter value) =
      getActiveFilters storage := by
  unfold removeFilter
  simp only
  rw [getActiveFilters_addFilter storage parameter value hv,
    dropValue_pushIfAbsent _ parameter value hinv hv hnot]
  exact jsonParse_jsonStringify_stored storage

/-- Witness of C29: in the store `{p_death: [0.1]}` adding 0.2 to `p_death` and removing it
again, and adding 0.2 to the absent `p_birth` and removing it again, both give the store
back. -/
theorem addFilter_removeFilter_restores_witness :
    FilterSetInvariant (getActiveFilters (some [("p_death", [Json.num (1 / 10)])])) ∧
    JsonExact (Value.num (JSNum.fin (1 / 5))) ∧
    NotStored (getActiveFilters (some [("p_death", [Json.num (1 / 10)])])) "p_death"
      (Value.num (JSNum.fin (1 / 5))) ∧
    NotStored (getActiveFilters (some [("p_death", [Json.num (1 / 10)])])) "p_birth"
      (Value.num (JSNum.fin (1 / 5))) ∧
    getActiveFilters (removeFilter (addFilter (some [("p_death", [Json.num (1 / 10)])])
      "p_death" (Value.num (JSNum.fin (1 / 5)))) "p_death" (Value.num (JSNum.fin (1 / 5)))) =
      [("p_death", [Value.num (JSNum.fin (1 / 10))])] ∧
    getActiveFilters (removeFilter (addFilter (some [("p_death", [Json.num (1 / 10)])])
      "p_birth" (Value.num (JSNum.fin (1 / 5)))) "p_birth" (Value.num (JSNum.fin (1 / 5)))) =
      [("p_death", [Value.num (JSNum.fin (1 / 10))])] := by
  have hinv : FilterSetInvariant (getActiveFilters (some [("p_death", [Json.num (1 / 10)])])) := by
    intro kv hkv
    have hkv2 : kv ∈ [("p_death", [Value.num (JSNum.fin (1 / 10))])] := hkv
    simp only [List.mem_singleton] at hkv2
    subst hkv2
    exact ⟨by simp, by simp⟩
  have hv : JsonExact (Value.num (JSNum.fin (1 / 5))) := rfl
  have h1 : NotStored (getActiveFilters (some [("p_death", [Json.num (1 / 10)])])) "p_death"
      (Value.num (JSNum.fin (1 / 5))) := by
    intro arr harr
    have harr2 : some [Value.num (JSNum.fin (1 / 10))] = some arr := harr
    cases harr2
    simp only [List.mem_singleton, Value.num.injEq, JSNum.fin.injEq]
    norm_num
  have h2 : NotStored (getActiveFilters (some [("p_death", [Json.num (1 / 10)])])) "p_birth"
      (Value.num (JSNum.fin (1 / 5))) := by
    intro arr harr
    have harr2 : (none : Option (List Value)) = some arr := harr
    cases harr2
  exact ⟨hinv, hv, h1, h2, addFilter_removeFilter_restores _ _ _ hinv hv h1,
    addFilter_removeFilter_restores _ _ _ hinv hv h2⟩

/-- Counterexample to C29 as stated: in the empty store, which satisfies the invariant and
holds nothing under `p_death`, `addFilter("p_death", NaN)` writes `[null]`, and
`removeFilter("p_death", NaN)` removes nothing because no value is strictly equal to `NaN`:
the store ends as `{p_death: [null]}`, not empty. -/
theorem addFilter_removeFilter_keeps_null_for_nan :
    FilterSetInvariant (getActiveFilters none) ∧
    NotStored (getActiveFilters none) "p_death" (Value.num JSNum.nan) ∧
    getActiveFilters (removeFilter (addFilter none "p_death" (Value.num JSNum.nan))
      "p_death" (Value.num JSNum.nan)) = [("p_death", [Value.null])] ∧
    ¬ (∀ (storage : Storage) (parameter : String) (value : Value),
      FilterSetInvariant (getActiveFilters storage) →
      NotStored (getActiveFilters storage) parameter value →
      getActiveFilters (removeFilter (addFilter storage parameter value) parameter value) =
        getActiveFilters storage) := by
  have hinv : FilterSetInvariant (getActiveFilters none) := by
    intro kv hkv
    cases hkv
  have hnot : NotStored (getActiveFilters none) "p_death" (Value.num JSNum.nan) := by
    intro arr harr
    have harr2 : (none : Option (List Value)) = some arr := harr
    cases harr2
  have heval : getActiveFilters (removeFilter (addFilter none "p_death" (Value.num JSNum.nan))
      "p_death" (Value.num JSNum.nan)) = [("p_death", [Value.null])] := by decide!
  refine ⟨hinv, hnot, heval, ?_⟩
  intro h
  have := h none "p_death" (Value.num JSNum.nan) hinv hnot
  rw [heval] at this
  cases this

/-! ## createPivotTable: no empty row and no empty column -/

theorem Value.strictEq_self_of_nonNaN (v : Value) (h : IsNonNaNNumber v) :
    Value.strictEq v v = true := by
  obtain ⟨x, rfl, hx⟩ := h
  cases x with
  | nan => exact absurd rfl hx
  | _ => simp [Value.strictEq, JSNum.strictEq]

theorem createPivotTable_isSome (toFixed : JSNum → Nat → String) (data : List Record)
    (param1 param2 metric : String) (h1 : NonNaNColumn data param1)
    (h2 : NonNaNColumn data param2) :
    ∃ t, createPivotTable toFixed data param1 param2 metric = some t := by
  have g1 := nonNaNColumn_filterByNeutral data param1 false h1
  have g2 := nonNaNColumn_filterByNeutral data param2 false h2
  obtain ⟨xl, hxl⟩ := mapToFixed_isSome toFixed (getUniqueValues (filterByNeutral data false) param2)
    (fun v hv => by
      obtain ⟨row, hrow, rfl⟩ := (mem_getUniqueValues _ _ _).1 hv
      obtain ⟨x, hx, _⟩ := g2 row hrow
      exact ⟨x, hx⟩)
  obtain ⟨yl, hyl⟩ := mapToFixed_isSome toFixed (getUniqueValues (filterByNeutral data false) param1)
    (fun v hv => by
      obtain ⟨row, hrow, rfl⟩ := (mem_getUniqueValues _ _ _).1 hv
      obtain ⟨x, hx, _⟩ := g1 row hrow
      exact ⟨x, hx⟩)
  unfold createPivotTable
  simp only [hxl, hyl]
  exact ⟨_, rfl⟩

/-- A record of the population fills the cell of its own two keys. -/
theorem pivotCell_of_mem (population : List Record) (param1 param2 metric : String) (d : Record)
    (hd : d ∈ population) (h1 : IsNonNaNNumber (Record.field d param1))
    (h2 : IsNonNaNNumber (Record.field d param2)) :
    ∃ cell, pivotCell population param1 param2 metric (Record.field d param1)
      (Record.field d param2) = some cell := by
  have hne := (pivotCell_spec population param1 param2 metric (Record.field d param1)
    (Record.field d param2)).1.2
    ⟨d, hd, Value.strictEq_self_of_nonNaN _ h1, Value.strictEq_self_of_nonNaN _ h2⟩
  cases hc : pivotCell population param1 param2 metric (Record.field d param1)
      (Record.field d param2) with
  | none => exact absurd hc hne
  | some cell => exact ⟨cell, rfl⟩

theorem mem_filterByNeutral (data : List Record) (neutral : Bool) (d : Record) :
    d ∈ filterByNeutral data neutral ↔
      d ∈ data ∧ Value.strictEq (Record.field d "neutral") (Value.bool neutral) = true := by
  simp [filterByNeutral, List.mem_filter]

/-- Claim C27.  For every list of records with numeric (non-NaN) values of `param1` and
`param2`, `createPivotTable` returns a table in which every row key and every column key is
the value of some record with `neutral === false`, every row of the grid holds a non-null
cell and every column of the grid holds a non-null cell. -/
theorem createPivotTable_no_empty_row_or_column (toFixed : JSNum → Nat → String)
    (data : List Record) (param1 param2 metric : String) (h1 : NonNaNColumn data param1)
    (h2 : NonNaNColumn data param2) :
    ∃ t, createPivotTable toFixed data param1 param2 metric = some t ∧
      (∀ y ∈ t.yValues, ∃ d ∈ data,
        Value.strictEq (Record.field d "neutral") (Value.bool false) = true ∧
          Record.field d param1 = y) ∧
      (∀ x ∈ t.xValues, ∃ d ∈ data,
        Value.strictEq (Record.field d "neutral") (Value.bool false) = true ∧
          Record.field d param2 = x) ∧
      (∀ (i : Nat) (row : List (Option JSNum)), t.values[i]? = some row →
        ∃ (j : Nat) (cell : JSNum), row[j]? = some (some cell)) ∧
      (∀ j : Nat, j < t.xValues.length →
        ∃ (i : Nat) (row : List (Option JSNum)) (cell : JSNum),
          t.values[i]? = some row ∧ row[j]? = some (some cell)) := by
  have g1 := nonNaNColumn_filterByNeutral data param1 false h1
  have g2 := nonNaNColumn_filterByNeutral data param2 false h2
  obtain ⟨t, ht⟩ := createPivotTable_isSome toFixed data param1 param2 metric h1 h2
  obtain ⟨hx, hy, hv⟩ := createPivotTable_eq_some toFixed data param1 param2 metric t ht
  refine ⟨t, ht, ?_, ?_, ?_, ?_⟩
  · intro y hyv
    rw [hy] at hyv
    obtain ⟨d, hd, hfd⟩ := (mem_getUniqueValues _ _ _).1 hyv
    exact ⟨d, ((mem_filterByNeutral _ _ _).1 hd).1, ((mem_filterByNeutral _ _ _).1 hd).2, hfd⟩
  · intro x hxv
    rw [hx] at hxv
    obtain ⟨d, hd, hfd⟩ := (mem_getUniqueValues _ _ _).1 hxv
    exact ⟨d, ((mem_filterByNeutral _ _ _).1 hd).1, ((mem_filterByNeutral _ _ _).1 hd).2, hfd⟩
  · intro i row hrow
    rw [hv, List.getElem?_map] at hrow
    cases hyi : (getUniqueValues (filterByNeutral data false) param1)[i]? with
    | none => rw [hyi] at hrow; cases hrow
    | some y =>
      rw [hyi] at hrow
      simp only [Option.map_some', Option.some.injEq] at hrow
      subst hrow
      obtain ⟨d, hd, hfd⟩ := (mem_getUniqueValues _ _ _).1 (List.getElem?_mem hyi)
      subst hfd
      obtain ⟨cell, hcell⟩ := pivotCell_of_mem (filterByNeutral data false) param1 param2 metric d hd
        (g1 d hd) (g2 d hd)
      have hmem : Record.field d param2 ∈ getUniqueValues (filterByNeutral data false) param2 :=
        (mem_getUniqueValues _ _ _).2 ⟨d, hd, rfl⟩
      obtain ⟨j, hj⟩ := List.mem_iff_getElem?.1 hmem
      refine ⟨j, cell, ?_⟩
      rw [List.getElem?_map, hj, Option.map_some', hcell]
  · intro j hj
    rw [hx] at hj
    have hxj : (getUniqueValues (filterByNeutral data false) param2)[j]? =
        some ((getUniqueValues (filterByNeutral data false) param2)[j]) :=
      List.getElem?_eq_getElem hj
    obtain ⟨d, hd, hfd⟩ := (mem_getUniqueValues _ _ _).1 (List.getElem?_mem hxj)
    obtain ⟨cell, hcell⟩ := pivotCell_of_mem (filterByNeutral data false) param1 param2 metric d hd
      (g1 d hd) (g2 d hd)
    have hmem : Record.field d param1 ∈ getUniqueValues (filterByNeutral data false) param1 :=
      (mem_getUniqueValues _ _ _).2 ⟨d, hd, rfl⟩
    obtain ⟨i, hi⟩ := List.mem_iff_getElem?.1 hmem
    refine ⟨i, (getUniqueValues (filterByNeutral data false) param2).map
      (fun x => pivotCell (filterByNeutral data false) param1 param2 metric
        (Record.field d param1) x), cell, ?_, ?_⟩
    · rw [hv, List.getElem?_map, hi, Option.map_some']
    · rw [List.getElem?_map, hxj, Option.map_some', ← hfd, hcell]

/-- Witness of C27: in the table of `pivotExample` (row keys 1, 3, column keys 2, 4) the
grid is `[[5, null], [null, 6]]`: each row and each column holds one non-null cell. -/
theorem createPivotTable_no_empty_row_or_column_witness :
    NonNaNColumn pivotExample "a" ∧ NonNaNColumn pivotExample "b" ∧
    ∃ t, createPivotTable (fun _ _ => "") pivotExample "a" "b" "m" = some t ∧
      t.values = [[some (JSNum.fin 5), none], [none, some (JSNum.fin 6)]] ∧
      (∀ (i : Nat) (row : List (Option JSNum)), t.values[i]? = some row →
        ∃ (j : Nat) (cell : JSNum), row[j]? = some (some cell)) ∧
      (∀ j : Nat, j < t.xValues.length →
        ∃ (i : Nat) (row : List (Option JSNum)) (cell : JSNum),
          t.values[i]? = some row ∧ row[j]? = some (some cell)) := by
  have ha := nonNaNColumn_pivotExample "a" (Or.inl rfl)
  have hb := nonNaNColumn_pivotExample "b" (Or.inr rfl)
  obtain ⟨t, ht, _, _, hrow, hcol⟩ :=
    createPivotTable_no_empty_row_or_column (fun _ _ => "") pivotExample "a" "b" "m" ha hb
  have hfields := createPivotTable_eq_some (fun _ _ => "") pivotExample "a" "b" "m" t ht
  refine ⟨ha, hb, t, ht, ?_, hrow, hcol⟩
  rw [hfields.2.2]; decide!

/-! ## The range of the coefficient of determination -/

/-- The sum of squared residuals of any line `y = m * x + c`, expanded in the sums. -/
theorem sum_sq_residual (pts : List (ℚ × ℚ)) (m c : ℚ) :
    (pts.map (fun p => (p.2 - (m * p.1 + c)) ^ 2)).sum =
      sumY2 pts - 2 * m * sumXY pts - 2 * c * sumY pts + m ^ 2 * sumX2 pts
        + 2 * m * c * sumX pts + pts.length * c ^ 2 := by
  induction pts with
  | nil => simp [sumY2, sumXY, sumY, sumX2, sumX]
  | cons p pts ih =>
    simp only [sumY2, sumXY, sumY, sumX2, sumX] at ih
    simp only [List.map_cons, List.sum_cons, List.length_cons, ih, Nat.cast_succ, sumY2, sumXY,
      sumY, sumX2, sumX]
    ring

theorem ssTotal_eq (pts : List (ℚ × ℚ)) :
    ssTotal pts = sumY2 pts - 2 * (sumY pts / pts.length) * sumY pts
      + pts.length * (sumY pts / pts.length) ^ 2 := by
  have h := sum_sq_residual pts 0 (sumY pts / pts.length)
  have e : ssTotal pts =
      (pts.map (fun p => (p.2 - (0 * p.1 + sumY pts / pts.length)) ^ 2)).sum := by
    unfold ssTotal
    congr 2
    funext p
    ring
  rw [e, h]
  ring

theorem ssResidual_eq (pts : List (ℚ × ℚ)) :
    ssResidual pts = sumY2 pts - 2 * olsSlope pts * sumXY pts - 2 * olsIntercept pts * sumY pts
      + olsSlope pts ^ 2 * sumX2 pts + 2 * olsSlope pts * olsIntercept pts * sumX pts
      + pts.length * olsIntercept pts ^ 2 :=
  sum_sq_residual pts (olsSlope pts) (olsIntercept pts)

theorem denominator_pos (pts : List (ℚ × ℚ)) (h : XNotAllEqual pts) :
    0 < (pts.length : ℚ) * sumX2 pts - sumX pts ^ 2 := by
  have hne := denominator_ne_zero pts h
  have hn : (0 : ℚ) < pts.length := by
    obtain ⟨p, hp, _⟩ := h
    exact Nat.cast_pos.2 (List.length_pos_of_mem hp)
  have hid := sum_sq_affine (pts.map Prod.fst) pts.length (sumX pts)
  rw [← sumX2_map, ← sumX_map, List.length_map] at hid
  have hnn : 0 ≤ ((pts.map Prod.fst).map (fun x => ((pts.length : ℚ) * x - sumX pts) ^ 2)).sum :=
    List.sum_nonneg (by
      intro y hy
      obtain ⟨x, _, rfl⟩ := List.mem_map.1 hy
      exact sq_nonneg _)
  rw [hid] at hnn
  have hprod : 0 ≤ (pts.length : ℚ) * ((pts.length : ℚ) * sumX2 pts - sumX pts ^ 2) := by
    nlinarith
  have hD : 0 ≤ (pts.length : ℚ) * sumX2 pts - sumX pts ^ 2 := by
    by_contra hneg
    push_neg at hneg
    nlinarith
  exact lt_of_le_of_ne hD (Ne.symm hne)

/-- The fitted line explains a non-negative part of the total sum of squares. -/
theorem ssTotal_sub_ssResidual (pts : List (ℚ × ℚ)) (h : XNotAllEqual pts) :
    ssTotal pts - ssResidual pts =
      olsSlope pts ^ 2 * (((pts.length : ℚ) * sumX2 pts - sumX pts ^ 2) / pts.length) := by
  have hn := length_ne_zero_of_xNotAllEqual pts h
  have hD := denominator_ne_zero pts h
  rw [ssTotal_eq, ssResidual_eq]
  unfold olsIntercept olsSlope
  field_simp
  ring

theorem ssResidual_le_ssTotal (pts : List (ℚ × ℚ)) (h : XNotAllEqual pts) :
    ssResidual pts ≤ ssTotal pts := by
  have hn : (0 : ℚ) < pts.length := by
    obtain ⟨p, hp, _⟩ := h
    exact Nat.cast_pos.2 (List.length_pos_of_mem hp)
  have hD := denominator_pos pts h
  have hsub := ssTotal_sub_ssResidual pts h
  have : 0 ≤ olsSlope pts ^ 2 * (((pts.length : ℚ) * sumX2 pts - sumX pts ^ 2) / pts.length) :=
    mul_nonneg (sq_nonneg _) (div_nonneg hD.le hn.le)
  linarith

theorem ssResidual_nonneg (pts : List (ℚ × ℚ)) : 0 ≤ ssResidual pts :=
  List.sum_nonneg (by
    intro y hy
    obtain ⟨x, _, rfl⟩ := List.mem_map.1 hy
    exact sq_nonneg _)

theorem ssTotal_pos (pts : List (ℚ × ℚ)) (h : YNotAllEqual pts) : 0 < ssTotal pts := by
  have hnn : 0 ≤ ssTotal pts :=
    List.sum_nonneg (by
      intro y hy
      obtain ⟨x, _, rfl⟩ := List.mem_map.1 hy
      exact sq_nonneg _)
  refine lt_of_le_of_ne hnn (fun h0 => ?_)
  obtain ⟨p, hp, q, hq, hpq⟩ := h
  have hall := sum_sq_eq_zero pts (fun p => p.2 - sumY pts / pts.length) h0.symm
  have hp2 := hall p hp
  have hq2 := hall q hq
  simp only at hp2 hq2
  exact hpq (by linarith)

/-- Claim C28.  For every list of finite points whose `x` values are not all equal and whose
`y` values are not all equal, the residual sum of squares of the fitted line does not exceed
the total sum of squares, which is positive, and the `r2` returned by
`calculateLinearRegression` is the number 1 - SS_res/SS_tot with 0 <= r2 <= 1.
(Exact arithmetic.) -/
theorem calculateLinearRegression_r2_range (root : ℚ → ℚ) (pts : List (ℚ × ℚ))
    (hx : XNotAllEqual pts) (hy : YNotAllEqual pts) :
    0 ≤ ssResidual pts ∧ ssResidual pts ≤ ssTotal pts ∧ 0 < ssTotal pts ∧
    ∃ r : ℚ, (calculateLinearRegression root (pts.map Point.ofRat)).r2 = JSNum.fin r ∧
      r = 1 - ssResidual pts / ssTotal pts ∧ 0 ≤ r ∧ r ≤ 1 := by
  have hres := ssResidual_nonneg pts
  have hle := ssResidual_le_ssTotal pts hx
  have htot := ssTotal_pos pts hy
  refine ⟨hres, hle, htot, 1 - ssResidual pts / ssTotal pts, ?_, rfl, ?_, ?_⟩
  · rw [(regression_sums_of_squares root pts hx).1, JSNum.fin_div_fin _ _ htot.ne',
      JSNum.fin_sub_fin]
  · have : ssResidual pts / ssTotal pts ≤ 1 := (div_le_one htot).2 hle
    linarith
  · have : 0 ≤ ssResidual pts / ssTotal pts := div_nonneg hres htot.le
    linarith

/-- Witness of C28: the points (0,0), (1,1), (2,1) have r2 = 3/4. -/
theorem calculateLinearRegression_r2_range_witness :
    XNotAllEqual [(0, 0), (1, 1), (2, 1)] ∧ YNotAllEqual [(0, 0), (1, 1), (2, 1)] ∧
    (calculateLinearRegression (fun q => q) ([(0, 0), (1, 1), (2, 1)].map Point.ofRat)).r2 =
      JSNum.fin (3 / 4) ∧
    ∃ r : ℚ, (calculateLinearRegression (fun q => q) ([(0, 0), (1, 1), (2, 1)].map Point.ofRat)).r2
      = JSNum.fin r ∧ 0 ≤ r ∧ r ≤ 1 := by
  have hx : XNotAllEqual [(0, 0), (1, 1), (2, 1)] :=
    ⟨(0, 0), by simp, (1, 1), by simp, by norm_num⟩
  have hy : YNotAllEqual [(0, 0), (1, 1), (2, 1)] :=
    ⟨(0, 0), by simp, (1, 1), by simp, by norm_num⟩
  obtain ⟨_, _, _, r, hr, _, h0, h1⟩ :=
    calculateLinearRegression_r2_range (fun q => q) [(0, 0), (1, 1), (2, 1)] hx hy
  exact ⟨hx, hy, by decide!, r, hr, h0, h1⟩

/-! ## The nodes of the tree of buildTreeStructure -/

theorem buildTreeStructure_eq_some (clones : List Clone)
    (hnd : (clones.map (fun clone => clone.id)).Nodup) (t : FilteredTree)
    (ht : buildTreeStructure clones = some t) :
    t.root ∈ clones ∧ t.root.ancestor = none ∧ t.children = treeChildIds clones := by
  obtain ⟨h1, _⟩ := buildTreeStructure_root_foldl clones clones hnd (fun _ h => h) none
    (fun _ h => by cases h)
  unfold buildTreeStructure at ht
  cases hr : clones.foldl
      (fun root clone => if clone.ancestor = none then cloneMapGet clones clone.id else root)
      none with
  | none => simp [hr] at ht
  | some node =>
    simp only [hr, Option.some.injEq] at ht
    subst ht
    exact ⟨(h1 node hr).1, (h1 node hr).2, rfl⟩

theorem buildTreeStructure_isSome (clones : List Clone)
    (hnd : (clones.map (fun clone => clone.id)).Nodup) (r : Clone) (hr : r ∈ clones)
    (ha : r.ancestor = none) : ∃ t, buildTreeStructure clones = some t := by
  obtain ⟨_, h2⟩ := buildTreeStructure_root_foldl clones clones hnd (fun _ h => h) none
    (fun _ h => by cases h)
  unfold buildTreeStructure
  cases hf : clones.foldl
      (fun root clone => if clone.ancestor = none then cloneMapGet clones clone.id else root)
      none with
  | none => exact absurd ha ((h2.1 hf).2 r hr)
  | some node => exact ⟨_, rfl⟩

theorem mem_treeChildIds_iff (clones : List Clone) (parent id : Int) :
    id ∈ treeChildIds clones parent ↔
      (cloneMapGet clones parent).isSome = true ∧
        ∃ c ∈ clones, c.ancestor = some parent ∧ c.id = id := by
  unfold treeChildIds
  by_cases hp : (cloneMapGet clones parent).isSome = true
  · simp only [hp, if_true, List.mem_map, List.mem_filter, decide_eq_true_eq, true_and]
    constructor
    · rintro ⟨c, ⟨hc, hca⟩, rfl⟩
      exact ⟨c, hc, hca, rfl⟩
    · rintro ⟨c, hc, hca, rfl⟩
      exact ⟨c, ⟨hc, hca⟩, rfl⟩
  · simp [hp]

theorem inTree_mem_clones (clones : List Clone)
    (hnd : (clones.map (fun clone => clone.id)).Nodup) (t : FilteredTree)
    (ht : buildTreeStructure clones = some t) (x : Int) (hx : InTree t x) :
    ∃ c ∈ clones, c.id = x := by
  obtain ⟨hroot, _, hch⟩ := buildTreeStructure_eq_some clones hnd t ht
  cases hx with
  | root => exact ⟨t.root, hroot, rfl⟩
  | child parent id _ hid =>
    rw [hch] at hid
    exact mem_treeChildIds clones parent x hid

/-- The nodes of the tree are the ids whose ancestor chain leads to the root. -/
theorem inTree_buildTreeStructure_iff (clones : List Clone)
    (hnd : (clones.map (fun clone => clone.id)).Nodup) (t : FilteredTree)
    (ht : buildTreeStructure clones = some t) (x : Int) :
    InTree t x ↔ ∃ k, ancestorIter clones k x = some t.root.id := by
  obtain ⟨hroot, hanc, hch⟩ := buildTreeStructure_eq_some clones hnd t ht
  constructor
  · intro hx
    induction hx with
    | root => exact ⟨0, rfl⟩
    | child parent id _ hid ih =>
      obtain ⟨k, hk⟩ := ih
      rw [hch] at hid
      obtain ⟨_, c, hc, hca, rfl⟩ := (mem_treeChildIds_iff clones parent id).1 hid
      refine ⟨k + 1, ?_⟩
      rw [ancestorIter_succ_of clones k c.id parent c (cloneMapGet_of_mem clones c hnd hc) hca]
      exact hk
  · rintro ⟨k, hk⟩
    induction k generalizing x with
    | zero =>
      simp only [ancestorIter, Option.some.injEq] at hk
      subst hk
      exact InTree.root
    | succ k ih =>
      obtain ⟨clone, a, hg, ha, hka⟩ := (ancestorIter_succ clones k x t.root.id).1 hk
      have hta : InTree t a := ih a hka
      obtain ⟨p, hp, hpa⟩ := inTree_mem_clones clones hnd t ht a hta
      refine InTree.child a x hta ?_
      rw [hch, mem_treeChildIds_iff]
      refine ⟨?_, clone, cloneMapGet_mem clones x clone hg, ha, cloneMapGet_id clones x clone hg⟩
      rw [← hpa, cloneMapGet_of_mem clones p hnd hp]
      rfl

theorem uniqueRoot_spec (clones : List Clone) (h : UniqueRoot clones) :
    ∃ r ∈ clones, r.ancestor = none ∧ ∀ c ∈ clones, c.ancestor = none → c = r := by
  unfold UniqueRoot at h
  obtain ⟨r, hr⟩ := List.length_eq_one.1 h
  have hmem : ∀ c, c ∈ clones ∧ c.ancestor = none ↔ c = r := by
    intro c
    have : c ∈ clones.filter (fun c => decide (c.ancestor = none)) ↔
        c ∈ clones ∧ decide (c.ancestor = none) = true := List.mem_filter
    rw [hr] at this
    simpa [eq_comm] using this.symm
  exact ⟨r, ((hmem r).2 rfl).1, ((hmem r).2 rfl).2, fun c hc hca => (hmem c).1 ⟨hc, hca⟩⟩

/-- A chain that leads to the root passes through clones of the list only. -/
theorem chainInList_of_reaches_root (clones : List Clone)
    (hnd : (clones.map (fun clone => clone.id)).Nodup) (r : Clone) (hr : r ∈ clones)
    (ha : r.ancestor = none) (x : Int) (k : Nat) (hk : ancestorIter clones k x = some r.id) :
    ChainInList clones x := by
  intro j z hj
  rcases Nat.lt_or_ge k j with hlt | hge
  · obtain ⟨i, rfl⟩ : ∃ i, j = k + (i + 1) := ⟨j - k - 1, by omega⟩
    rw [ancestorIter_add, hk] at hj
    simp only [Option.some_bind] at hj
    rw [ancestorIter, cloneMapGet_of_mem clones r hnd hr] at hj
    simp [ha] at hj
  · obtain ⟨i, rfl⟩ : ∃ i, k = j + i := ⟨k - j, by omega⟩
    rw [ancestorIter_add, hj] at hk
    simp only [Option.some_bind] at hk
    cases i with
    | zero =>
      simp only [ancestorIter, Option.some.injEq] at hk
      exact ⟨r, hr, hk.symm⟩
    | succ i =>
      obtain ⟨clone, a, hg, _, _⟩ := (ancestorIter_succ clones i z r.id).1 hk
      exact ⟨clone, cloneMapGet_mem clones z clone hg, cloneMapGet_id clones z clone hg⟩

/-- Without a cycle a chain through clones of the list only leads to the one root. -/
theorem reaches_root_of_chainInList (clones : List Clone)
    (hnd : (clones.map (fun clone => clone.id)).Nodup) (hacyc : NoCycle clones) (r : Clone)
    (huniq : ∀ c ∈ clones, c.ancestor = none → c = r) (x : Int) (hx : ChainInList clones x) :
    ∃ k, ancestorIter clones k x = some r.id := by
  obtain ⟨k, _, y, hy, hstop⟩ := exists_stop clones hacyc r.id x
  refine ⟨k, ?_⟩
  rcases hstop with h | h | ⟨clone, hg, hca⟩
  · rw [hy, h]
  · obtain ⟨c, hc, hcy⟩ := hx k y hy
    rw [← hcy, cloneMapGet_of_mem clones c hnd hc] at h
    cases h
  · have hmem := cloneMapGet_mem clones y clone hg
    have hid := cloneMapGet_id clones y clone hg
    rw [hy, ← hid, huniq clone hmem hca]

/-- Claim C26, as the code has it.  For every clone list with distinct ids, exactly one clone
with ancestor = null and an acyclic ancestor relation, `buildTreeStructure` returns a tree,
and a clone appears in it if and only if every id on its ancestor chain up to the root is
the id of a clone in the list; a clone whose declared ancestor id is absent from the list is
left out of the tree together with all of its descendants, without an error. -/
theorem buildTreeStructure_nodes (clones : List Clone)
    (hnd : (clones.map (fun clone => clone.id)).Nodup) (hroot : UniqueRoot clones)
    (hacyc : NoCycle clones) :
    ∃ t, buildTreeStructure clones = some t ∧
      (∀ c ∈ clones, InTree t c.id ↔ ChainInList clones c.id) ∧
      (∀ c ∈ clones, ∀ a, c.ancestor = some a → (∀ p ∈ clones, p.id ≠ a) →
        ∀ d ∈ clones, (∃ k, ancestorIter clones k d.id = some c.id) → ¬ InTree t d.id) := by
  obtain ⟨r, hr, hra, huniq⟩ := uniqueRoot_spec clones hroot
  obtain ⟨t, ht⟩ := buildTreeStructure_isSome clones hnd r hr hra
  obtain ⟨htr, htra, _⟩ := buildTreeStructure_eq_some clones hnd t ht
  have hrt : t.root = r := huniq t.root htr htra
  have hiff : ∀ x, InTree t x ↔ ChainInList clones x := by
    intro x
    rw [inTree_buildTreeStructure_iff clones hnd t ht x, hrt]
    constructor
    · rintro ⟨k, hk⟩
      exact chainInList_of_reaches_root clones hnd r hr hra x k hk
    · intro hx
      exact reaches_root_of_chainInList clones hnd hacyc r huniq x hx
  refine ⟨t, ht, fun c _ => hiff c.id, ?_⟩
  intro c hc a hca habs d _ hdesc hin
  obtain ⟨k, hk⟩ := hdesc
  have hnext : ancestorIter clones (k + 1) d.id = some a :=
    ancestorIter_next clones k d.id c.id a c hk (cloneMapGet_of_mem clones c hnd hc) hca
  obtain ⟨p, hp, hpa⟩ := (hiff d.id).1 hin (k + 1) a hnext
  exact habs p hp hpa

/-- Witness of C26: in the list 1 (root), 2 (ancestor 1), 4 (ancestor 3, absent),
5 (ancestor 4) the tree holds the clone 2 and neither 4 nor its descendant 5. -/
theorem buildTreeStructure_nodes_witness :
    (orphanExample.map (fun clone => clone.id)).Nodup ∧ UniqueRoot orphanExample ∧
    NoCycle orphanExample ∧
    ∃ t, buildTreeStructure orphanExample = some t ∧
      (InTree t 2 ↔ ChainInList orphanExample 2) ∧ InTree t 2 ∧ ¬ InTree t 4 ∧ ¬ InTree t 5 := by
  have hnd : (orphanExample.map (fun clone => clone.id)).Nodup := by decide
  have hroot : UniqueRoot orphanExample := by unfold UniqueRoot; decide
  have hacyc : NoCycle orphanExample := by
    apply noCycle_of_decreasing
    decide
  obtain ⟨t, ht, hiff, hdrop⟩ := buildTreeStructure_nodes orphanExample hnd hroot hacyc
  have hch : t.children = treeChildIds orphanExample :=
    (buildTreeStructure_eq_some orphanExample hnd t ht).2.2
  have hr : t.root = { id := 1, ancestor := none } := by
    have : buildTreeStructure orphanExample =
        some { root := { id := 1, ancestor := none }, children := treeChildIds orphanExample } := rfl
    rw [this] at ht
    cases ht
    rfl
  have h2 : InTree t 2 := by
    have h1 : InTree t 1 := by
      have := @InTree.root t
      rwa [hr] at this
    refine InTree.child 1 2 h1 ?_
    rw [hch]
    decide
  have h4abs : ∀ p ∈ orphanExample, p.id ≠ 3 := by decide
  refine ⟨hnd, hroot, hacyc, t, ht, hiff { id := 2, ancestor := some 1 } (by decide), h2, ?_, ?_⟩
  · exact hdrop { id := 4, ancestor := some 3 } (by decide) 3 rfl h4abs
      { id := 4, ancestor := some 3 } (by decide) ⟨0, rfl⟩
  · exact hdrop { id := 4, ancestor := some 3 } (by decide) 3 rfl h4abs
      { id := 5, ancestor := some 4 } (by decide) ⟨1, by decide⟩

theorem ancestorIter_cyclicExample (k : Nat) :
    (ancestorIter cyclicExample k 2 = some 2 ∨ ancestorIter cyclicExample k 2 = some 3) ∧
    (ancestorIter cyclicExample k 3 = some 2 ∨ ancestorIter cyclicExample k 3 = some 3) := by
  induction k with
  | zero => exact ⟨Or.inl rfl, Or.inr rfl⟩
  | succ k ih =>
    have e2 : ancestorIter cyclicExample (k + 1) 2 = ancestorIter cyclicExample k 3 :=
      ancestorIter_succ_of cyclicExample k 2 3 { id := 2, ancestor := some 3 } (by decide) rfl
    have e3 : ancestorIter cyclicExample (k + 1) 3 = ancestorIter cyclicExample k 2 :=
      ancestorIter_succ_of cyclicExample k 3 2 { id := 3, ancestor := some 2 } (by decide) rfl
    rw [e2, e3]
    exact ⟨ih.2, ih.1⟩

/-- Counterexample to C26 as stated: in the list 1 (root), 2 (ancestor 3), 3 (ancestor 2) the
ids are distinct and one clone has ancestor = null; the ancestor chain of the clone 2 is
3, 2, 3, ..., every id on it is the id of a clone in the list, but the chain never reaches the
root and the tree holds the clone 1 only. -/
theorem buildTreeStructure_cycle_not_in_tree :
    (cyclicExample.map (fun clone => clone.id)).Nodup ∧ UniqueRoot cyclicExample ∧
    ChainInList cyclicExample 2 ∧
    (∃ t, buildTreeStructure cyclicExample = some t ∧ ¬ InTree t 2) ∧
    ¬ (∀ clones : List Clone, (clones.map (fun clone => clone.id)).Nodup → UniqueRoot clones →
      ∃ t, buildTreeStructure clones = some t ∧
        ∀ c ∈ clones, InTree t c.id ↔ ChainInList clones c.id) := by
  have hnd : (cyclicExample.map (fun clone => clone.id)).Nodup := by decide
  have hroot : UniqueRoot cyclicExample := by unfold UniqueRoot; decide
  have hchain : ChainInList cyclicExample 2 := by
    intro k x hx
    rcases (ancestorIter_cyclicExample k).1 with h | h
    · rw [h] at hx
      cases hx
      exact ⟨{ id := 2, ancestor := some 3 }, by decide, rfl⟩
    · rw [h] at hx
      cases hx
      exact ⟨{ id := 3, ancestor := some 2 }, by decide, rfl⟩
  have hbuild : buildTreeStructure cyclicExample =
      some { root := { id := 1, ancestor := none }, children := treeChildIds cyclicExample } := rfl
  have honly : ∀ t, buildTreeStructure cyclicExample = some t → ∀ x, InTree t x → x = 1 := by
    intro t ht x hx
    rw [hbuild] at ht
    cases ht
    induction hx with
    | root => rfl
    | child parent id _ hid ih =>
      subst ih
      have : id ∈ treeChildIds cyclicExample 1 := hid
      have hnil : treeChildIds cyclicExample 1 = [] := by decide
      rw [hnil] at this
      cases this
  refine ⟨hnd, hroot, hchain, ⟨_, hbuild, fun h => ?_⟩, ?_⟩
  · have := honly _ hbuild 2 h
    omega
  · intro hall
    obtain ⟨t, ht, hiff⟩ := hall cyclicExample hnd hroot
    have hin : InTree t 2 :=
      (hiff { id := 2, ancestor := some 3 } (by decide)).2 hchain
    have := honly t ht 2 hin
    omega

/-! ## Exact and rounded arithmetic

With the identity as rounding the rounded functions are the exact ones, so the two models
differ in the roundings only. -/

theorem calculateStatsRounded_id (root : ℚ → ℚ) (parameter metric : String)
    (filteredData : List Record) (paramValue : Value) :
    calculateStatsRounded (fun x => x) root parameter metric filteredData paramValue =
      calculateStats root parameter metric filteredData paramValue := rfl

theorem aggregateByParameterRounded_id (root : ℚ → ℚ) (data : List Record)
    (parameter metric : String) :
    aggregateByParameterRounded (fun x => x) root data parameter metric =
      aggregateByParameter root data parameter metric := rfl

theorem calculateLinearRegressionRounded_id (root : ℚ → ℚ) (dataPoints : List Point) :
    calculateLinearRegressionRounded (fun x => x) root dataPoints =
      calculateLinearRegression root dataPoints := rfl

theorem confidenceIntervalRounded_id (root : ℚ → ℚ) (dataPoints : List Point) :
    confidenceIntervalRounded (fun x => x) root dataPoints =
      confidenceInterval root dataPoints := rfl

/-- The binary64 values of the decimal literals used in the examples. -/
theorem double_examples :
    double (1 / 10) = JSNum.fin (3602879701896397 / 36028797018963968) ∧
    double (1 / 5) = JSNum.fin (3602879701896397 / 18014398509481984) ∧
    double (3 / 10) = JSNum.fin (5404319552844595 / 18014398509481984) ∧
    JSNum.toBinary64 (double (1 / 10) + double (1 / 5)) =
      JSNum.fin (1351079888211149 / 4503599627370496) := by
  refine ⟨by decide!, by decide!, by decide!, by decide!⟩

/-- Counterexample to C11 as stated: in binary64 the points (0, 0.1), (1, 0.1), (2, 0.1)
have identical `y` and different `x`, but the sum of the three `y` is 0.30000000000000004 and
their computed mean 0.10000000000000002 differs from 0.1; SS_tot and SS_res are the same
positive number and the returned r2 is 1 - 1 = 0, not not-a-number. -/
theorem calculateLinearRegression_r2_flat_binary64 :
    (∀ p ∈ flatExample, p.y = double (1 / 10)) ∧
    flatExample.map (fun p => p.x) = [JSNum.fin 0, JSNum.fin 1, JSNum.fin 2] ∧
    (calculateLinearRegressionRounded JSNum.toBinary64 (fun q => q) flatExample).r2 =
      JSNum.fin 0 ∧
    (calculateLinearRegressionRounded JSNum.toBinary64 (fun q => q) flatExample).r2 ≠
      JSNum.nan ∧
    (calculateLinearRegressionRounded JSNum.toBinary64 (fun q => q) flatExample).intercept =
      JSNum.fin (7205759403792795 / 72057594037927936) := by
  refine ⟨by decide!, rfl, by decide!, by decide!, by decide!⟩

/-- Counterexample to C12 as stated: in binary64, for points with the `x` values 0.1, 0.2 and
0.3 the last abscissa of the band, `0.1 + (0.3 - 0.1) * 50 / 50`, is 0.30000000000000004,
which is larger than the maximum observed `x`, 0.3. -/
theorem confidenceInterval_last_abscissa_binary64 :
    Math_max (bandExample.map (fun p => p.x)) =
      JSNum.fin (5404319552844595 / 18014398509481984) ∧
    ((confidenceIntervalRounded JSNum.toBinary64 (fun q => q) bandExample)[50]?).map
      (fun p => p.x) = some (JSNum.fin (1351079888211149 / 4503599627370496)) ∧
    JSNum.lt (Math_max (bandExample.map (fun p => p.x)))
      (JSNum.fin (1351079888211149 / 4503599627370496)) = true ∧
    ((confidenceIntervalRounded JSNum.toBinary64 (fun q => q) bandExample)[0]?).map
      (fun p => p.x) = some (Math_min (bandExample.map (fun p => p.x))) := by
  refine ⟨by decide!, by decide!, by decide!, by decide!⟩

/-- Counterexample to C18 as stated, at two inputs.  For the number `NaN` the partition of
the single record of `nanMetricExample` has mean `NaN` and std `NaN`, not std 0.  For the
finite number 0.1 in binary64, the partition of the three records of `tenthMetricExample`
has the sum 0.30000000000000004 and the mean 0.10000000000000002, not 0.1. -/
theorem aggregateByParameter_constant_partition_fails :
    ((aggregateByParameter (fun q => q) nanMetricExample "p" "m").neutral[0]? =
        some { mean := JSNum.nan, std := JSNum.nan } ∧
      ¬ ConstantPartitionStats (fun q => q) nanMetricExample "p" "m" JSNum.nan) ∧
    ((∀ row ∈ tenthMetricExample, Record.field row "m" = Value.num (double (1 / 10))) ∧
      double (1 / 10) = JSNum.fin (7205759403792794 / 72057594037927936) ∧
      ((aggregateByParameterRounded JSNum.toBinary64 (fun q => q) tenthMetricExample
        "p" "m").neutral[0]?).map (fun stats => stats.mean) =
          some (JSNum.fin (7205759403792795 / 72057594037927936))) := by
  have h1 : (aggregateByParameter (fun q => q) nanMetricExample "p" "m").neutral[0]? =
      some { mean := JSNum.nan, std := JSNum.nan } := by decide!
  refine ⟨⟨h1, ?_⟩, by decide!, by decide!, by decide!⟩
  intro h
  have h2 := h 0 (Value.num (JSNum.fin 1)) true (by decide!) (by decide!)
    (by
      intro row hrow
      have hp : partitionRecords nanMetricExample true "p" (Value.num (JSNum.fin 1)) =
          nanMetricExample := by decide!
      rw [hp] at hrow
      simp only [nanMetricExample, List.mem_singleton] at hrow
      subst hrow
      decide!)
  have h3 : (aggregateByParameter (fun q => q) nanMetricExample "p" "m").cohort true =
      (aggregateByParameter (fun q => q) nanMetricExample "p" "m").neutral := rfl
  rw [h3, h1] at h2
  simp at h2

end TumorViz
